import Mathlib

/-!
# Skyclerk CLI: the API client, the config file and the command helpers

A shallow embedding of `internal/api/client.go` and of the resource operations
built on it, of `internal/config/config.go`, and of the helpers of `cmd` that
build the client and the update records, together with the parts of the Go
standard library that decide what they do (`net/url` query handling, `fmt`
decimal verbs, `net/http` headers, `encoding/json`, `unicode/utf8`).

Go strings are byte sequences, so they are modelled as lists of bytes.
The HTTP round trip, the local file system and the multipart boundary are
inputs of the model: the functions below are pure in them.
-/

namespace Skyclerk

/-! ## Go strings -/

/-- One byte of a Go string. -/
abbrev Byte := Fin 256

/-- Go `string`: an immutable sequence of bytes. -/
abbrev GoString := List Byte

/-- The byte of an ASCII character. -/
def byteOf (c : Char) : Byte := ⟨c.toNat % 256, Nat.mod_lt _ (by decide)⟩

/-- The Go string of an ASCII literal. -/
def lit (s : String) : GoString := s.toList.map byteOf

/-- Go `strings.Cut(s, sep)` for a one-byte separator: the text before the
first `sep` and the text after it (all of `s` and the empty string when `sep`
does not occur). -/
def cut (sep : Byte) : GoString → GoString × GoString
  | [] => ([], [])
  | c :: cs => if c = sep then ([], cs) else ((cut sep cs).1.cons c, (cut sep cs).2)

/-- Go `strings.Split(s, sep)` for a one-byte separator. -/
def splitBy (sep : Byte) : GoString → List GoString
  | [] => [[]]
  | c :: cs =>
    if c = sep then [] :: splitBy sep cs
    else match splitBy sep cs with
      | [] => [[c]]
      | h :: t => (c :: h) :: t

/-- Joins the pieces with a one-byte separator (Go `strings.Join`). -/
def joinBy (sep : Byte) : List GoString → GoString
  | [] => []
  | [x] => x
  | x :: y :: rest => x ++ sep :: joinBy sep (y :: rest)

/-- Go's `<=` on strings: bytewise lexicographic order. -/
def strLE : GoString → GoString → Bool
  | [], _ => true
  | _ :: _, [] => false
  | a :: as, b :: bs => if a < b then true else if b < a then false else strLE as bs

/-- Go `slices.Sort` on a slice of strings. -/
def sortStrings (l : List GoString) : List GoString :=
  l.insertionSort (fun a b => strLE a b = true)

/-! ## Decimal formatting (`fmt` verb `%d`) -/

/-- The ASCII digit of a number below ten. -/
def digitByte (d : Nat) : Byte := ⟨(48 + d % 10) % 256, Nat.mod_lt _ (by decide)⟩

/-- The digit loop of `strconv.FormatUint` in base ten, with the digits
produced so far in `acc`. -/
def formatBits : Nat → Nat → GoString → GoString
  | 0, _, acc => acc
  | fuel + 1, u, acc =>
    if u < 10 then digitByte u :: acc
    else formatBits fuel (u / 10) (digitByte (u % 10) :: acc)

/-- The text `%d` prints for an unsigned integer. -/
def FormatUint (u : Nat) : GoString := formatBits (u + 1) u []

/-- The text `%d` prints for a signed integer. -/
def FormatInt (i : Int) : GoString :=
  if i < 0 then byteOf '-' :: FormatUint i.natAbs else FormatUint i.toNat

/-! ## `net/url`: query escaping -/

/-- Go `shouldEscape(c, encodeQueryComponent)`: everything but the unreserved
characters is escaped in a query component. -/
def shouldEscape (c : Byte) : Bool :=
  if (byteOf 'a' ≤ c ∧ c ≤ byteOf 'z') ∨ (byteOf 'A' ≤ c ∧ c ≤ byteOf 'Z')
      ∨ (byteOf '0' ≤ c ∧ c ≤ byteOf '9') then false
  else if c = byteOf '-' ∨ c = byteOf '_' ∨ c = byteOf '.' ∨ c = byteOf '~' then false
  else true

/-- The upper-case hexadecimal digit of a number below sixteen
(`"0123456789ABCDEF"[n]`). -/
def upperhex (n : Nat) : Byte :=
  if n % 16 < 10 then ⟨(48 + n % 16) % 256, Nat.mod_lt _ (by decide)⟩
  else ⟨(55 + n % 16) % 256, Nat.mod_lt _ (by decide)⟩

/-- The escaped form of one byte in a query component. -/
def escapeByte (c : Byte) : GoString :=
  if shouldEscape c then
    if c = byteOf ' ' then [byteOf '+']
    else [byteOf '%', upperhex (c.val / 16), upperhex (c.val % 16)]
  else [c]

/-- Go `url.QueryEscape`. -/
def QueryEscape (s : GoString) : GoString := s.flatMap escapeByte

/-- Go `ishex`. -/
def ishex (c : Byte) : Bool :=
  (byteOf '0' ≤ c ∧ c ≤ byteOf '9') ∨ (byteOf 'a' ≤ c ∧ c ≤ byteOf 'f')
    ∨ (byteOf 'A' ≤ c ∧ c ≤ byteOf 'F')

/-- Go `unhex`. -/
def unhex (c : Byte) : Nat :=
  if byteOf '0' ≤ c ∧ c ≤ byteOf '9' then c.val - 48
  else if byteOf 'a' ≤ c ∧ c ≤ byteOf 'f' then c.val - 97 + 10
  else if byteOf 'A' ≤ c ∧ c ≤ byteOf 'F' then c.val - 65 + 10
  else 0

/-- The byte `unhex(a)<<4 | unhex(b)`. -/
def hexPair (a b : Byte) : Byte :=
  ⟨(unhex a <<< 4 ||| unhex b) % 256, Nat.mod_lt _ (by decide)⟩

/-- Go `url.QueryUnescape`; `none` stands for the `EscapeError` returned at
the first `%` that is not followed by two hexadecimal digits. -/
def QueryUnescape : GoString → Option GoString
  | [] => some []
  | c :: rest =>
    if c = byteOf '%' then
      match rest with
      | h1 :: h2 :: rest2 =>
        if ishex h1 && ishex h2 then (QueryUnescape rest2).map (List.cons (hexPair h1 h2))
        else none
      | _ => none
    else if c = byteOf '+' then (QueryUnescape rest).map (List.cons (byteOf ' '))
    else (QueryUnescape rest).map (List.cons c)

/-! ## `net/url`: `Values` -/

/-- Go `url.Values` (and `http.Header`): a map from a key to a list of values,
kept as the list of its entries. -/
abbrev Values := List (GoString × List GoString)

/-- Go `v[key]`: the values under `key`, nil when the key is absent. -/
def Values.Lookup : Values → GoString → List GoString
  | [], _ => []
  | (k, vs) :: rest, key => if k = key then vs else Values.Lookup rest key

/-- Go `v.Get(key)`: the first value under `key`, the empty string when there
is none. -/
def Values.Get (v : Values) (key : GoString) : GoString :=
  match v.Lookup key with
  | [] => []
  | x :: _ => x

/-- Go `v.Has(key)`. -/
def Values.Has : Values → GoString → Bool
  | [], _ => false
  | (k, _) :: rest, key => if k = key then true else Values.Has rest key

/-- Go `v.Set(key, value)`: `v[key] = []string{value}`. -/
def Values.Set : Values → GoString → GoString → Values
  | [], key, value => [(key, [value])]
  | (k, vs) :: rest, key, value =>
    if k = key then (k, [value]) :: rest else (k, vs) :: Values.Set rest key value

/-- Go `v.Add(key, value)`: `v[key] = append(v[key], value)`. -/
def Values.Add : Values → GoString → GoString → Values
  | [], key, value => [(key, [value])]
  | (k, vs) :: rest, key, value =>
    if k = key then (k, vs ++ [value]) :: rest else (k, vs) :: Values.Add rest key value

/-- Go `v.Encode()`: the pairs `key=value`, both escaped, joined by `&`, in
the order of the sorted keys. -/
def Values.Encode (v : Values) : GoString :=
  joinBy (byteOf '&')
    ((sortStrings (v.map Prod.fst)).flatMap (fun k =>
      (v.Lookup k).map (fun x => QueryEscape k ++ byteOf '=' :: QueryEscape x)))

/-- One turn of the loop of Go `parseQuery`: the pair `key=value` of a segment
is unescaped and added; a segment with a semicolon, an empty segment and a
segment with a malformed escape are skipped. -/
def parseQuerySegment (m : Values) (seg : GoString) : Values :=
  if byteOf ';' ∈ seg then m
  else if seg = [] then m
  else
    match QueryUnescape (cut (byteOf '=') seg).1, QueryUnescape (cut (byteOf '=') seg).2 with
    | some key, some value => m.Add key value
    | _, _ => m

/-- Go `url.ParseQuery` with its error dropped, as `URL.Query` uses it. -/
def ParseQuery (query : GoString) : Values :=
  (splitBy (byteOf '&') query).foldl parseQuerySegment []

/-! ## `net/url`: `URL` -/

/-- Go `url.URL`, as far as the client depends on it. `Base` holds the scheme,
authority and path as they stand in the text (the library splits and
re-escapes them; none of that touches the query), `Fragment` the text after
the first `#`. -/
structure URL where
  Base : GoString
  RawQuery : GoString
  ForceQuery : Bool
  Fragment : GoString
deriving DecidableEq, Repr

/-- Go `stringContainsCTLByte`: an ASCII control character occurs in the text. -/
def containsCTLByte (s : GoString) : Bool :=
  s.any (fun b => decide (b.val < 32) || decide (b.val = 127))

/-- Go `url.Parse`, as far as the query is concerned: the fragment is cut off
at the first `#`, a control character in the rest is an error, and the query
is what follows the first `?` (a lone trailing `?` sets `ForceQuery`).
The further checks the library makes on the scheme, authority and path can
only reject more texts; on a text they accept the query and the fragment are
the ones computed here. -/
def Parse (rawURL : GoString) : Except GoString URL :=
  let u := (cut (byteOf '#') rawURL).1
  let frag := (cut (byteOf '#') rawURL).2
  if containsCTLByte u then
    .error (lit "net/url: invalid control character in URL")
  else if u.getLast? = some (byteOf '?') ∧ u.count (byteOf '?') = 1 then
    .ok { Base := u.dropLast, RawQuery := [], ForceQuery := true, Fragment := frag }
  else
    .ok { Base := (cut (byteOf '?') u).1, RawQuery := (cut (byteOf '?') u).2,
          ForceQuery := false, Fragment := frag }

/-- Go `u.Query()`: the parsed `RawQuery`, malformed pairs dropped. -/
def URL.Query (u : URL) : Values := ParseQuery u.RawQuery

/-- Go `u.String()`: the text of the URL again, `?` and the query when there
is one (or `ForceQuery`), `#` and the fragment when there is one. -/
def URL.String (u : URL) : GoString :=
  u.Base
    ++ (if u.ForceQuery = true ∨ u.RawQuery ≠ [] then byteOf '?' :: u.RawQuery else [])
    ++ (if u.Fragment ≠ [] then byteOf '#' :: u.Fragment else [])

/-! ## `net/http`: requests -/

/-- One part written through a `multipart.Writer`. -/
inductive Part where
  /-- The part of `WriteField(name, value)`. -/
  | field (name value : GoString)
  /-- The part of `CreateFormFile(fieldname, filename)` with the bytes copied
  into it. -/
  | file (fieldname filename content : GoString)
deriving DecidableEq, Repr

/-- The body handed to `http.NewRequest`. -/
inductive Body where
  /-- A nil body. -/
  | none
  /-- The bytes of a `bytes.Reader`. -/
  | bytes (data : GoString)
  /-- The buffer a `multipart.Writer` with this boundary wrote these parts
  into, closed. -/
  | multipart (boundary : GoString) (parts : List Part)
deriving DecidableEq, Repr

/-- Go `http.Request`, as far as the client sets it. -/
structure Request where
  Method : GoString
  URL : URL
  Header : Values
  Body : Body
deriving DecidableEq, Repr

/-- Go `http.NewRequest(method, url, body)` for the constant methods the client
uses: it fails when the URL does not parse. -/
def NewRequest (method url : GoString) (body : Body) : Except GoString Request :=
  match Parse url with
  | .error e => .error e
  | .ok u => .ok { Method := method, URL := u, Header := [], Body := body }

/-- Go `req.Header.Set(key, value)`; the keys the client uses are in canonical
form already. -/
def Request.SetHeader (req : Request) (key value : GoString) : Request :=
  { req with Header := req.Header.Set key value }

/-- What `httpClient.Do` and `io.ReadAll` on the response body give for a
request. -/
inductive RoundTrip where
  /-- The transport failed with this error. -/
  | failed (err : GoString)
  /-- A response with this status code arrived; reading its body gave these
  bytes or failed with this error. -/
  | response (status : Int) (body : Except GoString GoString)

/-- What opening and reading a local file gives. -/
inductive FileRead where
  /-- The failure of `os.Open`. -/
  | openError (err : GoString)
  /-- The file opened and reading it failed. -/
  | readError (err : GoString)
  /-- The bytes of the file. -/
  | content (data : GoString)

/-- The world outside the client: the HTTP stack, the file system and the
boundary the multipart writer draws. -/
structure Env where
  send : Request → RoundTrip
  readFile : GoString → FileRead
  boundary : GoString

/-- Go `filepath.Base` on Unix: trailing slashes are dropped, the last element
is kept; `.` for the empty path, `/` for a path of slashes only. -/
def filepathBase (path : GoString) : GoString :=
  if path = [] then lit "."
  else
    let stripped := (path.reverse.dropWhile (fun b => b = byteOf '/')).reverse
    let last := (stripped.reverse.takeWhile (fun b => b ≠ byteOf '/')).reverse
    if last = [] then lit "/" else last

/-! ## `client.go` -/

/-- Go `map[string]string`, as the list of its entries in iteration order
(nil is the empty list). -/
abbrev Params := List (GoString × GoString)

/-- The result of `json.Marshal(body)`: the JSON text or the error. -/
abbrev Marshalled := Except GoString GoString

/-- The `Client` of `client.go` (its `http.Client` is part of `Env`). -/
structure Client where
  baseURL : GoString
  accessToken : GoString
  accountID : Nat
deriving DecidableEq, Repr

/-- `NewClient`. -/
def NewClient (baseURL accessToken : GoString) (accountID : Nat) : Client :=
  { baseURL := baseURL, accessToken := accessToken, accountID := accountID }

/-- `Client.SetBaseURL`. -/
def Client.SetBaseURL (c : Client) (url : GoString) : Client := { c with baseURL := url }

/-- `Client.SetAccountID`. -/
def Client.SetAccountID (c : Client) (id : Nat) : Client := { c with accountID := id }

/-- `Client.accountPath`: `fmt.Sprintf("/api/v3/%d%s", c.accountID, path)`. -/
def Client.accountPath (c : Client) (path : GoString) : GoString :=
  lit "/api/v3/" ++ FormatUint c.accountID ++ path

/-- `Client.doRequest`: the request is executed, the body read, and a status
outside [200,300) turned into an error. -/
def Client.doRequest (_c : Client) (env : Env) (req : Request) : Except GoString GoString :=
  match env.send req with
  | .failed err => .error (lit "request failed: " ++ err)
  | .response _ (.error err) => .error (lit "unable to read response body: " ++ err)
  | .response status (.ok body) =>
    if status < 200 ∨ status ≥ 300 then
      .error (lit "API error (status " ++ FormatInt status ++ lit "): " ++ body)
    else .ok body

/-- The loop of `Client.get` over the parameters: every non-empty value is set. -/
def setParams (q : Values) (params : Params) : Values :=
  params.foldl (fun q kv => if kv.2 ≠ [] then q.Set kv.1 kv.2 else q) q

/-- The request `Client.get` builds, or the error it returns before sending. -/
def Client.getRequest (c : Client) (path : GoString) (params : Params) :
    Except GoString Request :=
  match Parse (c.baseURL ++ path) with
  | .error err => .error (lit "invalid URL: " ++ err)
  | .ok u =>
    let q := setParams u.Query params
    let u := { u with RawQuery := q.Encode }
    match NewRequest (lit "GET") u.String Body.none with
    | .error err => .error (lit "unable to create request: " ++ err)
    | .ok req =>
      .ok ((req.SetHeader (lit "Authorization") (lit "Bearer " ++ c.accessToken)).SetHeader
        (lit "Accept") (lit "application/json"))

/-- The request `Client.post` builds, or the error it returns before sending. -/
def Client.postRequest (c : Client) (path : GoString) (body : Marshalled) :
    Except GoString Request :=
  match body with
  | .error err => .error (lit "unable to marshal request body: " ++ err)
  | .ok jsonBody =>
    match NewRequest (lit "POST") (c.baseURL ++ path) (Body.bytes jsonBody) with
    | .error err => .error (lit "unable to create request: " ++ err)
    | .ok req =>
      .ok (((req.SetHeader (lit "Authorization") (lit "Bearer " ++ c.accessToken)).SetHeader
        (lit "Content-Type") (lit "application/json")).SetHeader
        (lit "Accept") (lit "application/json"))

/-- The request `Client.postNoAuth` builds, or the error it returns before
sending. -/
def Client.postNoAuthRequest (c : Client) (path : GoString) (body : Marshalled) :
    Except GoString Request :=
  match body with
  | .error err => .error (lit "unable to marshal request body: " ++ err)
  | .ok jsonBody =>
    match NewRequest (lit "POST") (c.baseURL ++ path) (Body.bytes jsonBody) with
    | .error err => .error (lit "unable to create request: " ++ err)
    | .ok req =>
      .ok ((req.SetHeader (lit "Content-Type") (lit "application/json")).SetHeader
        (lit "Accept") (lit "application/json"))

/-- The request `Client.put` builds, or the error it returns before sending. -/
def Client.putRequest (c : Client) (path : GoString) (body : Marshalled) :
    Except GoString Request :=
  match body with
  | .error err => .error (lit "unable to marshal request body: " ++ err)
  | .ok jsonBody =>
    match NewRequest (lit "PUT") (c.baseURL ++ path) (Body.bytes jsonBody) with
    | .error err => .error (lit "unable to create request: " ++ err)
    | .ok req =>
      .ok (((req.SetHeader (lit "Authorization") (lit "Bearer " ++ c.accessToken)).SetHeader
        (lit "Content-Type") (lit "application/json")).SetHeader
        (lit "Accept") (lit "application/json"))

/-- The request `Client.delete` builds, or the error it returns before
sending. -/
def Client.deleteRequest (c : Client) (path : GoString) : Except GoString Request :=
  match NewRequest (lit "DELETE") (c.baseURL ++ path) Body.none with
  | .error err => .error (lit "unable to create request: " ++ err)
  | .ok req =>
    .ok ((req.SetHeader (lit "Authorization") (lit "Bearer " ++ c.accessToken)).SetHeader
      (lit "Accept") (lit "application/json"))

/-- The request `Client.uploadFile` builds, or the error it returns before
sending: the fields are written in the iteration order of the map, then the
file part; `FormDataContentType` names the boundary. -/
def Client.uploadFileRequest (c : Client) (env : Env) (path filePath : GoString)
    (fields : Params) : Except GoString Request :=
  match env.readFile filePath with
  | .openError err => .error (lit "unable to open file: " ++ err)
  | .readError err => .error (lit "unable to copy file data: " ++ err)
  | .content data =>
    let parts := fields.map (fun kv => Part.field kv.1 kv.2)
      ++ [Part.file (lit "file") (filepathBase filePath) data]
    match NewRequest (lit "POST") (c.baseURL ++ path) (Body.multipart env.boundary parts) with
    | .error err => .error (lit "unable to create request: " ++ err)
    | .ok req =>
      .ok (((req.SetHeader (lit "Authorization") (lit "Bearer " ++ c.accessToken)).SetHeader
        (lit "Content-Type") (lit "multipart/form-data; boundary=" ++ env.boundary)).SetHeader
        (lit "Accept") (lit "application/json"))

/-- The last line of every verb helper: the error met while building the
request, or `return c.doRequest(req)`. -/
def Client.finish (c : Client) (env : Env) (req : Except GoString Request) :
    Except GoString GoString :=
  match req with
  | .error err => .error err
  | .ok r => c.doRequest env r

/-- `Client.get`. -/
def Client.get (c : Client) (env : Env) (path : GoString) (params : Params) :
    Except GoString GoString :=
  c.finish env (c.getRequest path params)

/-- `Client.post`. -/
def Client.post (c : Client) (env : Env) (path : GoString) (body : Marshalled) :
    Except GoString GoString :=
  c.finish env (c.postRequest path body)

/-- `Client.postNoAuth`. -/
def Client.postNoAuth (c : Client) (env : Env) (path : GoString) (body : Marshalled) :
    Except GoString GoString :=
  c.finish env (c.postNoAuthRequest path body)

/-- `Client.put`. -/
def Client.put (c : Client) (env : Env) (path : GoString) (body : Marshalled) :
    Except GoString GoString :=
  c.finish env (c.putRequest path body)

/-- `Client.delete`. -/
def Client.delete (c : Client) (env : Env) (path : GoString) : Except GoString GoString :=
  c.finish env (c.deleteRequest path)

/-- `Client.uploadFile`. -/
def Client.uploadFile (c : Client) (env : Env) (path filePath : GoString) (fields : Params) :
    Except GoString GoString :=
  c.finish env (c.uploadFileRequest env path filePath fields)

/-! ## The resource operations -/

/-- The one call of a verb helper that a resource operation makes. -/
inductive Call where
  | get (path : GoString) (params : Params)
  | post (path : GoString) (body : Marshalled)
  | put (path : GoString) (body : Marshalled)
  | delete (path : GoString)
  | uploadFile (path filePath : GoString) (fields : Params)

/-- The path handed to the verb helper. -/
def Call.path : Call → GoString
  | .get path _ => path
  | .post path _ => path
  | .put path _ => path
  | .delete path => path
  | .uploadFile path _ _ => path

/-- The request the verb helper builds for the call. -/
def Client.request (c : Client) (env : Env) : Call → Except GoString Request
  | .get path params => c.getRequest path params
  | .post path body => c.postRequest path body
  | .put path body => c.putRequest path body
  | .delete path => c.deleteRequest path
  | .uploadFile path filePath fields => c.uploadFileRequest env path filePath fields

/-- The bytes or the error the verb helper returns for the call. -/
def Client.perform (c : Client) (env : Env) (call : Call) : Except GoString GoString :=
  c.finish env (c.request env call)

/-- The form fields of `Client.UploadFile`: `ledger_id` when the ledger id is
not empty. -/
def uploadFields (ledgerID : GoString) : Params :=
  let fields : Params := []
  if ledgerID ≠ [] then fields ++ [(lit "ledger_id", ledgerID)] else fields

/-- The account-level operations of the client: the exported functions of
`users.go`, `ledger.go`, `contacts.go`, `categories.go`, `labels.go`,
`reports.go`, `accounts.go`, `me.go`, `activities.go` and `files.go`, with
their arguments (a request record stands as its marshalled JSON). -/
inductive AccountOp where
  | GetUsers
  | RemoveUser (id : Nat)
  | GetInvites
  | CreateInvite (req : Marshalled)
  | CancelInvite (id : Nat)
  | GetLedgers (params : Params)
  | GetLedger (id : Nat)
  | CreateLedger (req : Marshalled)
  | UpdateLedger (id : Nat) (req : Marshalled)
  | DeleteLedger (id : Nat)
  | GetLedgerSummary (params : Params)
  | GetLedgerPL (params : Params)
  | GetContacts (params : Params)
  | GetContact (id : Nat)
  | CreateContact (req : Marshalled)
  | UpdateContact (id : Nat) (req : Marshalled)
  | DeleteContact (id : Nat)
  | GetCategories (params : Params)
  | GetCategory (id : Nat)
  | CreateCategory (req : Marshalled)
  | UpdateCategory (id : Nat) (req : Marshalled)
  | DeleteCategory (id : Nat)
  | GetLabels (params : Params)
  | GetLabel (id : Nat)
  | CreateLabel (req : Marshalled)
  | UpdateLabel (id : Nat) (req : Marshalled)
  | DeleteLabel (id : Nat)
  | GetPnlReport (params : Params)
  | GetPnlByLabel (params : Params)
  | GetPnlByCategory (params : Params)
  | GetPnlCurrent
  | GetIncomeByContact (params : Params)
  | GetExpensesByContact (params : Params)
  | GetAccount
  | UpdateAccount (account : Marshalled)
  | GetBilling
  | GetMe
  | UpdateMe (req : Marshalled)
  | ChangePassword (req : Marshalled)
  | GetActivities (params : Params)
  | UploadFile (filePath ledgerID : GoString)

/-- The call each account-level operation makes, as written in its source
function. -/
def AccountOp.call (c : Client) : AccountOp → Call
  | .GetUsers => .get (c.accountPath (lit "/users")) []
  | .RemoveUser id => .delete (c.accountPath (lit "/users/" ++ FormatUint id))
  | .GetInvites => .get (c.accountPath (lit "/users/invite")) []
  | .CreateInvite req => .post (c.accountPath (lit "/users/invite")) req
  | .CancelInvite id => .delete (c.accountPath (lit "/user-invite/" ++ FormatUint id))
  | .GetLedgers params => .get (c.accountPath (lit "/ledger")) params
  | .GetLedger id => .get (c.accountPath (lit "/ledger/" ++ FormatUint id)) []
  | .CreateLedger req => .post (c.accountPath (lit "/ledger")) req
  | .UpdateLedger id req => .put (c.accountPath (lit "/ledger/" ++ FormatUint id)) req
  | .DeleteLedger id => .delete (c.accountPath (lit "/ledger/" ++ FormatUint id))
  | .GetLedgerSummary params => .get (c.accountPath (lit "/ledger-summary")) params
  | .GetLedgerPL params => .get (c.accountPath (lit "/ledger-pl-summary")) params
  | .GetContacts params => .get (c.accountPath (lit "/contacts")) params
  | .GetContact id => .get (c.accountPath (lit "/contacts/" ++ FormatUint id)) []
  | .CreateContact req => .post (c.accountPath (lit "/contacts")) req
  | .UpdateContact id req => .put (c.accountPath (lit "/contacts/" ++ FormatUint id)) req
  | .DeleteContact id => .delete (c.accountPath (lit "/contacts/" ++ FormatUint id))
  | .GetCategories params => .get (c.accountPath (lit "/categories")) params
  | .GetCategory id => .get (c.accountPath (lit "/categories/" ++ FormatUint id)) []
  | .CreateCategory req => .post (c.accountPath (lit "/categories")) req
  | .UpdateCategory id req => .put (c.accountPath (lit "/categories/" ++ FormatUint id)) req
  | .DeleteCategory id => .delete (c.accountPath (lit "/categories/" ++ FormatUint id))
  | .GetLabels params => .get (c.accountPath (lit "/labels")) params
  | .GetLabel id => .get (c.accountPath (lit "/labels/" ++ FormatUint id)) []
  | .CreateLabel req => .post (c.accountPath (lit "/labels")) req
  | .UpdateLabel id req => .put (c.accountPath (lit "/labels/" ++ FormatUint id)) req
  | .DeleteLabel id => .delete (c.accountPath (lit "/labels/" ++ FormatUint id))
  | .GetPnlReport params => .get (c.accountPath (lit "/reports/pnl")) params
  | .GetPnlByLabel params => .get (c.accountPath (lit "/reports/pnl/label")) params
  | .GetPnlByCategory params => .get (c.accountPath (lit "/reports/pnl/category")) params
  | .GetPnlCurrent => .get (c.accountPath (lit "/reports/pnl/current")) []
  | .GetIncomeByContact params => .get (c.accountPath (lit "/reports/income/by-contact")) params
  | .GetExpensesByContact params =>
    .get (c.accountPath (lit "/reports/expenses/by-contact")) params
  | .GetAccount => .get (c.accountPath (lit "/account")) []
  | .UpdateAccount account => .put (c.accountPath (lit "/account")) account
  | .GetBilling => .get (c.accountPath (lit "/account/billing")) []
  | .GetMe => .get (c.accountPath (lit "/me")) []
  | .UpdateMe req => .put (c.accountPath (lit "/me")) req
  | .ChangePassword req => .post (c.accountPath (lit "/me/change-password")) req
  | .GetActivities params => .get (c.accountPath (lit "/activities")) params
  | .UploadFile filePath ledgerID =>
    .uploadFile (c.accountPath (lit "/files")) filePath (uploadFields ledgerID)

/-- The requests a verb helper hands to the HTTP stack: the one it built, or
none when it returned before `doRequest`. -/
def requestsIssued (req : Except GoString Request) : List Request :=
  match req with
  | .ok r => [r]
  | .error _ => []

/-! ## `unicode/utf8` -/

/-- Go `utf8.RuneError`, the replacement character U+FFFD. -/
def RuneError : Nat := 0xFFFD

/-- Go `utf8.DecodeRuneInString`: the first rune of the text and its width in
bytes; `(RuneError, 1)` for a byte that starts no valid encoding (a sequence
cut short by the end of the text is invalid as well), `(RuneError, 0)` for the
empty text. -/
def decodeRune : GoString → Nat × Nat
  | [] => (RuneError, 0)
  | s0 :: rest =>
    if s0.val < 0x80 then (s0.val, 1)
    else if s0.val < 0xC2 ∨ 0xF4 < s0.val then (RuneError, 1)
    else
      let sz := if s0.val < 0xE0 then 2 else if s0.val < 0xF0 then 3 else 4
      let lo := if s0.val = 0xE0 then 0xA0 else if s0.val = 0xF0 then 0x90 else 0x80
      let hi := if s0.val = 0xED then 0x9F else if s0.val = 0xF4 then 0x8F else 0xBF
      match rest with
      | [] => (RuneError, 1)
      | s1 :: rest1 =>
        if s1.val < lo ∨ hi < s1.val then (RuneError, 1)
        else if sz ≤ 2 then (s0.val % 32 * 64 + s1.val % 64, 2)
        else
          match rest1 with
          | [] => (RuneError, 1)
          | s2 :: rest2 =>
            if s2.val < 0x80 ∨ 0xBF < s2.val then (RuneError, 1)
            else if sz ≤ 3 then (s0.val % 16 * 4096 + s1.val % 64 * 64 + s2.val % 64, 3)
            else
              match rest2 with
              | [] => (RuneError, 1)
              | s3 :: _ =>
                if s3.val < 0x80 ∨ 0xBF < s3.val then (RuneError, 1)
                else (s0.val % 8 * 262144 + s1.val % 64 * 4096 + s2.val % 64 * 64
                        + s3.val % 64, 4)

/-- The byte of a number, as the conversion `byte(n)` gives it. -/
def byteOfNat (n : Nat) : Byte := ⟨n % 256, Nat.mod_lt _ (by decide)⟩

/-- Go `utf8.EncodeRune`: the UTF-8 encoding of a rune; a surrogate and a value
above U+10FFFF are written as the replacement character. -/
def encodeRune (r : Nat) : GoString :=
  if r ≤ 0x7F then [byteOfNat r]
  else if r ≤ 0x7FF then [byteOfNat (0xC0 + r / 64), byteOfNat (0x80 + r % 64)]
  else if 0x10FFFF < r ∨ (0xD800 ≤ r ∧ r ≤ 0xDFFF) then [byteOfNat 0xEF, byteOfNat 0xBF, byteOfNat 0xBD]
  else if r ≤ 0xFFFF then
    [byteOfNat (0xE0 + r / 4096), byteOfNat (0x80 + r / 64 % 64), byteOfNat (0x80 + r % 64)]
  else
    [byteOfNat (0xF0 + r / 262144), byteOfNat (0x80 + r / 4096 % 64),
     byteOfNat (0x80 + r / 64 % 64), byteOfNat (0x80 + r % 64)]

/-- Go `utf8.ValidString`. -/
def validUTF8 : Nat → GoString → Bool
  | 0, s => decide (s = [])
  | _ + 1, [] => true
  | fuel + 1, b :: rest =>
    if b.val < 0x80 then validUTF8 fuel rest
    else if (decodeRune (b :: rest)).2 = 1 then false
    else validUTF8 fuel (rest.drop ((decodeRune (b :: rest)).2 - 1))

/-- Go `utf8.ValidString` on a whole text. -/
def ValidString (s : GoString) : Bool := validUTF8 s.length s

/-! ## `encoding/json`: writing -/

/-- Go `htmlSafeSet`: the ASCII bytes a JSON string holds as they are, that is
the printable ones other than the quote, the backslash, `<`, `>` and `&`. -/
def htmlSafe (b : Byte) : Bool :=
  decide (0x20 ≤ b.val) && decide (b.val < 0x80) && !decide (b = byteOf '"')
    && !decide (b = byteOf '\\') && !decide (b = byteOf '<') && !decide (b = byteOf '>')
    && !decide (b = byteOf '&')

/-- The lower-case hexadecimal digit of a number below sixteen
(`"0123456789abcdef"[n]`). -/
def lowerhex (n : Nat) : Byte :=
  if n % 16 < 10 then byteOfNat (48 + n % 16) else byteOfNat (87 + n % 16)

/-- The escape `appendString` writes for an ASCII byte outside `htmlSafeSet`. -/
def escapeJSONByte (b : Byte) : GoString :=
  if b = byteOf '\\' ∨ b = byteOf '"' then [byteOf '\\', b]
  else if b.val = 8 then lit "\\b"
  else if b.val = 12 then lit "\\f"
  else if b.val = 10 then lit "\\n"
  else if b.val = 13 then lit "\\r"
  else if b.val = 9 then lit "\\t"
  else lit "\\u00" ++ [lowerhex (b.val / 16), lowerhex (b.val % 16)]

/-- The loop of `appendString` of `encoding/json` with HTML escaping on: safe
ASCII bytes and valid multi-byte sequences are copied, other ASCII bytes are
escaped, U+2028 and U+2029 are written as their escapes, and a byte that
starts no valid encoding is written as the character U+FFFD, the three bytes
EF BF BD (the encoder of earlier Go releases writes the six-character escape
of U+FFFD in its place, which is read back as the same character). -/
def appendString : Nat → GoString → GoString
  | 0, _ => []
  | _ + 1, [] => []
  | fuel + 1, b :: rest =>
    if b.val < 0x80 then
      (if htmlSafe b then [b] else escapeJSONByte b) ++ appendString fuel rest
    else if (decodeRune (b :: rest)).1 = RuneError ∧ (decodeRune (b :: rest)).2 = 1 then
      byteOfNat 0xEF :: byteOfNat 0xBF :: byteOfNat 0xBD :: appendString fuel rest
    else if (decodeRune (b :: rest)).1 = 0x2028 ∨ (decodeRune (b :: rest)).1 = 0x2029 then
      lit "\\u202" ++ lowerhex ((decodeRune (b :: rest)).1 % 16)
        :: appendString fuel (rest.drop ((decodeRune (b :: rest)).2 - 1))
    else
      (b :: rest).take (decodeRune (b :: rest)).2
        ++ appendString fuel (rest.drop ((decodeRune (b :: rest)).2 - 1))

/-- The JSON string literal `json.Marshal` writes for a Go string. -/
def jsonString (s : GoString) : GoString :=
  byteOf '"' :: appendString s.length s ++ [byteOf '"']

/-- A Go `float64`, as far as `json.Marshal` looks at it: whether it is zero,
and the number text written for it (an error for NaN and the infinities). -/
structure Float64 where
  isZero : Bool
  json : Except GoString GoString

/-- The value of a struct field of one of the request records. -/
inductive JSONValue where
  | string (s : GoString)
  | uint (n : Nat)
  | uints (l : List Nat)
  | float (f : Float64)

/-- A struct field as `json.Marshal` sees it: the name of its `json` tag,
whether the tag says `omitempty`, and the value. -/
structure JSONField where
  name : GoString
  omitempty : Bool
  value : JSONValue

/-- Go `isEmptyValue`: the empty string, zero, and a slice of length zero. -/
def JSONValue.isEmpty : JSONValue → Bool
  | .string s => decide (s = [])
  | .uint n => decide (n = 0)
  | .uints l => decide (l = [])
  | .float f => f.isZero

/-- The JSON text of a value. -/
def JSONValue.encode : JSONValue → Except GoString GoString
  | .string s => .ok (jsonString s)
  | .uint n => .ok (FormatUint n)
  | .uints l => .ok (byteOf '[' :: joinBy (byteOf ',') (l.map FormatUint) ++ [byteOf ']'])
  | .float f => f.json

/-- The fields `json.Marshal` writes: all but the `omitempty` ones that are
empty. -/
def writtenFields (fields : List JSONField) : List JSONField :=
  fields.filter (fun f => !(f.omitempty && f.value.isEmpty))

/-- The members `"name":value` of the written fields, or the first error. -/
def encodeMembers : List JSONField → Except GoString (List GoString)
  | [] => .ok []
  | f :: rest =>
    match f.value.encode with
    | .error err => .error err
    | .ok v =>
      match encodeMembers rest with
      | .error err => .error err
      | .ok ms => .ok ((byteOf '"' :: f.name ++ byteOf '"' :: byteOf ':' :: v) :: ms)

/-- Go `json.Marshal` on a struct with these fields, in declaration order. -/
def marshalStruct (fields : List JSONField) : Marshalled :=
  match encodeMembers (writtenFields fields) with
  | .error err => .error err
  | .ok ms => .ok (byteOf '{' :: joinBy (byteOf ',') ms ++ [byteOf '}'])

/-! ## `types.go`: the request records -/

/-- `LoginRequest`. -/
structure LoginRequest where
  Username : GoString
  Password : GoString
  GrantType : GoString
  ClientID : GoString

/-- The fields of `LoginRequest` with their `json` tags. -/
def LoginRequest.fields (r : LoginRequest) : List JSONField :=
  [⟨lit "username", false, .string r.Username⟩,
   ⟨lit "password", false, .string r.Password⟩,
   ⟨lit "grant_type", false, .string r.GrantType⟩,
   ⟨lit "client_id", false, .string r.ClientID⟩]

/-- `MeUpdateRequest`. -/
structure MeUpdateRequest where
  FirstName : GoString
  LastName : GoString
  Email : GoString

/-- The fields of `MeUpdateRequest` with their `json` tags. -/
def MeUpdateRequest.fields (r : MeUpdateRequest) : List JSONField :=
  [⟨lit "first_name", false, .string r.FirstName⟩,
   ⟨lit "last_name", false, .string r.LastName⟩,
   ⟨lit "email", false, .string r.Email⟩]

/-- `LedgerUpdateRequest`. -/
structure LedgerUpdateRequest where
  Amount : Float64
  Date : GoString
  ContactID : Nat
  CategoryID : Nat
  LabelIDs : List Nat
  Note : GoString

/-- The fields of `LedgerUpdateRequest` with their `json` tags. -/
def LedgerUpdateRequest.fields (r : LedgerUpdateRequest) : List JSONField :=
  [⟨lit "amount", true, .float r.Amount⟩,
   ⟨lit "date", true, .string r.Date⟩,
   ⟨lit "contact_id", true, .uint r.ContactID⟩,
   ⟨lit "category_id", true, .uint r.CategoryID⟩,
   ⟨lit "label_ids", true, .uints r.LabelIDs⟩,
   ⟨lit "note", true, .string r.Note⟩]

/-- `CategoryUpdateRequest`. -/
structure CategoryUpdateRequest where
  Name : GoString
  «Type» : GoString

/-- The fields of `CategoryUpdateRequest` with their `json` tags. -/
def CategoryUpdateRequest.fields (r : CategoryUpdateRequest) : List JSONField :=
  [⟨lit "name", false, .string r.Name⟩,
   ⟨lit "type", false, .string r.«Type»⟩]

/-- `LabelUpdateRequest`. -/
structure LabelUpdateRequest where
  Name : GoString

/-- The fields of `LabelUpdateRequest` with their `json` tags. -/
def LabelUpdateRequest.fields (r : LabelUpdateRequest) : List JSONField :=
  [⟨lit "name", false, .string r.Name⟩]

/-- `ContactUpdateRequest`. -/
structure ContactUpdateRequest where
  Name : GoString
  FirstName : GoString
  LastName : GoString
  Email : GoString
  Phone : GoString
  Address : GoString
  City : GoString
  State : GoString
  Zip : GoString
  Country : GoString
  Website : GoString
  AccountNumber : GoString

/-- The fields of `ContactUpdateRequest` with their `json` tags. -/
def ContactUpdateRequest.fields (r : ContactUpdateRequest) : List JSONField :=
  [⟨lit "name", true, .string r.Name⟩,
   ⟨lit "first_name", true, .string r.FirstName⟩,
   ⟨lit "last_name", true, .string r.LastName⟩,
   ⟨lit "email", true, .string r.Email⟩,
   ⟨lit "phone", true, .string r.Phone⟩,
   ⟨lit "address", true, .string r.Address⟩,
   ⟨lit "city", true, .string r.City⟩,
   ⟨lit "state", true, .string r.State⟩,
   ⟨lit "zip", true, .string r.Zip⟩,
   ⟨lit "country", true, .string r.Country⟩,
   ⟨lit "website", true, .string r.Website⟩,
   ⟨lit "account_number", true, .string r.AccountNumber⟩]

/-! ## The operations of `auth.go` and the common shape of an operation -/

/-- The operations of `auth.go`, with their arguments. -/
inductive AuthOp where
  | Login (email password clientID : GoString)
  | Logout
  | GetAuthUser

/-- The request each operation of `auth.go` has its verb helper build: `Login`
posts a `LoginRequest` through `postNoAuth`, `Logout` and `GetAuthUser` go
through `get`, all on bare paths. -/
def AuthOp.request (c : Client) : AuthOp → Except GoString Request
  | .Login email password clientID =>
    c.postNoAuthRequest (lit "/oauth/token")
      (marshalStruct (LoginRequest.fields
        { Username := email, Password := password, GrantType := lit "password",
          ClientID := clientID }))
  | .Logout => c.getRequest (lit "/oauth/logout") [(lit "access_token", c.accessToken)]
  | .GetAuthUser => c.getRequest (lit "/oauth/me") []

/-- The text each operation of `auth.go` puts before the error of its verb
helper. -/
def AuthOp.context : AuthOp → GoString
  | .Login _ _ _ => lit "login failed"
  | .Logout => lit "logout failed"
  | .GetAuthUser => lit "unable to get authenticated user"

/-- The text each operation of `auth.go` puts before the error of
`json.Unmarshal`; `none` for `Logout`, which drops the bytes. -/
def AuthOp.parseContext : AuthOp → Option GoString
  | .Login _ _ _ => some (lit "unable to parse login response")
  | .Logout => none
  | .GetAuthUser => some (lit "unable to parse user response")

/-- The text each account-level operation puts before the error of its verb
helper (`fmt.Errorf("...: %w", err)`). -/
def AccountOp.context : AccountOp → GoString
  | .GetUsers => lit "unable to get users"
  | .RemoveUser _ => lit "unable to remove user"
  | .GetInvites => lit "unable to get invites"
  | .CreateInvite _ => lit "unable to create invite"
  | .CancelInvite _ => lit "unable to cancel invite"
  | .GetLedgers _ => lit "unable to get ledgers"
  | .GetLedger _ => lit "unable to get ledger"
  | .CreateLedger _ => lit "unable to create ledger"
  | .UpdateLedger _ _ => lit "unable to update ledger"
  | .DeleteLedger _ => lit "unable to delete ledger"
  | .GetLedgerSummary _ => lit "unable to get ledger summary"
  | .GetLedgerPL _ => lit "unable to get ledger P&L"
  | .GetContacts _ => lit "unable to get contacts"
  | .GetContact _ => lit "unable to get contact"
  | .CreateContact _ => lit "unable to create contact"
  | .UpdateContact _ _ => lit "unable to update contact"
  | .DeleteContact _ => lit "unable to delete contact"
  | .GetCategories _ => lit "unable to get categories"
  | .GetCategory _ => lit "unable to get category"
  | .CreateCategory _ => lit "unable to create category"
  | .UpdateCategory _ _ => lit "unable to update category"
  | .DeleteCategory _ => lit "unable to delete category"
  | .GetLabels _ => lit "unable to get labels"
  | .GetLabel _ => lit "unable to get label"
  | .CreateLabel _ => lit "unable to create label"
  | .UpdateLabel _ _ => lit "unable to update label"
  | .DeleteLabel _ => lit "unable to delete label"
  | .GetPnlReport _ => lit "unable to get P&L report"
  | .GetPnlByLabel _ => lit "unable to get P&L by label"
  | .GetPnlByCategory _ => lit "unable to get P&L by category"
  | .GetPnlCurrent => lit "unable to get current P&L"
  | .GetIncomeByContact _ => lit "unable to get income by contact"
  | .GetExpensesByContact _ => lit "unable to get expenses by contact"
  | .GetAccount => lit "unable to get account"
  | .UpdateAccount _ => lit "unable to update account"
  | .GetBilling => lit "unable to get billing"
  | .GetMe => lit "unable to get profile"
  | .UpdateMe _ => lit "unable to update profile"
  | .ChangePassword _ => lit "unable to change password"
  | .GetActivities _ => lit "unable to get activities"
  | .UploadFile _ _ => lit "unable to upload file"

/-- The text each account-level operation puts before the error of
`json.Unmarshal` on the returned bytes; `none` for the operations that return
no value and drop the bytes. -/
def AccountOp.parseContext : AccountOp → Option GoString
  | .GetUsers => some (lit "unable to parse users response")
  | .RemoveUser _ => none
  | .GetInvites => some (lit "unable to parse invites response")
  | .CreateInvite _ => some (lit "unable to parse invite response")
  | .CancelInvite _ => none
  | .GetLedgers _ => some (lit "unable to parse ledgers response")
  | .GetLedger _ => some (lit "unable to parse ledger response")
  | .CreateLedger _ => some (lit "unable to parse ledger response")
  | .UpdateLedger _ _ => some (lit "unable to parse ledger response")
  | .DeleteLedger _ => none
  | .GetLedgerSummary _ => some (lit "unable to parse summary response")
  | .GetLedgerPL _ => some (lit "unable to parse P&L response")
  | .GetContacts _ => some (lit "unable to parse contacts response")
  | .GetContact _ => some (lit "unable to parse contact response")
  | .CreateContact _ => some (lit "unable to parse contact response")
  | .UpdateContact _ _ => some (lit "unable to parse contact response")
  | .DeleteContact _ => none
  | .GetCategories _ => some (lit "unable to parse categories response")
  | .GetCategory _ => some (lit "unable to parse category response")
  | .CreateCategory _ => some (lit "unable to parse category response")
  | .UpdateCategory _ _ => some (lit "unable to parse category response")
  | .DeleteCategory _ => none
  | .GetLabels _ => some (lit "unable to parse labels response")
  | .GetLabel _ => some (lit "unable to parse label response")
  | .CreateLabel _ => some (lit "unable to parse label response")
  | .UpdateLabel _ _ => some (lit "unable to parse label response")
  | .DeleteLabel _ => none
  | .GetPnlReport _ => some (lit "unable to parse P&L report response")
  | .GetPnlByLabel _ => some (lit "unable to parse P&L by label response")
  | .GetPnlByCategory _ => some (lit "unable to parse P&L by category response")
  | .GetPnlCurrent => some (lit "unable to parse current P&L response")
  | .GetIncomeByContact _ => some (lit "unable to parse income by contact response")
  | .GetExpensesByContact _ => some (lit "unable to parse expenses by contact response")
  | .GetAccount => some (lit "unable to parse account response")
  | .UpdateAccount _ => some (lit "unable to parse account response")
  | .GetBilling => some (lit "unable to parse billing response")
  | .GetMe => some (lit "unable to parse profile response")
  | .UpdateMe _ => some (lit "unable to parse profile response")
  | .ChangePassword _ => none
  | .GetActivities _ => some (lit "unable to parse activities response")
  | .UploadFile _ _ => some (lit "unable to parse file response")

/-- An exported operation of the client. -/
inductive Op where
  | account (op : AccountOp)
  | auth (op : AuthOp)

/-- The request the operation has its verb helper build. -/
def Op.request (c : Client) (env : Env) : Op → Except GoString Request
  | .account op => c.request env (op.call c)
  | .auth op => op.request c

/-- The text the operation puts before the error of its verb helper. -/
def Op.context : Op → GoString
  | .account op => op.context
  | .auth op => op.context

/-- The text the operation puts before the error of `json.Unmarshal`, if it
decodes the returned bytes. -/
def Op.parseContext : Op → Option GoString
  | .account op => op.parseContext
  | .auth op => op.parseContext

/-- What `json.Unmarshal` into the result type of an operation makes of the
returned bytes: its error, or `none` when they decode. -/
abbrev Unmarshal := GoString → Option GoString

/-- The body shared by every operation: the verb helper is called, its error
is wrapped with the context of the operation; on success the bytes are decoded
(a decoding error is wrapped as well), or dropped by the operations that
return only an error. The result is the error, or the bytes the returned value
was decoded from, if any. -/
def Op.run (c : Client) (env : Env) (unmarshal : Unmarshal) (op : Op) :
    Except GoString (Option GoString) :=
  match c.finish env (op.request c env) with
  | .error err => .error (op.context ++ lit ": " ++ err)
  | .ok data =>
    match op.parseContext with
    | none => .ok none
    | some parseContext =>
      match unmarshal data with
      | some err => .error (parseContext ++ lit ": " ++ err)
      | none => .ok (some data)

/-- `Client.UpdateLedger(id, req)`: the record goes to `put`, which marshals
it. -/
def UpdateLedger (id : Nat) (req : LedgerUpdateRequest) : AccountOp :=
  .UpdateLedger id (marshalStruct req.fields)

/-- `Client.UpdateContact(id, req)`. -/
def UpdateContact (id : Nat) (req : ContactUpdateRequest) : AccountOp :=
  .UpdateContact id (marshalStruct req.fields)

/-- `Client.UpdateCategory(id, req)`. -/
def UpdateCategory (id : Nat) (req : CategoryUpdateRequest) : AccountOp :=
  .UpdateCategory id (marshalStruct req.fields)

/-- `Client.UpdateLabel(id, req)`. -/
def UpdateLabel (id : Nat) (req : LabelUpdateRequest) : AccountOp :=
  .UpdateLabel id (marshalStruct req.fields)

/-- `Client.UpdateMe(req)`. -/
def UpdateMe (req : MeUpdateRequest) : AccountOp :=
  .UpdateMe (marshalStruct req.fields)

/-! ## `encoding/json`: reading -/

/-- The white space of JSON: space, tab, carriage return and line feed. -/
def isJSONSpace (b : Byte) : Bool :=
  decide (b = byteOf ' ') || decide (b = byteOf '\t') || decide (b = byteOf '\r')
    || decide (b = byteOf '\n')

/-- The text after its leading white space. -/
def skipSpace (s : GoString) : GoString := s.dropWhile isJSONSpace

/-- The value of a hexadecimal digit, of either case. -/
def hexValue (b : Byte) : Option Nat :=
  if byteOf '0' ≤ b ∧ b ≤ byteOf '9' then some (b.val - 48)
  else if byteOf 'a' ≤ b ∧ b ≤ byteOf 'f' then some (b.val - 87)
  else if byteOf 'A' ≤ b ∧ b ≤ byteOf 'F' then some (b.val - 55)
  else none

/-- Go `getu4`: the number written by the escape of the form backslash, `u`,
four hexadecimal digits at the head of the text; `none` when the text does not
start with such an escape. -/
def getu4 : GoString → Option Nat
  | b0 :: b1 :: h1 :: h2 :: h3 :: h4 :: _ =>
    if b0 = byteOf '\\' ∧ b1 = byteOf 'u' then
      match hexValue h1, hexValue h2, hexValue h3, hexValue h4 with
      | some v1, some v2, some v3, some v4 => some (((v1 * 16 + v2) * 16 + v3) * 16 + v4)
      | _, _, _, _ => none
    else none
  | _ => none

/-- The byte a one-letter escape stands for. -/
def simpleEscape (e : Byte) : Option Byte :=
  if e = byteOf '"' ∨ e = byteOf '\\' ∨ e = byteOf '/' then some e
  else if e = byteOf 'b' then some (byteOfNat 8)
  else if e = byteOf 'f' then some (byteOfNat 12)
  else if e = byteOf 'n' then some (byteOfNat 10)
  else if e = byteOf 'r' then some (byteOfNat 13)
  else if e = byteOf 't' then some (byteOfNat 9)
  else none

/-- The rune of an escaped UTF-16 unit `rr` followed by what `getu4` reads
next, and whether that second escape is consumed: a high surrogate followed by
a low one gives the rune of the pair; any other surrogate gives the
replacement character. -/
def utf16Rune (rr : Nat) (next : Option Nat) : Nat × Bool :=
  if 0xD800 ≤ rr ∧ rr < 0xE000 then
    match next with
    | some rr1 =>
      if rr < 0xDC00 ∧ 0xDC00 ≤ rr1 ∧ rr1 < 0xE000 then
        ((rr - 0xD800) * 1024 + (rr1 - 0xDC00) + 0x10000, true)
      else (RuneError, false)
    | none => (RuneError, false)
  else (rr, false)

/-- Go `unquote` of `encoding/json`, from behind the opening quote: the bytes
of the string literal and the text behind its closing quote. Escapes are
resolved, bytes that are not valid UTF-8 are replaced by U+FFFD; `none` for a
literal that is not closed, holds a control character or a malformed escape. -/
def unquoteLoop : Nat → GoString → Option (GoString × GoString)
  | 0, _ => none
  | _ + 1, [] => none
  | fuel + 1, c :: rest =>
    if c = byteOf '"' then some ([], rest)
    else if c = byteOf '\\' then
      match rest with
      | [] => none
      | e :: rest2 =>
        if e = byteOf 'u' then
          match getu4 (c :: rest) with
          | none => none
          | some rr =>
            let r := utf16Rune rr (getu4 (rest2.drop 4))
            (unquoteLoop fuel (if r.2 then rest2.drop 10 else rest2.drop 4)).map
              (fun p => (encodeRune r.1 ++ p.1, p.2))
        else
          match simpleEscape e with
          | none => none
          | some b => (unquoteLoop fuel rest2).map (fun p => (b :: p.1, p.2))
    else if c.val < 0x20 then none
    else if c.val < 0x80 then (unquoteLoop fuel rest).map (fun p => (c :: p.1, p.2))
    else
      (unquoteLoop fuel (rest.drop ((decodeRune (c :: rest)).2 - 1))).map
        (fun p => (encodeRune (decodeRune (c :: rest)).1 ++ p.1, p.2))

/-- An ASCII digit. -/
def isDigit (b : Byte) : Bool := decide (byteOf '0' ≤ b) && decide (b ≤ byteOf '9')

/-- The exponent of a JSON number, if there is one, added to the literal. -/
def scanExp (literal rest : GoString) : Option (GoString × GoString) :=
  match rest with
  | e :: r =>
    if e = byteOf 'e' ∨ e = byteOf 'E' then
      match r with
      | s :: r2 =>
        if s = byteOf '+' ∨ s = byteOf '-' then
          if r2.takeWhile isDigit = [] then none
          else some (literal ++ e :: s :: r2.takeWhile isDigit, r2.dropWhile isDigit)
        else if r.takeWhile isDigit = [] then none
        else some (literal ++ e :: r.takeWhile isDigit, r.dropWhile isDigit)
      | [] => none
    else some (literal, rest)
  | [] => some (literal, rest)

/-- The fraction of a JSON number, if there is one, and then the exponent. -/
def scanFrac (literal rest : GoString) : Option (GoString × GoString) :=
  match rest with
  | p :: r =>
    if p = byteOf '.' then
      if r.takeWhile isDigit = [] then none
      else scanExp (literal ++ p :: r.takeWhile isDigit) (r.dropWhile isDigit)
    else scanExp literal rest
  | [] => some (literal, rest)

/-- The integer part of a JSON number (a single `0`, or digits that do not
start with `0`), and then the rest of the number. -/
def scanInt (literal rest : GoString) : Option (GoString × GoString) :=
  match rest with
  | d :: r =>
    if d = byteOf '0' then scanFrac (literal ++ [d]) r
    else if isDigit d then scanFrac (literal ++ d :: r.takeWhile isDigit) (r.dropWhile isDigit)
    else none
  | [] => none

/-- The JSON number at the head of the text and the text behind it. -/
def scanNumber (s : GoString) : Option (GoString × GoString) :=
  match s with
  | c :: r => if c = byteOf '-' then scanInt [c] r else scanInt [] s
  | [] => none

/-- A scalar JSON value. -/
inductive JSONToken where
  | string (s : GoString)
  | number (literal : GoString)
  | bool (b : Bool)
  | null
deriving DecidableEq, Repr

/-- The scalar value at the head of the text and the text behind it. Arrays
and nested objects are outside this model: they are reported like a syntax
error. -/
def parseValue (s : GoString) : Option (JSONToken × GoString) :=
  match s with
  | [] => none
  | c :: rest =>
    if c = byteOf '"' then
      (unquoteLoop rest.length rest).map (fun p => (JSONToken.string p.1, p.2))
    else if c = byteOf '-' ∨ isDigit c = true then
      (scanNumber s).map (fun p => (JSONToken.number p.1, p.2))
    else if lit "true" <+: s then some (JSONToken.bool true, s.drop 4)
    else if lit "false" <+: s then some (JSONToken.bool false, s.drop 5)
    else if lit "null" <+: s then some (JSONToken.null, s.drop 4)
    else none

/-- The members of an object from its first key on, and the text behind the
closing brace. -/
def parseMembers : Nat → GoString → Option (List (GoString × JSONToken) × GoString)
  | 0, _ => none
  | fuel + 1, s =>
    match s with
    | [] => none
    | q :: s1 =>
      if q ≠ byteOf '"' then none
      else
        match unquoteLoop s1.length s1 with
        | none => none
        | some (key, s2) =>
          match skipSpace s2 with
          | [] => none
          | colon :: s3 =>
            if colon ≠ byteOf ':' then none
            else
              match parseValue (skipSpace s3) with
              | none => none
              | some (v, s4) =>
                match skipSpace s4 with
                | [] => none
                | d :: s5 =>
                  if d = byteOf ',' then
                    (parseMembers fuel (skipSpace s5)).map (fun p => ((key, v) :: p.1, p.2))
                  else if d = byteOf '}' then some ([(key, v)], s5)
                  else none

/-- The members of a document that is one JSON object of scalar values (or
`null`, which has none); `none` for any other text. -/
def parseObject (data : GoString) : Option (List (GoString × JSONToken)) :=
  match skipSpace data with
  | [] => none
  | c :: s1 =>
    if c = byteOf '{' then
      match skipSpace s1 with
      | [] => none
      | d :: s2 =>
        if d = byteOf '}' then (if skipSpace s2 = [] then some [] else none)
        else
          match parseMembers data.length (d :: s2) with
          | none => none
          | some (ms, rest) => if skipSpace rest = [] then some ms else none
    else if lit "null" <+: (c :: s1) ∧ skipSpace ((c :: s1).drop 4) = [] then some []
    else none

/-- The number a run of digits writes, most significant first. -/
def digitsValue (ds : GoString) : Nat := ds.foldl (fun acc d => acc * 10 + (d.val - 48)) 0

/-- Go `strconv.ParseUint(s, 10, 64)` on a JSON number literal: the number, if
the literal is digits only and below 2^64. -/
def parseUint (literal : GoString) : Option Nat :=
  if literal ≠ [] ∧ literal.all isDigit = true ∧ digitsValue literal < 2 ^ 64 then
    some (digitsValue literal)
  else none

/-- The members `"name": value` of the written fields as `json.MarshalIndent`
sets them, with a space behind the colon, or the first error. -/
def encodeMembersIndent : List JSONField → Except GoString (List GoString)
  | [] => .ok []
  | f :: rest =>
    match f.value.encode with
    | .error err => .error err
    | .ok v =>
      match encodeMembersIndent rest with
      | .error err => .error err
      | .ok ms =>
        .ok ((byteOf '"' :: f.name ++ byteOf '"' :: byteOf ':' :: byteOf ' ' :: v) :: ms)

/-- Joins the pieces with a separator text. -/
def joinWith (sep : GoString) : List GoString → GoString
  | [] => []
  | [x] => x
  | x :: y :: rest => x ++ sep ++ joinWith sep (y :: rest)

/-- Go `json.MarshalIndent(v, "", "  ")` on a struct with these fields: one
member per line, indented by two spaces. -/
def marshalIndentStruct (fields : List JSONField) : Marshalled :=
  match encodeMembersIndent (writtenFields fields) with
  | .error err => .error err
  | .ok [] => .ok (lit "\x7b\x7d")
  | .ok (m :: ms) => .ok (lit "\x7b\n  " ++ joinWith (lit ",\n  ") (m :: ms) ++ lit "\n\x7d")

/-! ## `config.go` -/

/-- `Config`. -/
structure Config where
  AccessToken : GoString
  UserID : Nat
  DefaultAccountID : Nat
  ApiURL : GoString
  ClientID : GoString
deriving DecidableEq, Repr

/-- The fields of `Config` with their `json` tags. -/
def Config.fields (cfg : Config) : List JSONField :=
  [⟨lit "access_token", false, .string cfg.AccessToken⟩,
   ⟨lit "user_id", false, .uint cfg.UserID⟩,
   ⟨lit "default_account_id", false, .uint cfg.DefaultAccountID⟩,
   ⟨lit "api_url", false, .string cfg.ApiURL⟩,
   ⟨lit "client_id", false, .string cfg.ClientID⟩]

/-- The lower-case form of an ASCII letter. -/
def asciiLower (b : Byte) : Byte :=
  if byteOf 'A' ≤ b ∧ b ≤ byteOf 'Z' then byteOfNat (b.val + 32) else b

/-- What `json.Unmarshal` does with one member of the object when it fills a
`Config`: the field whose tag equals the key (up to the case of ASCII letters)
takes the value, a `null` changes nothing, a value of the wrong kind or a
number that is no `uint` is an error (`none`), an unknown key is skipped. -/
def storeConfigField (cfg : Config) (key : GoString) (v : JSONToken) : Option Config :=
  if key.map asciiLower = lit "access_token" then
    match v with
    | .string s => some { cfg with AccessToken := s }
    | .null => some cfg
    | _ => none
  else if key.map asciiLower = lit "user_id" then
    match v with
    | .number l => (parseUint l).map (fun n => { cfg with UserID := n })
    | .null => some cfg
    | _ => none
  else if key.map asciiLower = lit "default_account_id" then
    match v with
    | .number l => (parseUint l).map (fun n => { cfg with DefaultAccountID := n })
    | .null => some cfg
    | _ => none
  else if key.map asciiLower = lit "api_url" then
    match v with
    | .string s => some { cfg with ApiURL := s }
    | .null => some cfg
    | _ => none
  else if key.map asciiLower = lit "client_id" then
    match v with
    | .string s => some { cfg with ClientID := s }
    | .null => some cfg
    | _ => none
  else some cfg

/-- The members stored one after the other, from the first error on nothing. -/
def storeConfigFields (cfg : Config) : List (GoString × JSONToken) → Option Config
  | [] => some cfg
  | (key, v) :: rest =>
    match storeConfigField cfg key v with
    | none => none
    | some cfg2 => storeConfigFields cfg2 rest

/-- Go `json.Unmarshal(data, &cfg)` on a zero `Config`, for a document that is
one object of scalar values: the filled record, or `none` for an error. -/
def unmarshalConfig (data : GoString) : Option Config :=
  match parseObject data with
  | none => none
  | some members =>
    storeConfigFields
      { AccessToken := [], UserID := 0, DefaultAccountID := 0, ApiURL := [], ClientID := [] }
      members

/-- What `os.ReadFile` gives for a path. -/
inductive ReadResult where
  /-- The file does not exist (`os.IsNotExist`). -/
  | notExist
  /-- Another error. -/
  | failed (err : GoString)
  /-- The bytes of the file. -/
  | content (data : GoString)

/-- The local disk, as far as `config.go` uses it: what reading a path gives,
and the errors, if any, that creating the directory of a path
(`os.MkdirAll(filepath.Dir(path), 0700)`), writing a file (`os.WriteFile`)
and removing an existing file (`os.Remove`) meet. -/
structure Disk where
  read : GoString → ReadResult
  mkdirAll : GoString → Option GoString
  write : GoString → Option GoString
  remove : GoString → Option GoString

/-- The errors of `config.go`, each named after its message. -/
inductive ConfigError where
  /-- The message `not logged in. Run 'skyclerk login' first`. -/
  | notLoggedIn
  /-- The message `unable to read config file: ` with the cause. -/
  | readFailed (cause : GoString)
  /-- The message `unable to parse config file: ` with the error of
  `json.Unmarshal`. -/
  | parseFailed
  /-- The message `unable to create config directory: ` with the cause. -/
  | mkdirFailed (cause : GoString)
  /-- The message `unable to marshal config: ` with the cause. -/
  | marshalFailed (cause : GoString)
  /-- The message `unable to write config file: ` with the cause. -/
  | writeFailed (cause : GoString)
  /-- The message `unable to delete config file: ` with the cause. -/
  | deleteFailed (cause : GoString)
deriving DecidableEq, Repr

/-- `LoadFromPath`. -/
def LoadFromPath (disk : Disk) (path : GoString) : Except ConfigError Config :=
  match disk.read path with
  | .notExist => .error .notLoggedIn
  | .failed err => .error (.readFailed err)
  | .content data =>
    match unmarshalConfig data with
    | none => .error .parseFailed
    | some cfg => .ok cfg

/-- `SaveToPath`: the error it returns, if any, and the disk afterwards. On
success the file at `path` holds the indented JSON of the record. -/
def SaveToPath (disk : Disk) (cfg : Config) (path : GoString) : Option ConfigError × Disk :=
  match disk.mkdirAll path with
  | some err => (some (.mkdirFailed err), disk)
  | none =>
    match marshalIndentStruct cfg.fields with
    | .error err => (some (.marshalFailed err), disk)
    | .ok data =>
      match disk.write path with
      | some err => (some (.writeFailed err), disk)
      | none =>
        (none, { disk with read := fun p => if p = path then .content data else disk.read p })

/-- `DeleteAtPath`: the error it returns, if any, and the disk afterwards. A
file that does not exist is no error. -/
def DeleteAtPath (disk : Disk) (path : GoString) : Option ConfigError × Disk :=
  match disk.read path with
  | .notExist => (none, disk)
  | _ =>
    match disk.remove path with
    | some err => (some (.deleteFailed err), disk)
    | none => (none, { disk with read := fun p => if p = path then .notExist else disk.read p })

/-- The text of a member as `json.MarshalIndent` sets it, followed by `tail`. -/
def memberText (key vtext tail : GoString) : GoString :=
  byteOf '"' :: key ++ byteOf '"' :: byteOf ':' :: byteOf ' ' :: vtext ++ tail

/-- The comma, line feed and indentation between two members, followed by
`tail`. -/
def nextLine (tail : GoString) : GoString :=
  byteOf ',' :: byteOf '\n' :: byteOf ' ' :: byteOf ' ' :: tail

/-- The text `SaveToPath` writes for a record. -/
def configText (cfg : Config) : GoString :=
  byteOf '\x7b' :: byteOf '\n' :: byteOf ' ' :: byteOf ' ' ::
    memberText (lit "access_token") (jsonString cfg.AccessToken) (nextLine
    (memberText (lit "user_id") (FormatUint cfg.UserID) (nextLine
    (memberText (lit "default_account_id") (FormatUint cfg.DefaultAccountID) (nextLine
    (memberText (lit "api_url") (jsonString cfg.ApiURL) (nextLine
    (memberText (lit "client_id") (jsonString cfg.ClientID)
      [byteOf '\n', byteOf '\x7d']))))))))

/-- A disk without files on which creating directories, writing and removing
succeed. -/
def emptyDisk : Disk where
  read := fun _ => ReadResult.notExist
  mkdirAll := fun _ => none
  write := fun _ => none
  remove := fun _ => none

/-- The record of `TestSaveAndLoadConfig`. -/
def testConfig : Config where
  AccessToken := lit "test-token-12345"
  UserID := 42
  DefaultAccountID := 1
  ApiURL := lit "https://app.skyclerk.com"
  ClientID := []

/-- A record whose access token is the single byte `0xff`, which is not valid
UTF-8. -/
def invalidTokenConfig : Config where
  AccessToken := [byteOfNat 0xff]
  UserID := 42
  DefaultAccountID := 1
  ApiURL := lit "https://app.skyclerk.com"
  ClientID := []

/-! ## `config.go`: masking -/

/-- Go `s[lo:hi]` on a string: the bytes from index `lo` up to index `hi`, or
`none` for the run-time panic of a slice whose bounds are out of range. -/
def sliceString (s : GoString) (lo hi : Int) : Option GoString :=
  if 0 ≤ lo ∧ lo ≤ hi ∧ hi ≤ (s.length : Int) then
    some ((s.drop lo.toNat).take (hi.toNat - lo.toNat))
  else none

/-- `MaskString`; `none` stands for a panic in one of its two slices. -/
def MaskString (s : GoString) : Option GoString :=
  if (s.length : Int) ≤ 8 then some (lit "****")
  else
    match sliceString s 0 4, sliceString s ((s.length : Int) - 4) (s.length : Int) with
    | some first, some last => some (first ++ lit "****" ++ last)
    | _, _ => none

/-- Go `utf8.RuneCountInString`, with the length of the text as fuel: every
rune, and every byte that starts no valid encoding, counts one. -/
def runeCount : Nat → GoString → Nat
  | 0, _ => 0
  | _ + 1, [] => 0
  | fuel + 1, b :: rest => 1 + runeCount fuel (rest.drop ((decodeRune (b :: rest)).2 - 1))

/-- Go `utf8.RuneCountInString`. -/
def RuneCountInString (s : GoString) : Nat := runeCount s.length s

/-! ## `cmd`: the helpers of the commands -/

/-- `capitalizeType`: `string(s[0]-32) + s[1:]`. The subtraction is one of
bytes and wraps around; the conversion of the resulting byte to a string gives
the UTF-8 encoding of the code point of that value. -/
def capitalizeType (s : GoString) : GoString :=
  match s with
  | [] => s
  | b :: rest => encodeRune (byteOfNat (b.val + 256 - 32)).val ++ rest

/-- `DefaultApiURL`. -/
def DefaultApiURL : GoString := lit "https://app.skyclerk.com"

/-- The ways `newClient` ends the process with status 1, each after a line on
the standard error. -/
inductive ClientExit where
  /-- The configuration could not be loaded; the line is `Error:` with the
  error of `config.Load`. -/
  | loadFailed (err : ConfigError)
  /-- The line is `Error: no account selected. Run 'skyclerk accounts use
  <id>' first.` -/
  | noAccountSelected
deriving DecidableEq, Repr

/-- `newClient`, given what `config.Load()` returns and the value of the
`--account` flag (`accountOverride`, 0 when the flag is not given). -/
def newClient (loaded : Except ConfigError Config) (accountOverride : Nat) :
    Except ClientExit Client :=
  match loaded with
  | .error err => .error (.loadFailed err)
  | .ok cfg =>
    let accountID := if accountOverride > 0 then accountOverride else cfg.DefaultAccountID
    if accountID = 0 then .error .noAccountSelected
    else
      let baseURL := if cfg.ApiURL = [] then DefaultApiURL else cfg.ApiURL
      .ok (NewClient baseURL cfg.AccessToken accountID)

/-- The flags of `ledger update` as `runLedgerUpdate` reads them: for each flag
its value, or `none` when the flag was not given on the command line
(`Flags().Changed` is false). -/
structure LedgerUpdateFlags where
  amount : Option Float64
  date : Option GoString
  contactID : Option Nat
  categoryID : Option Nat
  note : Option GoString

/-- The `float64` zero, the value of a field that was never assigned. -/
def Float64.zero : Float64 := { isZero := true, json := .ok (lit "0") }

/-- The record `runLedgerUpdate` builds: it starts from the zero record and
assigns the fields whose flags were given. -/
def ledgerUpdateRequest (flags : LedgerUpdateFlags) : LedgerUpdateRequest :=
  let req : LedgerUpdateRequest :=
    { Amount := Float64.zero, Date := [], ContactID := 0, CategoryID := 0, LabelIDs := [],
      Note := [] }
  let req := match flags.amount with
    | some amount => { req with Amount := amount }
    | none => req
  let req := match flags.date with
    | some date => { req with Date := date }
    | none => req
  let req := match flags.contactID with
    | some contactID => { req with ContactID := contactID }
    | none => req
  let req := match flags.categoryID with
    | some categoryID => { req with CategoryID := categoryID }
    | none => req
  match flags.note with
  | some note => { req with Note := note }
  | none => req

/-- The operation `runLedgerUpdate` calls for a ledger id and flags. -/
def runLedgerUpdate (id : Nat) (flags : LedgerUpdateFlags) : AccountOp :=
  UpdateLedger id (ledgerUpdateRequest flags)

/-! ## Notions used in the proofs -/

/-- The text a Go string arrives as after `json.Marshal` and `json.Unmarshal`,
with the length of the string as fuel: ASCII bytes and valid multi-byte
sequences stand as they are, every byte that starts no valid encoding is
replaced by U+FFFD. -/
def replaceInvalid : Nat → GoString → GoString
  | 0, _ => []
  | _ + 1, [] => []
  | fuel + 1, b :: rest =>
    if b.val < 0x80 then b :: replaceInvalid fuel rest
    else if (decodeRune (b :: rest)).2 = 1 then
      byteOfNat 0xEF :: byteOfNat 0xBF :: byteOfNat 0xBD :: replaceInvalid fuel rest
    else
      (b :: rest).take (decodeRune (b :: rest)).2
        ++ replaceInvalid fuel (rest.drop ((decodeRune (b :: rest)).2 - 1))

/-- The string with every byte that starts no valid UTF-8 encoding replaced by
U+FFFD. -/
def ToValidUTF8 (s : GoString) : GoString := replaceInvalid s.length s

/-- The text of a member as `json.Marshal` sets it, followed by `tail`. -/
def memberCompact (key vtext tail : GoString) : GoString :=
  byteOf '"' :: key ++ byteOf '"' :: byteOf ':' :: vtext ++ tail

/-- The text `json.Marshal` writes for the `LoginRequest` of `Login`. -/
def loginText (email password clientID : GoString) : GoString :=
  byteOf '\x7b' ::
    memberCompact (lit "username") (jsonString email) (byteOf ',' ::
    memberCompact (lit "password") (jsonString password) (byteOf ',' ::
    memberCompact (lit "grant_type") (jsonString (lit "password")) (byteOf ',' ::
    memberCompact (lit "client_id") (jsonString clientID) [byteOf '\x7d'])))

/-- The body handed to `post` or `put` is the error of `json.Marshal`. -/
def Call.marshalFailed : Call → Bool
  | .post _ (.error _) => true
  | .put _ (.error _) => true
  | _ => false

/-- The file handed to `uploadFile` cannot be opened or read. -/
def Call.fileFailed (env : Env) : Call → Bool
  | .uploadFile _ filePath _ =>
    match env.readFile filePath with
    | .content _ => false
    | _ => true
  | _ => false


/-- A byte that `QueryEscape` can emit: an unreserved character, `%` or `+`. -/
def escapedByte (b : Byte) : Bool :=
  !shouldEscape b || decide (b = byteOf '%') || decide (b = byteOf '+')

/-- The pair `key=value` as `Encode` writes it. -/
def encodePair (kv : GoString × GoString) : GoString :=
  QueryEscape kv.1 ++ byteOf '=' :: QueryEscape kv.2

/-- The pairs `Encode` writes, in its order. -/
def encodePairs (q : Values) : List (GoString × GoString) :=
  (sortStrings (q.map Prod.fst)).flatMap (fun k => (q.Lookup k).map (fun x => (k, x)))

/-- The values of a map are never empty lists. -/
def NonemptyValues (m : Values) : Prop := ∀ kv ∈ m, kv.2 ≠ []

/-! ## Sample values -/

/-- The client of the repository's tests: token `test-token`, account 1. -/
def testClient : Client := NewClient (lit "http://127.0.0.1:8080") (lit "test-token") 1

/-- A world in which every request is answered by `200` with the body `ok`
and the file `/tmp/receipt.jpg` holds the bytes `data`. -/
def testEnv : Env where
  send := fun _ => RoundTrip.response 200 (.ok (lit "ok"))
  readFile := fun p =>
    if p = lit "/tmp/receipt.jpg" then FileRead.content (lit "data")
    else FileRead.openError (lit "no such file or directory")
  boundary := lit "b0undary"

/-- The world of `testEnv` with every request answered by this status and
body. -/
def answering (status : Int) (body : GoString) : Env :=
  { testEnv with send := fun _ => RoundTrip.response status (.ok body) }

/-- The GET request of `testClient` for this path and raw query. -/
def testGet (path rawQuery : GoString) : Request where
  Method := lit "GET"
  URL := { Base := lit "http://127.0.0.1:8080" ++ path, RawQuery := rawQuery,
           ForceQuery := false, Fragment := [] }
  Header := [(lit "Authorization", [lit "Bearer test-token"]),
             (lit "Accept", [lit "application/json"])]
  Body := Body.none

/-! ## Decimal formatting -/

theorem byteOf_digitChar (d : Nat) (h : d < 10) : byteOf (Nat.digitChar d) = digitByte d := by
  interval_cases d <;> decide

theorem formatBits_eq_toDigitsCore (fuel u : Nat) (ds : List Char) :
    formatBits fuel u (ds.map byteOf) = (Nat.toDigitsCore 10 fuel u ds).map byteOf := by
  induction fuel generalizing u ds with
  | zero => simp [formatBits, Nat.toDigitsCore]
  | succ f ih =>
    have hd : byteOf (Nat.digitChar (u % 10)) = digitByte (u % 10) :=
      byteOf_digitChar _ (Nat.mod_lt _ (by decide))
    by_cases hu : u < 10
    · have h0 : u / 10 = 0 := Nat.div_eq_of_lt hu
      have hm : u % 10 = u := Nat.mod_eq_of_lt hu
      simp [formatBits, Nat.toDigitsCore, hu, h0, hm]
      exact (byteOf_digitChar u hu).symm
    · have h0 : u / 10 ≠ 0 := by omega
      simp only [formatBits, Nat.toDigitsCore, hu, h0, if_false]
      rw [← hd, ← List.map_cons, ih]

/-- The digit loop prints the decimal representation of an unsigned integer. -/
theorem FormatUint_eq_repr (n : Nat) : FormatUint n = lit (Nat.repr n) := by
  have := formatBits_eq_toDigitsCore (n + 1) n []
  simpa [FormatUint, lit, Nat.repr, Nat.toDigits, List.asString] using this

/-- The signed verb prints the decimal representation of an integer, with a
minus sign when it is negative. -/
theorem FormatInt_eq_repr (i : Int) : FormatInt i = lit (toString i) := by
  cases i with
  | ofNat m =>
    have : ¬ ((m : Int) < 0) := by omega
    simp [FormatInt, this, FormatUint_eq_repr]
    rfl
  | negSucc m =>
    have : (Int.negSucc m) < 0 := Int.negSucc_lt_zero m
    simp [FormatInt, this, FormatUint_eq_repr]
    show _ = lit ("-" ++ Nat.repr (m + 1))
    simp [lit, String.data_append]

/-! ## Headers, requests and responses -/

/-- C6: on a client whose account id is `n`, `accountPath(suffix)` is
`/api/v3/` followed by the decimal representation of `n` followed by the
suffix, for every suffix (so for every one that starts with `/`); id 42 and
`/ledger` give `/api/v3/42/ledger`. -/
theorem accountPath_eq (n : Nat) (baseURL token suffix : GoString) :
    (NewClient baseURL token n).accountPath suffix
        = lit "/api/v3/" ++ lit (Nat.repr n) ++ suffix
      ∧ (NewClient baseURL token 42).accountPath (lit "/ledger") = lit "/api/v3/42/ledger" := by
  refine ⟨?_, ?_⟩
  · simp [Client.accountPath, NewClient, FormatUint_eq_repr]
  · show lit "/api/v3/" ++ FormatUint 42 ++ lit "/ledger" = lit "/api/v3/42/ledger"
    decide

/-- C10: `UploadFile` hands to `uploadFile` the path `/files` of the account,
the file path, and a field map that is the single entry `ledger_id` with the
value of the ledger id when that is not empty, and the empty map when it is
empty. -/
theorem UploadFile_fields (c : Client) (filePath ledgerID : GoString) :
    ∃ fields : Params,
      (AccountOp.UploadFile filePath ledgerID).call c
          = Call.uploadFile (c.accountPath (lit "/files")) filePath fields
        ∧ fields = (if ledgerID = [] then [] else [(lit "ledger_id", ledgerID)])
        ∧ (∀ v, (lit "ledger_id", v) ∈ fields ↔ (ledgerID ≠ [] ∧ v = ledgerID)) := by
  refine ⟨uploadFields ledgerID, rfl, ?_, ?_⟩
  · by_cases h : ledgerID = [] <;> simp [uploadFields, h]
  · intro v
    by_cases h : ledgerID = [] <;> simp [uploadFields, h]

theorem Set_Lookup_self (m : Values) (k v : GoString) : (m.Set k v).Lookup k = [v] := by
  induction m with
  | nil => simp [Values.Set, Values.Lookup]
  | cons e rest ih =>
    obtain ⟨k', vs⟩ := e
    by_cases h : k' = k <;> simp [Values.Set, Values.Lookup, h, ih]

theorem Set_Lookup_other (m : Values) (k k' v : GoString) (h : k ≠ k') :
    (m.Set k v).Lookup k' = m.Lookup k' := by
  induction m with
  | nil => simp [Values.Set, Values.Lookup, h]
  | cons e rest ih =>
    obtain ⟨k2, vs⟩ := e
    by_cases h2 : k2 = k
    · subst h2; simp [Values.Set, Values.Lookup, h]
    · by_cases h3 : k2 = k'
      · subst h3; simp [Values.Set, Values.Lookup, h2]
      · simp [Values.Set, Values.Lookup, h2, h3, ih]

theorem Set_Has_other (m : Values) (k k' v : GoString) (h : k ≠ k') :
    (m.Set k v).Has k' = m.Has k' := by
  induction m with
  | nil => simp [Values.Set, Values.Has, h]
  | cons e rest ih =>
    obtain ⟨k2, vs⟩ := e
    by_cases h2 : k2 = k
    · subst h2; simp [Values.Set, Values.Has, h]
    · by_cases h3 : k2 = k'
      · subst h3; simp [Values.Set, Values.Has, h2]
      · simp [Values.Set, Values.Has, h2, h3, ih]

theorem NewRequest_ok (method url : GoString) (body : Body) (req : Request)
    (h : NewRequest method url body = .ok req) :
    req.Method = method ∧ req.Header = [] ∧ req.Body = body ∧ Parse url = .ok req.URL := by
  unfold NewRequest at h
  cases hp : Parse url with
  | error e => simp [hp] at h
  | ok u =>
    simp [hp] at h
    subst h
    simp

/-- C5: the request built by `postNoAuth` carries no `Authorization` header,
whatever token the client holds (the request is the same for every token);
otherwise it is the POST that `post` builds: the same method, URL and body, and
the same value `application/json` under `Content-Type` and `Accept`, as under
every key other than `Authorization`. -/
theorem postNoAuth_no_bearer (c : Client) (path : GoString) (body : Marshalled) (req : Request)
    (h : c.postNoAuthRequest path body = .ok req) :
    req.Header.Has (lit "Authorization") = false
      ∧ req.Header.Lookup (lit "Authorization") = []
      ∧ req.Method = lit "POST"
      ∧ req.Header.Lookup (lit "Content-Type") = [lit "application/json"]
      ∧ req.Header.Lookup (lit "Accept") = [lit "application/json"]
      ∧ (∃ req2, c.postRequest path body = .ok req2
          ∧ req2.Method = req.Method ∧ req2.URL = req.URL ∧ req2.Body = req.Body
          ∧ req2.Header.Lookup (lit "Authorization") = [lit "Bearer " ++ c.accessToken]
          ∧ ∀ k, k ≠ lit "Authorization" → req2.Header.Lookup k = req.Header.Lookup k)
      ∧ (∀ token, (NewClient c.baseURL token c.accountID).postNoAuthRequest path body
          = .ok req) := by
  have h1 : lit "Content-Type" ≠ lit "Authorization" := by decide
  have h2 : lit "Accept" ≠ lit "Authorization" := by decide
  have h3 : lit "Accept" ≠ lit "Content-Type" := by decide
  simp only [Client.postNoAuthRequest, Client.postRequest, NewClient] at h ⊢
  cases body with
  | error e => simp at h
  | ok jsonBody =>
    simp only at h ⊢
    cases hn : NewRequest (lit "POST") (c.baseURL ++ path) (Body.bytes jsonBody) with
    | error e => simp [hn] at h
    | ok r =>
      obtain ⟨hm, hh, hb, -⟩ := NewRequest_ok _ _ _ _ hn
      simp only [hn] at h ⊢
      injection h with h
      subst h
      refine ⟨?_, ?_, ?_, ?_, ?_, ?_, ?_⟩
      · simp [Request.SetHeader, Set_Has_other _ _ _ _ h2, Set_Has_other _ _ _ _ h1, hh, Values.Has, Values.Set, h1, h2]
      · simp [Request.SetHeader, Set_Lookup_other _ _ _ _ h2, Set_Lookup_other _ _ _ _ h1, hh,
          Values.Lookup, Values.Set, h1, h2]
      · simpa [Request.SetHeader] using hm
      · simp [Request.SetHeader, Set_Lookup_other _ _ _ _ h3, Set_Lookup_self]
      · simp [Request.SetHeader, Set_Lookup_self]
      · refine ⟨_, rfl, rfl, rfl, rfl, ?_, ?_⟩
        · simp [Request.SetHeader, Set_Lookup_other _ _ _ _ h2, Set_Lookup_other _ _ _ _ h1,
            Set_Lookup_self]
        · intro k hk
          simp only [Request.SetHeader, hh]
          by_cases ha : lit "Accept" = k
          · subst ha; simp [Set_Lookup_self]
          · rw [Set_Lookup_other _ _ _ _ ha, Set_Lookup_other _ _ _ _ ha]
            by_cases hc : lit "Content-Type" = k
            · subst hc; simp [Set_Lookup_self]
            · rw [Set_Lookup_other _ _ _ _ hc, Set_Lookup_other _ _ _ _ hc]
              rw [Set_Lookup_other _ _ _ _ (Ne.symm hk)]
      · intro token; rfl

theorem postNoAuth_no_bearer_witness :
    testClient.postNoAuthRequest (lit "/oauth/token") (.ok (lit "\x7b\x7d"))
        = .ok { Method := lit "POST",
                URL := { Base := lit "http://127.0.0.1:8080/oauth/token", RawQuery := [],
                         ForceQuery := false, Fragment := [] },
                Header := [(lit "Content-Type", [lit "application/json"]),
                           (lit "Accept", [lit "application/json"])],
                Body := Body.bytes (lit "\x7b\x7d") }
      ∧ Values.Has [(lit "Content-Type", [lit "application/json"]),
          (lit "Accept", [lit "application/json"])] (lit "Authorization") = false :=
  ⟨rfl, (postNoAuth_no_bearer testClient (lit "/oauth/token") (.ok (lit "\x7b\x7d")) _ rfl).1⟩

theorem accountPath_slash (c : Client) (rest : GoString) :
    (lit "/api/v3/" ++ lit (Nat.repr c.accountID) ++ lit "/")
      <+: c.accountPath (byteOf '/' :: rest) := by
  refine ⟨rest, ?_⟩
  simp [Client.accountPath, FormatUint_eq_repr]
  rfl

/-- C7: for every account id and every account-level operation of the client,
the path the operation hands to its verb helper (the path of the request below
the base URL) begins with `/api/v3/`, the decimal account id and `/`. -/
theorem account_operations_addressed_under_account (c : Client) (op : AccountOp) :
    (lit "/api/v3/" ++ lit (Nat.repr c.accountID) ++ lit "/") <+: (op.call c).path := by
  cases op <;> exact accountPath_slash c _

/-- C2: for every request whose response was read and has a status code outside
[200,300) (1xx and 3xx included), `doRequest` returns no body and the error
whose text is exactly `API error (status <code>): <body>`, with the code in
decimal and the raw body verbatim. -/
theorem doRequest_status_error (c : Client) (env : Env) (req : Request) (status : Int)
    (body : GoString) (hs : env.send req = .response status (.ok body))
    (h : status < 200 ∨ 300 ≤ status) :
    c.doRequest env req
        = .error (lit "API error (status " ++ lit (toString status) ++ lit "): " ++ body)
      ∧ (∀ b, c.doRequest env req ≠ .ok b) := by
  have h' : status < 200 ∨ status ≥ 300 := h
  simp [Client.doRequest, hs, h', FormatInt_eq_repr]

theorem doRequest_status_error_witness :
    testClient.doRequest (answering 500 (lit "\x7b\"error\":\"something went wrong\"\x7d"))
          (testGet (lit "/test") [])
        = .error (lit "API error (status 500): \x7b\"error\":\"something went wrong\"\x7d")
      ∧ testClient.doRequest (answering 301 (lit "moved")) (testGet (lit "/test") [])
        = .error (lit "API error (status 301): moved")
      ∧ testClient.doRequest (answering 100 []) (testGet (lit "/test") [])
        = .error (lit "API error (status 100): ") :=
  ⟨(doRequest_status_error testClient (answering 500 _) _ 500 _ rfl (by decide)).1,
    (doRequest_status_error testClient (answering 301 _) _ 301 _ rfl (by decide)).1,
    (doRequest_status_error testClient (answering 100 _) _ 100 _ rfl (by decide)).1⟩

/-- C3: for a request whose response was received and read, `doRequest` returns
the body bytes unmodified with no error when the status code is in [200,300),
and only then; it fails exactly when the code is below 200 or at least 300. -/
theorem doRequest_success_iff (c : Client) (env : Env) (req : Request) (status : Int)
    (body : GoString) (hs : env.send req = .response status (.ok body)) :
    (200 ≤ status ∧ status < 300 → c.doRequest env req = .ok body)
      ∧ (c.doRequest env req = .ok body ↔ 200 ≤ status ∧ status < 300)
      ∧ ((∃ err, c.doRequest env req = .error err) ↔ status < 200 ∨ 300 ≤ status) := by
  by_cases h : status < 200 ∨ status ≥ 300
  · simp [Client.doRequest, hs, h]
    omega
  · simp [Client.doRequest, hs, h]
    omega

theorem doRequest_success_iff_witness :
    testClient.doRequest (answering 204 []) (testGet (lit "/test") []) = .ok []
      ∧ testClient.doRequest (answering 200 (lit "[1,2]")) (testGet (lit "/test") [])
        = .ok (lit "[1,2]") :=
  ⟨(doRequest_success_iff testClient (answering 204 []) _ 204 [] rfl).1 (by decide),
    (doRequest_success_iff testClient (answering 200 _) _ 200 _ rfl).1 (by decide)⟩

/-! ## Query escaping round trip -/

theorem escapeByte_all (c : Byte) : ∀ b ∈ escapeByte c, escapedByte b = true := by
  have h : ∀ c : Byte, (escapeByte c).all escapedByte = true := by decide!
  exact fun b hb => List.all_eq_true.mp (h c) b hb

theorem escapedByte_props (b : Byte) (h : escapedByte b = true) :
    b ≠ byteOf '&' ∧ b ≠ byteOf '=' ∧ b ≠ byteOf ';' ∧ b ≠ byteOf '#' ∧ b ≠ byteOf '?'
      ∧ ¬ (b.val < 32) ∧ b.val ≠ 127 := by
  revert b; decide!

theorem QueryEscape_all (s : GoString) : ∀ b ∈ QueryEscape s, escapedByte b = true := by
  intro b hb
  simp only [QueryEscape, List.mem_flatMap] at hb
  obtain ⟨c, -, hc⟩ := hb
  exact escapeByte_all c b hc

theorem QueryEscape_cons (c : Byte) (s : GoString) :
    QueryEscape (c :: s) = escapeByte c ++ QueryEscape s := by
  simp [QueryEscape]

theorem QueryUnescape_cons_plain (c : Byte) (t : GoString) (h1 : c ≠ byteOf '%')
    (h2 : c ≠ byteOf '+') : QueryUnescape (c :: t) = (QueryUnescape t).map (List.cons c) := by
  cases t with
  | nil => simp [QueryUnescape, h1, h2]
  | cons a t => cases t <;> simp [QueryUnescape, h1, h2]

theorem QueryUnescape_cons_plus (t : GoString) :
    QueryUnescape (byteOf '+' :: t) = (QueryUnescape t).map (List.cons (byteOf ' ')) := by
  have hp : byteOf '+' ≠ byteOf '%' := by decide
  cases t with
  | nil => simp [QueryUnescape, hp]
  | cons a t => cases t <;> simp [QueryUnescape, hp]

theorem QueryUnescape_escapeByte_append (c : Byte) (t r : GoString)
    (h : QueryUnescape t = some r) : QueryUnescape (escapeByte c ++ t) = some (c :: r) := by
  have key : ∀ c : Byte,
      (shouldEscape c = false ∧ c ≠ byteOf '%' ∧ c ≠ byteOf '+')
      ∨ (shouldEscape c = true ∧ c = byteOf ' ')
      ∨ (shouldEscape c = true ∧ c ≠ byteOf ' '
          ∧ ishex (upperhex (c.val / 16)) = true ∧ ishex (upperhex (c.val % 16)) = true
          ∧ hexPair (upperhex (c.val / 16)) (upperhex (c.val % 16)) = c) := by decide!
  rcases key c with ⟨h1, h2, h3⟩ | ⟨h1, h2⟩ | ⟨h1, h2, h3, h4, h5⟩
  · simp [escapeByte, h1, QueryUnescape_cons_plain c t h2 h3, h]
  · subst h2
    simp [escapeByte, h1, QueryUnescape_cons_plus, h]
  · simp [escapeByte, h1, h2, QueryUnescape, h3, h4, h5, h]

/-- Unescaping an escaped query component gives the component back. -/
theorem QueryUnescape_QueryEscape (s : GoString) : QueryUnescape (QueryEscape s) = some s := by
  induction s with
  | nil => simp [QueryEscape, QueryUnescape]
  | cons c s ih =>
    rw [QueryEscape_cons]
    exact QueryUnescape_escapeByte_append c _ _ ih

theorem QueryEscape_injective (a b : GoString) (h : QueryEscape a = QueryEscape b) : a = b := by
  have := QueryUnescape_QueryEscape a
  rw [h, QueryUnescape_QueryEscape] at this
  exact (Option.some.inj this).symm

theorem QueryEscape_of_unreserved (s : GoString) (h : ∀ b ∈ s, shouldEscape b = false) :
    QueryEscape s = s := by
  induction s with
  | nil => rfl
  | cons c s ih =>
    rw [QueryEscape_cons, ih (fun b hb => h b (List.mem_cons_of_mem _ hb))]
    simp [escapeByte, h c (List.mem_cons_self _ _)]

/-! ## Cutting, splitting and joining -/

theorem cut_of_not_mem (sep : Byte) (s : GoString) (h : sep ∉ s) : cut sep s = (s, []) := by
  induction s with
  | nil => rfl
  | cons c s ih =>
    have hc : c ≠ sep := fun e => h (e ▸ List.mem_cons_self _ _)
    have hs : sep ∉ s := fun e => h (List.mem_cons_of_mem _ e)
    simp [cut, hc, ih hs]

theorem cut_append (sep : Byte) (s t : GoString) (h : sep ∉ s) :
    cut sep (s ++ sep :: t) = (s, t) := by
  induction s with
  | nil => simp [cut]
  | cons c s ih =>
    have hc : c ≠ sep := fun e => h (e ▸ List.mem_cons_self _ _)
    have hs : sep ∉ s := fun e => h (List.mem_cons_of_mem _ e)
    simp [cut, hc, ih hs]

theorem cut_fst_not_mem (sep : Byte) (s : GoString) : sep ∉ (cut sep s).1 := by
  induction s with
  | nil => simp [cut]
  | cons c s ih =>
    by_cases hc : c = sep
    · simp [cut, hc]
    · simp only [cut, hc, if_false, List.mem_cons, not_or]
      exact ⟨fun e => hc e.symm, ih⟩

theorem splitBy_ne_nil (sep : Byte) (s : GoString) : splitBy sep s ≠ [] := by
  induction s with
  | nil => simp [splitBy]
  | cons c s ih =>
    by_cases hc : c = sep
    · simp [splitBy, hc]
    · simp only [splitBy, hc, if_false]
      split <;> simp

theorem splitBy_of_not_mem (sep : Byte) (s : GoString) (h : sep ∉ s) : splitBy sep s = [s] := by
  induction s with
  | nil => rfl
  | cons c s ih =>
    have hc : c ≠ sep := fun e => h (e ▸ List.mem_cons_self _ _)
    have hs : sep ∉ s := fun e => h (List.mem_cons_of_mem _ e)
    simp [splitBy, hc, ih hs]

theorem splitBy_append (sep : Byte) (s t : GoString) (h : sep ∉ s) :
    splitBy sep (s ++ sep :: t) = s :: splitBy sep t := by
  induction s with
  | nil => simp [splitBy]
  | cons c s ih =>
    have hc : c ≠ sep := fun e => h (e ▸ List.mem_cons_self _ _)
    have hs : sep ∉ s := fun e => h (List.mem_cons_of_mem _ e)
    simp [splitBy, hc, ih hs]

/-- Splitting a joined text gives the pieces back when no piece holds the
separator. -/
theorem splitBy_joinBy (sep : Byte) (l : List GoString) (hl : l ≠ [])
    (h : ∀ s ∈ l, sep ∉ s) : splitBy sep (joinBy sep l) = l := by
  induction l with
  | nil => exact absurd rfl hl
  | cons x rest ih =>
    cases rest with
    | nil => simpa [joinBy] using splitBy_of_not_mem sep x (h x (List.mem_cons_self _ _))
    | cons y rest =>
      simp only [joinBy]
      rw [splitBy_append sep x _ (h x (List.mem_cons_self _ _))]
      rw [ih (by simp) (fun s hs => h s (List.mem_cons_of_mem _ hs))]

/-! ## `Values` -/

theorem Lookup_of_not_mem (m : Values) (k : GoString) (h : k ∉ m.map Prod.fst) :
    m.Lookup k = [] := by
  induction m with
  | nil => rfl
  | cons e rest ih =>
    obtain ⟨k', vs⟩ := e
    simp only [List.map_cons, List.mem_cons, not_or] at h
    simp [Values.Lookup, Ne.symm h.1, ih h.2]

theorem Has_iff_mem (m : Values) (k : GoString) : m.Has k = true ↔ k ∈ m.map Prod.fst := by
  induction m with
  | nil => simp [Values.Has]
  | cons e rest ih =>
    obtain ⟨k', vs⟩ := e
    by_cases h : k' = k
    · simp [Values.Has, h]
    · simp [Values.Has, h, ih, Ne.symm h]

theorem Has_iff_Lookup (m : Values) (hm : NonemptyValues m) (k : GoString) :
    m.Has k = true ↔ m.Lookup k ≠ [] := by
  induction m with
  | nil => simp [Values.Has, Values.Lookup]
  | cons e rest ih =>
    obtain ⟨k', vs⟩ := e
    have hr : NonemptyValues rest := fun kv h => hm kv (List.mem_cons_of_mem _ h)
    by_cases h : k' = k
    · have := hm (k', vs) (List.mem_cons_self _ _)
      simpa [Values.Has, Values.Lookup, h] using this
    · simp [Values.Has, Values.Lookup, h, ih hr]

theorem Add_Lookup_self (m : Values) (k v : GoString) :
    (m.Add k v).Lookup k = m.Lookup k ++ [v] := by
  induction m with
  | nil => simp [Values.Add, Values.Lookup]
  | cons e rest ih =>
    obtain ⟨k', vs⟩ := e
    by_cases h : k' = k <;> simp [Values.Add, Values.Lookup, h, ih]

theorem Add_Lookup_other (m : Values) (k k' v : GoString) (h : k ≠ k') :
    (m.Add k v).Lookup k' = m.Lookup k' := by
  induction m with
  | nil => simp [Values.Add, Values.Lookup, h]
  | cons e rest ih =>
    obtain ⟨k2, vs⟩ := e
    by_cases h2 : k2 = k
    · subst h2; simp [Values.Add, Values.Lookup, h]
    · by_cases h3 : k2 = k'
      · subst h3; simp [Values.Add, Values.Lookup, h2]
      · simp [Values.Add, Values.Lookup, h2, h3, ih]

theorem Add_nonempty (m : Values) (k v : GoString) (hm : NonemptyValues m) :
    NonemptyValues (m.Add k v) := by
  induction m with
  | nil => intro kv h; simp [Values.Add] at h; subst h; simp
  | cons e rest ih =>
    obtain ⟨k', vs⟩ := e
    have hr : NonemptyValues rest := fun kv h => hm kv (List.mem_cons_of_mem _ h)
    intro kv h
    by_cases hk : k' = k
    · simp only [Values.Add, hk, if_true, List.mem_cons] at h
      rcases h with h | h
      · subst h; simp
      · exact hr kv h
    · simp only [Values.Add, hk, if_false, List.mem_cons] at h
      rcases h with h | h
      · subst h; exact hm _ (List.mem_cons_self _ _)
      · exact ih hr kv h

theorem Add_keys_nodup (m : Values) (k v : GoString) (hm : (m.map Prod.fst).Nodup) :
    ((m.Add k v).map Prod.fst).Nodup ∧ ∀ x, x ∈ (m.Add k v).map Prod.fst ↔ x = k ∨ x ∈ m.map Prod.fst := by
  induction m with
  | nil => simp [Values.Add]
  | cons e rest ih =>
    obtain ⟨k', vs⟩ := e
    simp only [List.map_cons, List.nodup_cons] at hm
    obtain ⟨ih1, ih2⟩ := ih hm.2
    by_cases hk : k' = k
    · subst hk
      simp only [Values.Add, if_true, List.map_cons, List.nodup_cons]
      exact ⟨hm, fun x => by simp⟩
    · simp only [Values.Add, hk, if_false, List.map_cons, List.nodup_cons, List.mem_cons]
      refine ⟨⟨?_, ih1⟩, fun x => ?_⟩
      · rw [ih2]; simp only [not_or]; exact ⟨hk, hm.1⟩
      · rw [ih2]; tauto

theorem foldl_Add_Lookup (pairs : List (GoString × GoString)) (m : Values) (k : GoString) :
    (pairs.foldl (fun m kv => m.Add kv.1 kv.2) m).Lookup k
      = m.Lookup k ++ (pairs.filter (fun kv => kv.1 = k)).map Prod.snd := by
  induction pairs generalizing m with
  | nil => simp
  | cons p rest ih =>
    obtain ⟨k', v⟩ := p
    simp only [List.foldl_cons]
    rw [ih]
    by_cases h : k' = k
    · subst h; simp [Add_Lookup_self]
    · simp [Add_Lookup_other _ _ _ _ h, h]

theorem foldl_Add_nonempty (pairs : List (GoString × GoString)) (m : Values)
    (hm : NonemptyValues m) : NonemptyValues (pairs.foldl (fun m kv => m.Add kv.1 kv.2) m) := by
  induction pairs generalizing m with
  | nil => simpa using hm
  | cons p rest ih => exact ih _ (Add_nonempty m _ _ hm)

/-! ## Parsing an encoded query -/

theorem encodePair_props (kv : GoString × GoString) :
    byteOf '&' ∉ encodePair kv ∧ byteOf ';' ∉ encodePair kv ∧ encodePair kv ≠ []
      ∧ byteOf '#' ∉ encodePair kv ∧ byteOf '?' ∉ encodePair kv
      ∧ containsCTLByte (encodePair kv) = false := by
  have hall : ∀ b ∈ encodePair kv, escapedByte b = true ∨ b = byteOf '=' := by
    intro b hb
    simp only [encodePair, List.mem_append, List.mem_cons] at hb
    rcases hb with hb | hb | hb
    · exact Or.inl (QueryEscape_all _ b hb)
    · exact Or.inr hb
    · exact Or.inl (QueryEscape_all _ b hb)
  refine ⟨?_, ?_, ?_, ?_, ?_, ?_⟩
  · intro h
    rcases hall _ h with h1 | h1
    · exact (escapedByte_props _ h1).1 rfl
    · exact absurd h1 (by decide)
  · intro h
    rcases hall _ h with h1 | h1
    · exact (escapedByte_props _ h1).2.2.1 rfl
    · exact absurd h1 (by decide)
  · simp [encodePair]
  · intro h
    rcases hall _ h with h1 | h1
    · exact (escapedByte_props _ h1).2.2.2.1 rfl
    · exact absurd h1 (by decide)
  · intro h
    rcases hall _ h with h1 | h1
    · exact (escapedByte_props _ h1).2.2.2.2.1 rfl
    · exact absurd h1 (by decide)
  · rw [Bool.eq_false_iff]
    intro h
    simp only [containsCTLByte, List.any_eq_true, Bool.or_eq_true, decide_eq_true_eq] at h
    obtain ⟨b, hb, hc⟩ := h
    rcases hall _ hb with h1 | h1
    · have := escapedByte_props _ h1
      rcases hc with hc | hc
      · exact this.2.2.2.2.2.1 hc
      · exact this.2.2.2.2.2.2 hc
    · subst h1
      revert hc
      decide

/-- The loop of `parseQuery` reads an encoded pair back as the pair. -/
theorem parseQuerySegment_encodePair (m : Values) (kv : GoString × GoString) :
    parseQuerySegment m (encodePair kv) = m.Add kv.1 kv.2 := by
  obtain ⟨h1, h2, h3, -⟩ := encodePair_props kv
  have hcut : cut (byteOf '=') (encodePair kv) = (QueryEscape kv.1, QueryEscape kv.2) := by
    apply cut_append
    intro h
    exact (escapedByte_props _ (QueryEscape_all _ _ h)).2.1 rfl
  simp [parseQuerySegment, h2, h3, hcut, QueryUnescape_QueryEscape]

theorem foldl_parseQuerySegment_encodePair (pairs : List (GoString × GoString)) (m : Values) :
    (pairs.map encodePair).foldl parseQuerySegment m
      = pairs.foldl (fun m kv => m.Add kv.1 kv.2) m := by
  induction pairs generalizing m with
  | nil => rfl
  | cons p rest ih => simp [parseQuerySegment_encodePair, ih]

theorem Encode_eq (q : Values) :
    q.Encode = joinBy (byteOf '&') ((encodePairs q).map encodePair) := by
  simp [Values.Encode, encodePairs, List.map_flatMap, encodePair, Function.comp_def]

/-- Parsing what `Encode` wrote adds the written pairs in their order. -/
theorem ParseQuery_joinBy (pairs : List (GoString × GoString)) :
    ParseQuery (joinBy (byteOf '&') (pairs.map encodePair))
      = pairs.foldl (fun (m : Values) kv => m.Add kv.1 kv.2) ([] : Values) := by
  unfold ParseQuery
  by_cases hp : pairs = []
  · subst hp
    simp [joinBy, splitBy, parseQuerySegment]
  · rw [splitBy_joinBy _ _ (by simpa using hp)]
    · exact foldl_parseQuerySegment_encodePair pairs []
    · intro s hs
      obtain ⟨kv, -, rfl⟩ := List.mem_map.mp hs
      exact (encodePair_props kv).1

theorem sortStrings_perm (l : List GoString) : (sortStrings l).Perm l :=
  List.perm_insertionSort _ l

theorem filter_pairs (q : Values) (ks : List GoString) (hk : ks.Nodup) (k : GoString) :
    ((ks.flatMap (fun key => (q.Lookup key).map (fun x => (key, x)))).filter
        (fun kv => kv.1 = k)).map Prod.snd
      = if k ∈ ks then q.Lookup k else [] := by
  induction ks with
  | nil => simp
  | cons a rest ih =>
    simp only [List.nodup_cons] at hk
    simp only [List.flatMap_cons, List.filter_append, List.map_append, ih hk.2]
    by_cases ha : a = k
    · subst ha
      have : (List.filter (fun kv => decide (kv.1 = a)) (List.map (fun x => (a, x)) (q.Lookup a)))
          = List.map (fun x => (a, x)) (q.Lookup a) := by
        apply List.filter_eq_self.mpr
        intro kv h
        obtain ⟨x, -, rfl⟩ := List.mem_map.mp h
        simp
      simp [this, hk.1, Function.comp_def]
    · have : (List.filter (fun kv => decide (kv.1 = k)) (List.map (fun x => (a, x)) (q.Lookup a)))
          = [] := by
        apply List.filter_eq_nil_iff.mpr
        intro kv h
        obtain ⟨x, -, rfl⟩ := List.mem_map.mp h
        simp [ha]
      simp [this, Ne.symm ha]

/-- Round trip: what the receiving side parses out of an encoded query is,
key by key, what was encoded. -/
theorem ParseQuery_Encode_Lookup (q : Values) (hq : (q.map Prod.fst).Nodup) (k : GoString) :
    (ParseQuery q.Encode).Lookup k = q.Lookup k := by
  rw [Encode_eq, ParseQuery_joinBy, foldl_Add_Lookup]
  have hn : (sortStrings (q.map Prod.fst)).Nodup := (sortStrings_perm _).nodup_iff.mpr hq
  simp only [Values.Lookup, List.nil_append, encodePairs]
  rw [filter_pairs q _ hn k]
  by_cases hk : k ∈ sortStrings (q.map Prod.fst)
  · simp [hk]
  · have : k ∉ q.map Prod.fst := fun h => hk ((sortStrings_perm _).mem_iff.mpr h)
    simp [hk, Lookup_of_not_mem q k this]

theorem ParseQuery_nonempty (s : GoString) : NonemptyValues (ParseQuery s) := by
  unfold ParseQuery
  generalize splitBy (byteOf '&') s = segs
  have : ∀ (m : Values), NonemptyValues m → NonemptyValues (segs.foldl parseQuerySegment m) := by
    induction segs with
    | nil => intro m hm; simpa using hm
    | cons seg rest ih =>
      intro m hm
      simp only [List.foldl_cons]
      apply ih
      unfold parseQuerySegment
      split
      · exact hm
      · split
        · exact hm
        · split
          · exact Add_nonempty _ _ _ hm
          · exact hm
  exact this [] (fun kv h => by simp at h)

theorem ParseQuery_keys_nodup (s : GoString) : ((ParseQuery s).map Prod.fst).Nodup := by
  unfold ParseQuery
  generalize splitBy (byteOf '&') s = segs
  have : ∀ (m : Values), (m.map Prod.fst).Nodup →
      ((segs.foldl parseQuerySegment m).map Prod.fst).Nodup := by
    induction segs with
    | nil => intro m hm; simpa using hm
    | cons seg rest ih =>
      intro m hm
      simp only [List.foldl_cons]
      apply ih
      unfold parseQuerySegment
      split
      · exact hm
      · split
        · exact hm
        · split
          · exact (Add_keys_nodup _ _ _ hm).1
          · exact hm
  exact this [] (by simp)

/-! ## Parsing and printing a URL -/

theorem cut_fst_subset (sep : Byte) (s : GoString) : ∀ b ∈ (cut sep s).1, b ∈ s := by
  induction s with
  | nil => simp [cut]
  | cons c s ih =>
    intro b hb
    by_cases hc : c = sep
    · simp [cut, hc] at hb
    · simp only [cut, hc, if_false, List.mem_cons] at hb ⊢
      rcases hb with hb | hb
      · exact Or.inl hb
      · exact Or.inr (ih b hb)

theorem containsCTLByte_false_iff (s : GoString) :
    containsCTLByte s = false ↔ ∀ b ∈ s, ¬ (b.val < 32) ∧ b.val ≠ 127 := by
  rw [Bool.eq_false_iff]
  simp only [containsCTLByte, ne_eq, List.any_eq_true, Bool.or_eq_true, decide_eq_true_eq,
    not_exists, not_and, not_or]

theorem getLast?_mem (s : GoString) (b : Byte) (h : s.getLast? = some b) : b ∈ s :=
  List.mem_of_getLast?_eq_some h

theorem not_mem_dropLast (s : GoString) (b : Byte) (h1 : s.getLast? = some b)
    (h2 : s.count b = 1) : b ∉ s.dropLast := by
  have hs : s = s.dropLast ++ [b] := by
    have hne : s ≠ [] := by intro e; simp [e] at h1
    rw [List.getLast?_eq_getLast _ hne] at h1
    have := List.dropLast_append_getLast hne
    rw [Option.some.inj h1] at this
    exact this.symm
  rw [hs, List.count_append] at h2
  simp at h2
  exact List.count_eq_zero.mp h2

/-- The part of a parsed URL before its query holds no `?`, no `#` and no
control character. -/
theorem Parse_Base (raw : GoString) (u : URL) (h : Parse raw = .ok u) :
    byteOf '?' ∉ u.Base ∧ byteOf '#' ∉ u.Base ∧ containsCTLByte u.Base = false := by
  unfold Parse at h
  simp only at h
  have hsharp := cut_fst_not_mem (byteOf '#') raw
  split at h
  · simp at h
  · rename_i hctl
    have hctl2 := (containsCTLByte_false_iff _).mp (by simpa using hctl)
    split at h
    · rename_i hf
      injection h with h
      subst h
      simp only
      refine ⟨not_mem_dropLast _ _ hf.1 hf.2, ?_, ?_⟩
      · exact fun hm => hsharp (List.mem_of_mem_dropLast hm)
      · exact (containsCTLByte_false_iff _).mpr
          (fun b hb => hctl2 b (List.mem_of_mem_dropLast hb))
    · injection h with h
      subst h
      simp only
      refine ⟨cut_fst_not_mem _ _, ?_, ?_⟩
      · exact fun hm => hsharp (cut_fst_subset _ _ _ hm)
      · exact (containsCTLByte_false_iff _).mpr
          (fun b hb => hctl2 b (cut_fst_subset _ _ _ hb))

/-- A text without `?` parses to a URL without query. -/
theorem Parse_RawQuery_nil (raw : GoString) (u : URL) (h : Parse raw = .ok u)
    (hq : byteOf '?' ∉ raw) : u.RawQuery = [] := by
  unfold Parse at h
  simp only at h
  have hq2 : byteOf '?' ∉ (cut (byteOf '#') raw).1 := fun hm => hq (cut_fst_subset _ _ _ hm)
  split at h
  · simp at h
  · split at h
    · injection h with h
      subst h
      rfl
    · injection h with h
      subst h
      simp [cut_of_not_mem _ _ hq2]

/-- Printing a URL and parsing the text again keeps the query, when the query
holds no `?`, no `#` and no control character (as an encoded query does). -/
theorem Parse_String (base enc frag : GoString) (fq : Bool)
    (hb1 : byteOf '?' ∉ base) (hb2 : byteOf '#' ∉ base) (hb3 : containsCTLByte base = false)
    (he1 : byteOf '?' ∉ enc) (he2 : byteOf '#' ∉ enc) (he3 : containsCTLByte enc = false) :
    ∃ u, Parse (URL.String { Base := base, RawQuery := enc, ForceQuery := fq, Fragment := frag })
        = .ok u ∧ u.RawQuery = enc ∧ u.Base = base ∧ u.Fragment = frag := by
  have hqs : byteOf '?' ≠ byteOf '#' := by decide
  have hq3 : ¬ ((byteOf '?').val < 32) ∧ (byteOf '?').val ≠ 127 := by decide
  -- the text before the fragment
  obtain ⟨w, hw, hwcases⟩ : ∃ w : GoString,
      w = base ++ (if fq = true ∨ enc ≠ [] then byteOf '?' :: enc else [])
      ∧ ((fq = true ∧ enc = [] ∧ w = base ++ [byteOf '?'])
          ∨ (enc ≠ [] ∧ w = base ++ byteOf '?' :: enc)
          ∨ (fq = false ∧ enc = [] ∧ w = base)) := by
    refine ⟨_, rfl, ?_⟩
    by_cases hen : enc = []
    · cases fq <;> simp [hen]
    · simp [hen]
  have hwsharp : byteOf '#' ∉ w := by
    rw [hw]
    simp only [List.mem_append, not_or]
    refine ⟨hb2, ?_⟩
    split
    · simp only [List.mem_cons, not_or]; exact ⟨Ne.symm hqs, he2⟩
    · simp
  have hwctl : containsCTLByte w = false := by
    rw [containsCTLByte_false_iff] at hb3 he3 ⊢
    intro b hb
    rw [hw] at hb
    simp only [List.mem_append] at hb
    rcases hb with hb | hb
    · exact hb3 b hb
    · split at hb
      · simp only [List.mem_cons] at hb
        rcases hb with hb | hb
        · subst hb; exact hq3
        · exact he3 b hb
      · simp at hb
  have hcut : cut (byteOf '#') (URL.String
      { Base := base, RawQuery := enc, ForceQuery := fq, Fragment := frag }) = (w, frag) := by
    simp only [URL.String, ← hw]
    by_cases hf : frag = []
    · simp [hf, cut_of_not_mem _ _ hwsharp]
    · simp only [hf, ne_eq, not_false_eq_true, if_true]
      exact cut_append _ _ _ hwsharp
  unfold Parse
  simp only [hcut, hwctl]
  rcases hwcases with ⟨-, hen, hww⟩ | ⟨hen, hww⟩ | ⟨-, hen, hww⟩
  · have hl : w.getLast? = some (byteOf '?') := by simp [hww]
    have hc : w.count (byteOf '?') = 1 := by
      simp [hww, List.count_append, List.count_eq_zero_of_not_mem hb1]
    refine ⟨_, by simp only [hl, hc, and_self, if_true, Bool.false_eq_true, if_false]; rfl, ?_, ?_, rfl⟩
    · simp [hen]
    · simp [hww]
  · have hl : ¬ (w.getLast? = some (byteOf '?') ∧ w.count (byteOf '?') = 1) := by
      intro h
      have h1 := h.1
      rw [hww, show base ++ byteOf '?' :: enc = (base ++ [byteOf '?']) ++ enc by simp,
        List.getLast?_append_of_ne_nil _ hen] at h1
      exact he1 (getLast?_mem _ _ h1)
    refine ⟨_, by simp only [hl, if_false, Bool.false_eq_true]; rfl, ?_, ?_, rfl⟩
    · simp [hww, cut_append _ _ _ hb1]
    · simp [hww, cut_append _ _ _ hb1]
  · have hl : ¬ (w.getLast? = some (byteOf '?') ∧ w.count (byteOf '?') = 1) := by
      intro h
      rw [hww] at h
      exact hb1 (getLast?_mem _ _ h.1)
    refine ⟨_, by simp only [hl, if_false, Bool.false_eq_true]; rfl, ?_, ?_, rfl⟩
    · simp [hww, cut_of_not_mem _ _ hb1, hen]
    · simp [hww, cut_of_not_mem _ _ hb1]

/-! ## The query `get` builds -/

theorem joinBy_mem (sep : Byte) (l : List GoString) (b : Byte) (h : b ∈ joinBy sep l) :
    b = sep ∨ ∃ s ∈ l, b ∈ s := by
  induction l with
  | nil => simp [joinBy] at h
  | cons x rest ih =>
    cases rest with
    | nil => exact Or.inr ⟨x, List.mem_cons_self _ _, by simpa [joinBy] using h⟩
    | cons y rest =>
      simp only [joinBy, List.mem_append, List.mem_cons] at h
      rcases h with h | h | h
      · exact Or.inr ⟨x, List.mem_cons_self _ _, h⟩
      · exact Or.inl h
      · rcases ih h with h | ⟨s, hs, hb⟩
        · exact Or.inl h
        · exact Or.inr ⟨s, List.mem_cons_of_mem _ hs, hb⟩

theorem joinBy_infix (sep : Byte) (l : List GoString) (s : GoString) (h : s ∈ l) :
    s <:+: joinBy sep l := by
  induction l with
  | nil => simp at h
  | cons x rest ih =>
    cases rest with
    | nil =>
      simp only [List.mem_singleton] at h
      subst h
      simp [joinBy]
    | cons y rest =>
      simp only [joinBy]
      rcases List.mem_cons.mp h with h | h
      · subst h
        exact (List.prefix_append _ _).isInfix
      · exact (ih h).trans ((List.suffix_cons _ _).isInfix.trans (List.suffix_append _ _).isInfix)

theorem Encode_props (q : Values) :
    byteOf '?' ∉ q.Encode ∧ byteOf '#' ∉ q.Encode ∧ containsCTLByte q.Encode = false := by
  have hall : ∀ b ∈ q.Encode, b = byteOf '&' ∨ ∃ kv : GoString × GoString, b ∈ encodePair kv := by
    intro b hb
    rw [Encode_eq] at hb
    rcases joinBy_mem _ _ _ hb with h | ⟨s, hs, hbs⟩
    · exact Or.inl h
    · obtain ⟨kv, -, rfl⟩ := List.mem_map.mp hs
      exact Or.inr ⟨kv, hbs⟩
  refine ⟨?_, ?_, ?_⟩
  · intro h
    rcases hall _ h with h1 | ⟨kv, h1⟩
    · exact absurd h1 (by decide)
    · exact (encodePair_props kv).2.2.2.2.1 h1
  · intro h
    rcases hall _ h with h1 | ⟨kv, h1⟩
    · exact absurd h1 (by decide)
    · exact (encodePair_props kv).2.2.2.1 h1
  · rw [containsCTLByte_false_iff]
    intro b hb
    rcases hall _ hb with h1 | ⟨kv, h1⟩
    · subst h1; decide
    · exact (containsCTLByte_false_iff _).mp (encodePair_props kv).2.2.2.2.2 b h1

theorem mem_encodePairs (q : Values) (k x : GoString) :
    (k, x) ∈ encodePairs q ↔ k ∈ q.map Prod.fst ∧ x ∈ q.Lookup k := by
  unfold encodePairs
  constructor
  · intro h
    obtain ⟨a, ha, hx⟩ := List.mem_flatMap.mp h
    obtain ⟨b, hb, heq⟩ := List.mem_map.mp hx
    obtain ⟨rfl, rfl⟩ := Prod.mk.inj heq
    exact ⟨(sortStrings_perm _).mem_iff.mp ha, hb⟩
  · rintro ⟨hk, hx⟩
    exact List.mem_flatMap.mpr
      ⟨k, (sortStrings_perm _).mem_iff.mpr hk, List.mem_map.mpr ⟨x, hx, rfl⟩⟩

theorem Set_keys (m : Values) (k v : GoString) (hm : (m.map Prod.fst).Nodup) :
    ((m.Set k v).map Prod.fst).Nodup := by
  induction m with
  | nil => simp [Values.Set]
  | cons e rest ih =>
    obtain ⟨k', vs⟩ := e
    simp only [List.map_cons, List.nodup_cons] at hm
    by_cases hk : k' = k
    · subst hk
      simpa [Values.Set] using hm
    · simp only [Values.Set, hk, if_false, List.map_cons, List.nodup_cons]
      refine ⟨?_, ih hm.2⟩
      intro hmem
      have := (Has_iff_mem _ _).mpr hmem
      rw [Set_Has_other _ _ _ _ (Ne.symm hk)] at this
      exact hm.1 ((Has_iff_mem _ _).mp this)

theorem setParams_keys (params : Params) (q : Values) (hq : (q.map Prod.fst).Nodup) :
    ((setParams q params).map Prod.fst).Nodup := by
  unfold setParams
  induction params generalizing q with
  | nil => simpa using hq
  | cons p rest ih =>
    simp only [List.foldl_cons]
    apply ih
    split
    · exact Set_keys _ _ _ hq
    · exact hq

/-- An entry with an empty value leaves the query as it was. -/
theorem setParams_Lookup_of_empty (params : Params) (q : Values) (k : GoString)
    (h : ∀ v, (k, v) ∈ params → v = []) : (setParams q params).Lookup k = q.Lookup k := by
  unfold setParams
  induction params generalizing q with
  | nil => rfl
  | cons p rest ih =>
    obtain ⟨k', v'⟩ := p
    simp only [List.foldl_cons]
    rw [ih _ (fun v hv => h v (List.mem_cons_of_mem _ hv))]
    by_cases hv : v' = []
    · simp [hv]
    · have hk : k' ≠ k := by
        rintro rfl
        exact hv (h v' (List.mem_cons_self _ _))
      simp [hv, Set_Lookup_other _ _ _ _ hk]

theorem Params_unique (params : Params) (hn : (params.map Prod.fst).Nodup) (k a b : GoString)
    (ha : (k, a) ∈ params) (hb : (k, b) ∈ params) : a = b := by
  induction params with
  | nil => simp at ha
  | cons p rest ih =>
    simp only [List.map_cons, List.nodup_cons] at hn
    rcases List.mem_cons.mp ha with ha | ha <;> rcases List.mem_cons.mp hb with hb | hb
    · rw [← ha] at hb; exact (Prod.mk.inj hb).2.symm
    · exact absurd (List.mem_map.mpr ⟨(k, b), hb, by rw [← ha]⟩) hn.1
    · exact absurd (List.mem_map.mpr ⟨(k, a), ha, by rw [← hb]⟩) hn.1
    · exact ih hn.2 ha hb

/-- An entry with a non-empty value is in the query under its key, alone. -/
theorem setParams_Lookup_of_mem (params : Params) (q : Values) (k v : GoString)
    (hn : (params.map Prod.fst).Nodup) (hm : (k, v) ∈ params) (hv : v ≠ []) :
    (setParams q params).Lookup k = [v] := by
  induction params generalizing q with
  | nil => simp at hm
  | cons p rest ih =>
    obtain ⟨k', v'⟩ := p
    have hn' := hn
    simp only [List.map_cons, List.nodup_cons] at hn'
    rcases List.mem_cons.mp hm with h | h
    · obtain ⟨rfl, rfl⟩ := Prod.mk.inj h
      have hrest : ∀ x, (k, x) ∈ rest → x = [] := by
        intro x hx
        exact absurd (List.mem_map.mpr ⟨(k, x), hx, rfl⟩) hn'.1
      have := setParams_Lookup_of_empty rest (q.Set k v) k hrest
      simp only [setParams, List.foldl_cons, hv, ne_eq, not_false_eq_true, if_true] at this ⊢
      rw [this, Set_Lookup_self]
    · have := ih (if v' ≠ [] then q.Set k' v' else q) hn'.2 h
      simpa [setParams] using this

/-- What `get` hands to `NewRequest` parses, and the query of the request is
the encoded parameter set. -/
theorem getRequest_of_Parse (c : Client) (path : GoString) (params : Params) (u : URL)
    (hp : Parse (c.baseURL ++ path) = .ok u) :
    ∃ req, c.getRequest path params = .ok req
      ∧ req.URL.RawQuery = (setParams u.Query params).Encode
      ∧ req.Method = lit "GET" := by
  obtain ⟨hb1, hb2, hb3⟩ := Parse_Base _ _ hp
  obtain ⟨he1, he2, he3⟩ := Encode_props (setParams u.Query params)
  obtain ⟨u2, hu2, hr, -, -⟩ := Parse_String u.Base (setParams u.Query params).Encode u.Fragment
    u.ForceQuery hb1 hb2 hb3 he1 he2 he3
  refine ⟨(({ Method := lit "GET", URL := u2, Header := [], Body := Body.none } :
      Request).SetHeader (lit "Authorization") (lit "Bearer " ++ c.accessToken)).SetHeader
      (lit "Accept") (lit "application/json"), ?_, ?_, ?_⟩
  · simp only [Client.getRequest, hp, NewRequest, hu2]
  · simpa [Request.SetHeader] using hr
  · simp [Request.SetHeader]

theorem getRequest_inv (c : Client) (path : GoString) (params : Params) (req : Request)
    (h : c.getRequest path params = .ok req) :
    ∃ u, Parse (c.baseURL ++ path) = .ok u
      ∧ req.URL.RawQuery = (setParams u.Query params).Encode := by
  cases hp : Parse (c.baseURL ++ path) with
  | error e => simp [Client.getRequest, hp] at h
  | ok u =>
    obtain ⟨req2, h2, hr, -⟩ := getRequest_of_Parse c path params u hp
    rw [h] at h2
    injection h2 with h2
    subst h2
    exact ⟨u, rfl, hr⟩

/-- The decoded query of the request is, key by key, the parameter set that was
encoded. -/
theorem getRequest_Query (c : Client) (path : GoString) (params : Params) (req : Request)
    (h : c.getRequest path params = .ok req) :
    ∃ u, Parse (c.baseURL ++ path) = .ok u
      ∧ ∀ k, req.URL.Query.Lookup k = (setParams u.Query params).Lookup k := by
  obtain ⟨u, hp, hr⟩ := getRequest_inv c path params req h
  refine ⟨u, hp, fun k => ?_⟩
  rw [URL.Query, hr]
  exact ParseQuery_Encode_Lookup _ (setParams_keys _ _ (ParseQuery_keys_nodup _)) k

/-! ## The claims on the query of `get` -/

theorem cut_encodePair (kv : GoString × GoString) :
    cut (byteOf '=') (encodePair kv) = (QueryEscape kv.1, QueryEscape kv.2) := by
  apply cut_append
  intro h
  exact (escapedByte_props _ (QueryEscape_all _ _ h)).2.1 rfl

theorem Query_nil_of_no_query (raw : GoString) (u : URL) (h : Parse raw = .ok u)
    (hq : byteOf '?' ∉ raw) (k : GoString) : u.Query.Lookup k = [] := by
  rw [URL.Query, Parse_RawQuery_nil raw u h hq]
  rfl

/-- C1: for every path and base URL without a query string of their own and
every parameter map (its entries in any iteration order, the keys distinct), a
key whose value in the map is the empty string is not a query parameter of the
request `get` builds: the decoded query has no such key (`Has` is false, `Get`
gives the empty string), and no `key=value` segment of the raw query carries
that key. -/
theorem get_drops_empty_params (c : Client) (path : GoString) (params : Params)
    (req : Request) (k : GoString)
    (hq : byteOf '?' ∉ c.baseURL ++ path)
    (hn : (params.map Prod.fst).Nodup)
    (hk : (k, []) ∈ params)
    (h : c.getRequest path params = .ok req) :
    req.URL.Query.Has k = false
      ∧ req.URL.Query.Get k = []
      ∧ ∀ seg ∈ splitBy (byteOf '&') req.URL.RawQuery, seg ≠ [] →
          (cut (byteOf '=') seg).1 ≠ QueryEscape k := by
  have hempty : ∀ v, (k, v) ∈ params → v = [] :=
    fun v hv => Params_unique params hn k v [] hv hk
  obtain ⟨u, hp, hl⟩ := getRequest_Query c path params req h
  have hq1 : (setParams u.Query params).Lookup k = [] := by
    rw [setParams_Lookup_of_empty params _ k hempty]
    exact Query_nil_of_no_query _ u hp hq k
  have hlk : req.URL.Query.Lookup k = [] := by rw [hl k, hq1]
  refine ⟨?_, ?_, ?_⟩
  · rw [Bool.eq_false_iff]
    intro hh
    exact (Has_iff_Lookup _ (ParseQuery_nonempty _) k).mp hh hlk
  · simp [Values.Get, hlk]
  · intro seg hseg hne
    obtain ⟨u2, hp2, hr⟩ := getRequest_inv c path params req h
    rw [hp] at hp2
    injection hp2 with hp2
    subst hp2
    rw [hr, Encode_eq] at hseg
    by_cases hps : encodePairs (setParams u.Query params) = []
    · rw [hps] at hseg
      simp [joinBy, splitBy] at hseg
      exact absurd hseg hne
    · rw [splitBy_joinBy _ _ (by simpa using hps)] at hseg
      · obtain ⟨kv, hkv, rfl⟩ := List.mem_map.mp hseg
        rw [cut_encodePair]
        intro he
        have hk2 : kv.1 = k := QueryEscape_injective _ _ he
        have hmem := (mem_encodePairs _ kv.1 kv.2).mp hkv
        rw [hk2, hq1] at hmem
        simp at hmem
      · intro s hs
        obtain ⟨kv, -, rfl⟩ := List.mem_map.mp hs
        exact (encodePair_props kv).1

theorem get_drops_empty_params_witness :
    testClient.getRequest (lit "/test") [(lit "empty", []), (lit "filled", lit "yes")]
        = .ok (testGet (lit "/test") (lit "filled=yes"))
      ∧ (testGet (lit "/test") (lit "filled=yes")).URL.Query.Has (lit "empty") = false :=
  ⟨rfl, (get_drops_empty_params testClient (lit "/test")
    [(lit "empty", []), (lit "filled", lit "yes")] _ (lit "empty")
    (by decide) (by decide) (by decide) rfl).1⟩

/-- C8, amended: for every parameter map (its entries in any iteration order,
the keys distinct) and a URL without a query string of its own, decoding the query
string of the URL `get` builds, as the receiving server does with
`ParseQuery`, yields exactly the entries with non-empty values: each such key
is present with its original value alone, whatever bytes key and value hold,
and every key that is present is such a key. -/
theorem get_query_decodes_to_params (c : Client) (path : GoString) (params : Params)
    (req : Request)
    (hq : byteOf '?' ∉ c.baseURL ++ path)
    (hn : (params.map Prod.fst).Nodup)
    (h : c.getRequest path params = .ok req) :
    (∀ k v, (k, v) ∈ params → v ≠ [] →
        (ParseQuery req.URL.RawQuery).Has k = true
          ∧ (ParseQuery req.URL.RawQuery).Lookup k = [v]
          ∧ (ParseQuery req.URL.RawQuery).Get k = v)
      ∧ (∀ k, (ParseQuery req.URL.RawQuery).Has k = true → ∃ v, (k, v) ∈ params ∧ v ≠ []) := by
  obtain ⟨u, hp, hl⟩ := getRequest_Query c path params req h
  simp only [URL.Query] at hl
  refine ⟨fun k v hkv hv => ?_, fun k hk => ?_⟩
  · have hlk : (ParseQuery req.URL.RawQuery).Lookup k = [v] := by
      rw [hl k, setParams_Lookup_of_mem params _ k v hn hkv hv]
    refine ⟨?_, hlk, ?_⟩
    · rw [Has_iff_Lookup _ (ParseQuery_nonempty _), hlk]
      simp
    · simp [Values.Get, hlk]
  · by_contra hcon
    have hempty : ∀ v, (k, v) ∈ params → v = [] := by
      intro v hv
      by_contra hne
      exact hcon ⟨v, hv, hne⟩
    have hlk : (ParseQuery req.URL.RawQuery).Lookup k = [] := by
      rw [hl k, setParams_Lookup_of_empty params _ k hempty]
      exact Query_nil_of_no_query _ u hp hq k
    exact (Has_iff_Lookup _ (ParseQuery_nonempty _) k).mp hk hlk

theorem get_query_decodes_to_params_witness :
    testClient.getRequest (lit "/test") [(lit "a&b", lit "x y=z"), (lit "page", lit "2")]
        = .ok (testGet (lit "/test") (lit "a%26b=x+y%3Dz&page=2"))
      ∧ (ParseQuery (lit "a%26b=x+y%3Dz&page=2")).Get (lit "a&b") = lit "x y=z" :=
  ⟨rfl, ((get_query_decodes_to_params testClient (lit "/test")
    [(lit "a&b", lit "x y=z"), (lit "page", lit "2")] _
    (by decide) (by decide) rfl).1 (lit "a&b") (lit "x y=z") (by decide) (by decide)).2.2⟩

/-- C9 as stated fails: listing the contacts of account 1 with the search text
`John Smith` sends the raw query `search=John+Smith`, in which the text
`search=John Smith` does not occur. -/
theorem get_query_not_verbatim :
    testClient.request testEnv
          ((AccountOp.GetContacts [(lit "search", lit "John Smith")]).call testClient)
        = .ok (testGet (lit "/api/v3/1/contacts") (lit "search=John+Smith"))
      ∧ ¬ (lit "search" ++ byteOf '=' :: lit "John Smith")
          <:+: (testGet (lit "/api/v3/1/contacts") (lit "search=John+Smith")).URL.RawQuery := by
  refine ⟨rfl, by decide⟩

/-- C9, amended: for every parameter map, each entry with a non-empty value
appears in the raw query of the URL `get` builds as the query-escaped key, `=`
and the query-escaped value; it appears verbatim when key and value hold
unreserved bytes only (letters, digits, `-`, `_`, `.`, `~`). -/
theorem get_query_contains_escaped (c : Client) (path : GoString) (params : Params)
    (req : Request) (k v : GoString)
    (hn : (params.map Prod.fst).Nodup)
    (hkv : (k, v) ∈ params) (hv : v ≠ [])
    (h : c.getRequest path params = .ok req) :
    (QueryEscape k ++ byteOf '=' :: QueryEscape v) <:+: req.URL.RawQuery
      ∧ ((∀ b ∈ k, shouldEscape b = false) → (∀ b ∈ v, shouldEscape b = false) →
          (k ++ byteOf '=' :: v) <:+: req.URL.RawQuery) := by
  obtain ⟨u, hp, hr⟩ := getRequest_inv c path params req h
  have hlk := setParams_Lookup_of_mem params u.Query k v hn hkv hv
  have hkeys : k ∈ (setParams u.Query params).map Prod.fst := by
    by_contra hc
    rw [Lookup_of_not_mem _ _ hc] at hlk
    simp at hlk
  have hmem : (k, v) ∈ encodePairs (setParams u.Query params) :=
    (mem_encodePairs _ k v).mpr ⟨hkeys, by simp [hlk]⟩
  have hinf : encodePair (k, v) <:+: req.URL.RawQuery := by
    rw [hr, Encode_eq]
    exact joinBy_infix _ _ _ (List.mem_map.mpr ⟨(k, v), hmem, rfl⟩)
  refine ⟨hinf, fun h1 h2 => ?_⟩
  have := hinf
  simp only [encodePair, QueryEscape_of_unreserved k h1, QueryEscape_of_unreserved v h2] at this
  exact this

set_option maxRecDepth 10000 in
theorem get_query_contains_escaped_witness :
    testClient.getRequest (lit "/test") [(lit "q", lit "a b"), (lit "limit", lit "25")]
        = .ok (testGet (lit "/test") (lit "limit=25&q=a+b"))
      ∧ (lit "q=a+b") <:+: (testGet (lit "/test") (lit "limit=25&q=a+b")).URL.RawQuery
      ∧ (lit "limit=25") <:+: (testGet (lit "/test") (lit "limit=25&q=a+b")).URL.RawQuery :=
  ⟨rfl,
    (get_query_contains_escaped testClient (lit "/test")
      [(lit "q", lit "a b"), (lit "limit", lit "25")] _ (lit "q") (lit "a b")
      (by decide) (by decide) (by decide) rfl).1,
    (get_query_contains_escaped testClient (lit "/test")
      [(lit "q", lit "a b"), (lit "limit", lit "25")] _ (lit "limit") (lit "25")
      (by decide) (by decide) (by decide) rfl).2 (by decide) (by decide)⟩

/-! ## File upload and the ledger summaries -/

theorem filepathBase_of_name (dir name : GoString) (h1 : name ≠ [])
    (h2 : byteOf '/' ∉ name) : filepathBase (dir ++ byteOf '/' :: name) = name := by
  have hlast : name.reverse ≠ [] := by simpa using h1
  obtain ⟨x, xs, hx⟩ := List.exists_cons_of_ne_nil hlast
  have hxne : x ≠ byteOf '/' := by
    intro e
    apply h2
    have : x ∈ name.reverse := by rw [hx]; exact List.mem_cons_self _ _
    rw [← e]
    exact List.mem_reverse.mp this
  have hrev : (dir ++ byteOf '/' :: name).reverse = name.reverse ++ byteOf '/' :: dir.reverse := by
    simp
  have hstrip : ((dir ++ byteOf '/' :: name).reverse.dropWhile (fun b => b = byteOf '/'))
      = name.reverse ++ byteOf '/' :: dir.reverse := by
    rw [hrev, hx]
    simp [List.dropWhile, hxne]
  have htake : (name.reverse ++ byteOf '/' :: dir.reverse).takeWhile (fun b => b ≠ byteOf '/')
      = name.reverse := by
    have hall : ∀ b ∈ name.reverse, decide (b ≠ byteOf '/') = true := by
      intro b hb
      simp only [ne_eq, decide_not, Bool.not_eq_true', decide_eq_false_iff_not]
      exact fun e => h2 (e ▸ List.mem_reverse.mp hb)
    rw [List.takeWhile_append_of_pos hall]
    simp [List.takeWhile]
  unfold filepathBase
  have hne : dir ++ byteOf '/' :: name ≠ [] := by simp
  simp only [hne, if_false, hstrip, List.reverse_reverse, htake, h1]

/-- C11: for every readable local file, every field map and a URL that parses,
`uploadFile` builds a POST whose multipart body is written with the boundary
named in `Content-Type` and consists of one form field per entry of the field
map, with that key and value, followed by the file part: there is exactly one
file part, its form-field name is `file`, its filename is the base name of the
local path and its content is the bytes read from the file. -/
theorem uploadFile_body (c : Client) (env : Env) (path filePath : GoString) (fields : Params)
    (data : GoString) (u : URL)
    (hr : env.readFile filePath = .content data)
    (hp : Parse (c.baseURL ++ path) = .ok u) :
    ∃ req parts, c.uploadFileRequest env path filePath fields = .ok req
      ∧ req.Method = lit "POST"
      ∧ req.Body = Body.multipart env.boundary parts
      ∧ req.Header.Lookup (lit "Content-Type")
          = [lit "multipart/form-data; boundary=" ++ env.boundary]
      ∧ parts = fields.map (fun kv => Part.field kv.1 kv.2)
          ++ [Part.file (lit "file") (filepathBase filePath) data]
      ∧ (∀ k v, Part.field k v ∈ parts ↔ (k, v) ∈ fields)
      ∧ (∀ fieldname filename content, Part.file fieldname filename content ∈ parts ↔
          (fieldname = lit "file" ∧ filename = filepathBase filePath ∧ content = data))
      ∧ parts.length = fields.length + 1 := by
  have hac : lit "Accept" ≠ lit "Content-Type" := by decide
  refine ⟨(((Request.mk (lit "POST") u []
      (Body.multipart env.boundary (fields.map (fun kv => Part.field kv.1 kv.2)
        ++ [Part.file (lit "file") (filepathBase filePath) data]))).SetHeader
      (lit "Authorization") (lit "Bearer " ++ c.accessToken)).SetHeader
      (lit "Content-Type") (lit "multipart/form-data; boundary=" ++ env.boundary)).SetHeader
      (lit "Accept") (lit "application/json"), _, ?_, ?_, ?_, ?_, rfl, ?_, ?_, ?_⟩
  · simp only [Client.uploadFileRequest, hr, NewRequest, hp]
  · simp [Request.SetHeader]
  · simp [Request.SetHeader]
  · simp [Request.SetHeader, Set_Lookup_other _ _ _ _ hac, Set_Lookup_self]
  · intro k v
    simp
  · intro a b d
    simp
  · simp

theorem uploadFile_body_witness :
    testClient.uploadFileRequest testEnv (lit "/api/v3/1/files") (lit "/tmp/receipt.jpg")
        [(lit "ledger_id", lit "42")]
      = .ok { Method := lit "POST",
              URL := { Base := lit "http://127.0.0.1:8080/api/v3/1/files", RawQuery := [],
                       ForceQuery := false, Fragment := [] },
              Header := [(lit "Authorization", [lit "Bearer test-token"]),
                         (lit "Content-Type", [lit "multipart/form-data; boundary=b0undary"]),
                         (lit "Accept", [lit "application/json"])],
              Body := Body.multipart (lit "b0undary")
                [Part.field (lit "ledger_id") (lit "42"),
                 Part.file (lit "file") (lit "receipt.jpg") (lit "data")] }
      ∧ ∃ req parts, testClient.uploadFileRequest testEnv (lit "/api/v3/1/files")
            (lit "/tmp/receipt.jpg") [(lit "ledger_id", lit "42")] = .ok req
          ∧ req.Body = Body.multipart (lit "b0undary") parts ∧ parts.length = 2 := by
  refine ⟨rfl, ?_⟩
  obtain ⟨req, parts, h1, -, h3, -, -, -, -, h8⟩ :=
    uploadFile_body testClient testEnv (lit "/api/v3/1/files") (lit "/tmp/receipt.jpg")
      [(lit "ledger_id", lit "42")] (lit "data") _ rfl rfl
  exact ⟨req, parts, h1, h3, h8⟩

/-- C12: when the local file cannot be opened, `uploadFile` returns the error
`unable to open file: ` followed by the cause and no result; it returns before
a request is built, so nothing is handed to the HTTP stack, whatever that
stack would answer. -/
theorem uploadFile_open_error (c : Client) (env : Env) (path filePath : GoString)
    (fields : Params) (err : GoString) (h : env.readFile filePath = .openError err) :
    c.uploadFile env path filePath fields = .error (lit "unable to open file: " ++ err)
      ∧ requestsIssued (c.uploadFileRequest env path filePath fields) = []
      ∧ ∀ send, c.uploadFile { env with send := send } path filePath fields
          = .error (lit "unable to open file: " ++ err) := by
  refine ⟨?_, ?_, fun send => ?_⟩
  · simp [Client.uploadFile, Client.uploadFileRequest, h, Client.finish]
  · simp [Client.uploadFileRequest, h, requestsIssued]
  · simp [Client.uploadFile, Client.uploadFileRequest, h, Client.finish]

theorem uploadFile_open_error_witness :
    testClient.uploadFile testEnv (lit "/api/v3/1/files") (lit "/tmp/missing.pdf") []
      = .error (lit "unable to open file: no such file or directory") :=
  (uploadFile_open_error testClient testEnv (lit "/api/v3/1/files") (lit "/tmp/missing.pdf") []
    (lit "no such file or directory") rfl).1

/-! ## The operations: requests, errors and bodies -/

theorem Has_of_Lookup_ne_nil (m : Values) (k : GoString) (h : m.Lookup k ≠ []) :
    m.Has k = true := by
  by_contra hc
  exact h (Lookup_of_not_mem m k (fun hm => hc ((Has_iff_mem m k).mpr hm)))

/-- Every request built by `get`, `post`, `put`, `delete` or `uploadFile` has
the bearer token under `Authorization`. -/
theorem request_Authorization (c : Client) (env : Env) (call : Call) (req : Request)
    (h : c.request env call = .ok req) :
    req.Header.Lookup (lit "Authorization") = [lit "Bearer " ++ c.accessToken] := by
  have hct : lit "Content-Type" ≠ lit "Authorization" := by decide
  have hac : lit "Accept" ≠ lit "Authorization" := by decide
  cases call with
  | get path params =>
    simp only [Client.request, Client.getRequest] at h
    split at h
    · simp at h
    · split at h
      · simp at h
      · injection h with h
        subst h
        simp [Request.SetHeader, Set_Lookup_other _ _ _ _ hac, Set_Lookup_self]
  | post path body =>
    simp only [Client.request, Client.postRequest] at h
    split at h
    · simp at h
    · split at h
      · simp at h
      · injection h with h
        subst h
        simp [Request.SetHeader, Set_Lookup_other _ _ _ _ hac, Set_Lookup_other _ _ _ _ hct,
          Set_Lookup_self]
  | put path body =>
    simp only [Client.request, Client.putRequest] at h
    split at h
    · simp at h
    · split at h
      · simp at h
      · injection h with h
        subst h
        simp [Request.SetHeader, Set_Lookup_other _ _ _ _ hac, Set_Lookup_other _ _ _ _ hct,
          Set_Lookup_self]
  | delete path =>
    simp only [Client.request, Client.deleteRequest] at h
    split at h
    · simp at h
    · injection h with h
      subst h
      simp [Request.SetHeader, Set_Lookup_other _ _ _ _ hac, Set_Lookup_self]
  | uploadFile path filePath fields =>
    simp only [Client.request, Client.uploadFileRequest] at h
    split at h
    · simp at h
    · simp at h
    · split at h
      · simp at h
      · injection h with h
        subst h
        simp [Request.SetHeader, Set_Lookup_other _ _ _ _ hac, Set_Lookup_other _ _ _ _ hct,
          Set_Lookup_self]

theorem postNoAuthRequest_inv (c : Client) (path : GoString) (body : Marshalled)
    (req : Request) (h : c.postNoAuthRequest path body = .ok req) :
    ∃ jsonBody u, body = .ok jsonBody ∧ Parse (c.baseURL ++ path) = .ok u
      ∧ req = { Method := lit "POST", URL := u,
                Header := [(lit "Content-Type", [lit "application/json"]),
                           (lit "Accept", [lit "application/json"])],
                Body := Body.bytes jsonBody } := by
  have h3 : lit "Content-Type" ≠ lit "Accept" := by decide
  cases body with
  | error e => simp [Client.postNoAuthRequest] at h
  | ok jsonBody =>
    cases hp : Parse (c.baseURL ++ path) with
    | error e => simp [Client.postNoAuthRequest, NewRequest, hp] at h
    | ok u =>
      simp only [Client.postNoAuthRequest, NewRequest, hp] at h
      injection h with h
      subst h
      exact ⟨jsonBody, u, rfl, rfl, by simp [Request.SetHeader, Values.Set, h3]⟩

theorem appendString_of_safe (s : GoString) (h : ∀ b ∈ s, htmlSafe b = true) (n : Nat)
    (hn : s.length ≤ n) : appendString n s = s := by
  induction s generalizing n with
  | nil => cases n <;> rfl
  | cons b t ih =>
    cases n with
    | zero => simp at hn
    | succ n =>
      have hb := h b (List.mem_cons_self _ _)
      have hlt : b.val < 0x80 := by
        simp only [htmlSafe, Bool.and_eq_true, decide_eq_true_eq] at hb
        exact hb.1.1.1.1.1.2
      simp only [appendString, hlt, if_true, hb]
      rw [ih (fun x hx => h x (List.mem_cons_of_mem _ hx)) n (by simpa using hn)]
      rfl

/-- What `get` builds for a URL that parses: a GET with the encoded parameter
set as its query and the scheme, authority and path of the URL. -/
theorem getRequest_Base (c : Client) (path : GoString) (params : Params) (u : URL)
    (hp : Parse (c.baseURL ++ path) = .ok u) :
    ∃ req, c.getRequest path params = .ok req
      ∧ req.URL.RawQuery = (setParams u.Query params).Encode
      ∧ req.URL.Base = u.Base
      ∧ req.Method = lit "GET" := by
  obtain ⟨hb1, hb2, hb3⟩ := Parse_Base _ _ hp
  obtain ⟨he1, he2, he3⟩ := Encode_props (setParams u.Query params)
  obtain ⟨u2, hu2, hr, hbase, -⟩ := Parse_String u.Base (setParams u.Query params).Encode
    u.Fragment u.ForceQuery hb1 hb2 hb3 he1 he2 he3
  refine ⟨((Request.mk (lit "GET") u2 [] Body.none).SetHeader (lit "Authorization")
      (lit "Bearer " ++ c.accessToken)).SetHeader (lit "Accept") (lit "application/json"),
    ?_, ?_, ?_, ?_⟩
  · simp only [Client.getRequest, hp, NewRequest, hu2]
  · simpa [Request.SetHeader] using hr
  · simpa [Request.SetHeader] using hbase
  · simp [Request.SetHeader]

/-- C14 as stated fails: a client with the empty access token (as one built
from a config file without a token) sends `GET /oauth/logout` with no query at
all, so the parameter `access_token` is absent. -/
theorem Logout_empty_token :
    AuthOp.Logout.request (NewClient (lit "http://127.0.0.1:8080") [] 0)
        = .ok { Method := lit "GET",
                URL := { Base := lit "http://127.0.0.1:8080/oauth/logout", RawQuery := [],
                         ForceQuery := false, Fragment := [] },
                Header := [(lit "Authorization", [lit "Bearer "]),
                           (lit "Accept", [lit "application/json"])],
                Body := Body.none }
      ∧ (ParseQuery []).Has (lit "access_token") = false := by
  refine ⟨rfl, by decide⟩

/-- C14, amended: for every client whose access token is not empty, `Logout`
issues a GET to `/oauth/logout` below the base URL in which the access token
is passed as a query parameter: the decoded query of the request URL has the
parameter `access_token`, with the client's access token as its only value.
(With the empty token the parameter is not sent.) -/
theorem Logout_sends_token (c : Client) (req : Request) (ht : c.accessToken ≠ [])
    (h : AuthOp.Logout.request c = .ok req) :
    req.Method = lit "GET"
      ∧ (∃ u, Parse (c.baseURL ++ lit "/oauth/logout") = .ok u ∧ req.URL.Base = u.Base)
      ∧ (ParseQuery req.URL.RawQuery).Has (lit "access_token") = true
      ∧ (ParseQuery req.URL.RawQuery).Lookup (lit "access_token") = [c.accessToken]
      ∧ (ParseQuery req.URL.RawQuery).Get (lit "access_token") = c.accessToken := by
  have h' : c.getRequest (lit "/oauth/logout") [(lit "access_token", c.accessToken)]
      = .ok req := h
  obtain ⟨u, hp, hl⟩ := getRequest_Query c _ _ req h'
  obtain ⟨req2, h2, -, hbase, hm⟩ := getRequest_Base c (lit "/oauth/logout")
    [(lit "access_token", c.accessToken)] u hp
  rw [h'] at h2
  injection h2 with h2
  subst h2
  have hlk : (ParseQuery req.URL.RawQuery).Lookup (lit "access_token") = [c.accessToken] := by
    have := hl (lit "access_token")
    simp only [URL.Query] at this
    rw [this]
    exact setParams_Lookup_of_mem _ _ _ _ (by simp) (by simp) ht
  refine ⟨hm, ⟨u, hp, hbase⟩, ?_, hlk, ?_⟩
  · exact Has_of_Lookup_ne_nil _ _ (by simp [hlk])
  · simp [Values.Get, hlk]

theorem Logout_sends_token_witness :
    AuthOp.Logout.request testClient
        = .ok (testGet (lit "/oauth/logout") (lit "access_token=test-token"))
      ∧ (ParseQuery (lit "access_token=test-token")).Get (lit "access_token")
        = lit "test-token" :=
  ⟨rfl, (Logout_sends_token testClient _ (by decide) rfl).2.2.2.2⟩

/-- C16: for every operation of the client and every response with a status
code outside [200,300), the error the operation returns is its own context,
`: `, and the error of `doRequest` unchanged, so it still contains the decimal
status code and the raw response body. -/
theorem operation_error_keeps_status (c : Client) (env : Env) (unmarshal : Unmarshal)
    (op : Op) (req : Request) (status : Int) (body : GoString)
    (hreq : op.request c env = .ok req)
    (hs : env.send req = .response status (.ok body))
    (h : status < 200 ∨ 300 ≤ status) :
    op.run c env unmarshal
        = .error (op.context ++ lit ": "
            ++ (lit "API error (status " ++ lit (toString status) ++ lit "): " ++ body))
      ∧ lit (toString status) <:+: (op.context ++ lit ": "
            ++ (lit "API error (status " ++ lit (toString status) ++ lit "): " ++ body))
      ∧ body <:+: (op.context ++ lit ": "
            ++ (lit "API error (status " ++ lit (toString status) ++ lit "): " ++ body)) := by
  have h' : status < 200 ∨ status ≥ 300 := h
  refine ⟨?_, ?_, ?_⟩
  · simp [Op.run, hreq, Client.finish, Client.doRequest, hs, h', FormatInt_eq_repr]
  · exact ⟨op.context ++ lit ": " ++ lit "API error (status ", lit "): " ++ body, by simp⟩
  · exact ⟨op.context ++ lit ": " ++ (lit "API error (status " ++ lit (toString status)
      ++ lit "): "), [], by simp⟩

theorem operation_error_keeps_status_witness :
    (Op.auth (AuthOp.Login (lit "bad@example.com") (lit "wrong") (lit "bad-client-id"))).run
          testClient (answering 401 (lit "\x7b\"error\":\"invalid credentials\"\x7d"))
          (fun _ => none)
        = .error (lit ("login failed: API error (status 401): "
            ++ "\x7b\"error\":\"invalid credentials\"\x7d"))
      ∧ (Op.account (AccountOp.GetLedgers [])).run testClient (answering 500 (lit "boom"))
          (fun _ => none)
        = .error (lit "unable to get ledgers: API error (status 500): boom") :=
  ⟨(operation_error_keeps_status testClient (answering 401 _) _
      (Op.auth (AuthOp.Login (lit "bad@example.com") (lit "wrong") (lit "bad-client-id")))
      { Method := lit "POST",
        URL := { Base := lit "http://127.0.0.1:8080/oauth/token", RawQuery := [],
                 ForceQuery := false, Fragment := [] },
        Header := [(lit "Content-Type", [lit "application/json"]),
                   (lit "Accept", [lit "application/json"])],
        Body := Body.bytes (lit ("\x7b\"username\":\"bad@example.com\",\"password\":\"wrong\","
          ++ "\"grant_type\":\"password\",\"client_id\":\"bad-client-id\"\x7d")) }
      401 _ rfl rfl (by decide)).1,
   (operation_error_keeps_status testClient (answering 500 _) _
      (Op.account (AccountOp.GetLedgers [])) (testGet (lit "/api/v3/1/ledger") [])
      500 _ rfl rfl (by decide)).1⟩

/-- C17: `UpdateCategory(5, &CategoryUpdateRequest{Name: "Food"})` sends the body
`\x7b"name":"Food","type":""\x7d`: the empty `type` is written, not omitted.
The fields of `CategoryUpdateRequest`, `LabelUpdateRequest` and
`MeUpdateRequest` carry no `omitempty` and are always all written, whereas
every empty field of `LedgerUpdateRequest` and `ContactUpdateRequest` is left
out. -/
theorem UpdateCategory_writes_empty_type :
    testClient.request testEnv ((UpdateCategory 5 { Name := lit "Food", «Type» := [] }).call
          testClient)
        = .ok { Method := lit "PUT",
                URL := { Base := lit "http://127.0.0.1:8080/api/v3/1/categories/5",
                         RawQuery := [], ForceQuery := false, Fragment := [] },
                Header := [(lit "Authorization", [lit "Bearer test-token"]),
                           (lit "Content-Type", [lit "application/json"]),
                           (lit "Accept", [lit "application/json"])],
                Body := Body.bytes (lit "\x7b\"name\":\"Food\",\"type\":\"\"\x7d") }
      ∧ (∀ r : CategoryUpdateRequest,
          (writtenFields r.fields).map JSONField.name = [lit "name", lit "type"])
      ∧ (∀ r : LabelUpdateRequest, (writtenFields r.fields).map JSONField.name = [lit "name"])
      ∧ (∀ r : MeUpdateRequest, (writtenFields r.fields).map JSONField.name
          = [lit "first_name", lit "last_name", lit "email"])
      ∧ (∀ (r : LedgerUpdateRequest) (f : JSONField), f ∈ r.fields →
          f.value.isEmpty = true → f ∉ writtenFields r.fields)
      ∧ (∀ (r : ContactUpdateRequest) (f : JSONField), f ∈ r.fields →
          f.value.isEmpty = true → f ∉ writtenFields r.fields) := by
  refine ⟨rfl, fun r => rfl, fun r => rfl, fun r => rfl, ?_, ?_⟩
  · intro r f hf he hw
    simp only [writtenFields, List.mem_filter] at hw
    simp only [LedgerUpdateRequest.fields, List.mem_cons, List.mem_singleton,
      List.not_mem_nil, or_false] at hf
    rcases hf with rfl | rfl | rfl | rfl | rfl | rfl <;> simp [he] at hw
  · intro r f hf he hw
    simp only [writtenFields, List.mem_filter] at hw
    simp only [ContactUpdateRequest.fields, List.mem_cons, List.mem_singleton,
      List.not_mem_nil, or_false] at hf
    rcases hf with rfl | rfl | rfl | rfl | rfl | rfl | rfl | rfl | rfl | rfl | rfl | rfl <;>
      simp [he] at hw

/-! ## UTF-8 -/

/-- The shapes of a text in the eyes of `decodeRune`: its width is at most one
(and one unless the text is empty), or the text starts with a well-formed sequence of two, three or four bytes. -/
theorem decodeRune_cases (s : GoString) :
    ((decodeRune s).2 ≤ 1 ∧ (s ≠ [] → (decodeRune s).2 = 1))
    ∨ (∃ s0 s1 rest, s = s0 :: s1 :: rest ∧ 0xC2 ≤ s0.val ∧ s0.val ≤ 0xDF
        ∧ 0x80 ≤ s1.val ∧ s1.val ≤ 0xBF
        ∧ decodeRune s = (s0.val % 32 * 64 + s1.val % 64, 2))
    ∨ (∃ s0 s1 s2 rest, s = s0 :: s1 :: s2 :: rest ∧ 0xE0 ≤ s0.val ∧ s0.val ≤ 0xEF
        ∧ 0x80 ≤ s1.val ∧ s1.val ≤ 0xBF ∧ (s0.val = 0xE0 → 0xA0 ≤ s1.val)
        ∧ (s0.val = 0xED → s1.val ≤ 0x9F) ∧ 0x80 ≤ s2.val ∧ s2.val ≤ 0xBF
        ∧ decodeRune s = (s0.val % 16 * 4096 + s1.val % 64 * 64 + s2.val % 64, 3))
    ∨ (∃ s0 s1 s2 s3 rest, s = s0 :: s1 :: s2 :: s3 :: rest ∧ 0xF0 ≤ s0.val ∧ s0.val ≤ 0xF4
        ∧ 0x80 ≤ s1.val ∧ s1.val ≤ 0xBF ∧ (s0.val = 0xF0 → 0x90 ≤ s1.val)
        ∧ (s0.val = 0xF4 → s1.val ≤ 0x8F) ∧ 0x80 ≤ s2.val ∧ s2.val ≤ 0xBF
        ∧ 0x80 ≤ s3.val ∧ s3.val ≤ 0xBF
        ∧ decodeRune s = (s0.val % 8 * 262144 + s1.val % 64 * 4096 + s2.val % 64 * 64
            + s3.val % 64, 4)) := by
  cases s with
  | nil => left; simp [decodeRune]
  | cons s0 r =>
    by_cases h0 : s0.val < 0x80
    · left; simp [decodeRune, h0]
    by_cases h1 : s0.val < 0xC2 ∨ 0xF4 < s0.val
    · left; simp [decodeRune, h0, h1]
    cases r with
    | nil => left; simp [decodeRune, h0, h1]
    | cons s1 r1 =>
      by_cases h2 : s1.val < (if s0.val = 0xE0 then 0xA0 else if s0.val = 0xF0 then 0x90 else 0x80)
          ∨ (if s0.val = 0xED then 0x9F else if s0.val = 0xF4 then 0x8F else 0xBF) < s1.val
      · left; simp [decodeRune, h0, h1, h2]
      have hs1 : 0x80 ≤ s1.val ∧ s1.val ≤ 0xBF ∧ (s0.val = 0xE0 → 0xA0 ≤ s1.val)
          ∧ (s0.val = 0xF0 → 0x90 ≤ s1.val) ∧ (s0.val = 0xED → s1.val ≤ 0x9F)
          ∧ (s0.val = 0xF4 → s1.val ≤ 0x8F) := by
        simp only [not_or, not_lt] at h2
        obtain ⟨ha, hb⟩ := h2
        split_ifs at ha hb <;> omega
      by_cases h3 : s0.val < 0xE0
      · right; left
        refine ⟨s0, s1, r1, rfl, by omega, by omega, hs1.1, hs1.2.1, ?_⟩
        simp [decodeRune, h0, h1, h2, h3]
      have hsz2 : ¬ ((if s0.val < 0xF0 then 3 else 4) ≤ 2) := by split_ifs <;> omega
      have hsz3 : ((if s0.val < 0xF0 then 3 else 4) ≤ 3) ↔ s0.val < 0xF0 := by
        split_ifs <;> omega
      cases r1 with
      | nil => left; simp [decodeRune, h0, h1, h2, h3, hsz2]
      | cons s2 r2 =>
        by_cases h4 : s2.val < 0x80 ∨ 0xBF < s2.val
        · left; simp [decodeRune, h0, h1, h2, h3, h4, hsz2]
        by_cases h5 : s0.val < 0xF0
        · right; right; left
          refine ⟨s0, s1, s2, r2, rfl, by omega, by omega, hs1.1, hs1.2.1, hs1.2.2.1,
            hs1.2.2.2.2.1, by omega, by omega, ?_⟩
          simp [decodeRune, h0, h1, h2, h3, h4, h5, hsz2, hsz3]
        cases r2 with
        | nil => left; simp [decodeRune, h0, h1, h2, h3, h4, h5, hsz2, hsz3]
        | cons s3 r3 =>
          by_cases h6 : s3.val < 0x80 ∨ 0xBF < s3.val
          · left; simp [decodeRune, h0, h1, h2, h3, h4, h5, h6, hsz2, hsz3]
          right; right; right
          refine ⟨s0, s1, s2, s3, r3, rfl, by omega, by omega, hs1.1, hs1.2.1, hs1.2.2.2.1,
            hs1.2.2.2.2.2, by omega, by omega, by omega, by omega, ?_⟩
          simp [decodeRune, h0, h1, h2, h3, h4, h5, h6, hsz2, hsz3]

theorem decodeRune_two (s0 s1 : Byte) (rest : GoString) (h0 : 0xC2 ≤ s0.val)
    (h1 : s0.val ≤ 0xDF) (h2 : 0x80 ≤ s1.val) (h3 : s1.val ≤ 0xBF) :
    decodeRune (s0 :: s1 :: rest) = (s0.val % 32 * 64 + s1.val % 64, 2) := by
  have a1 : ¬ s0.val < 0x80 := by omega
  have a2 : ¬ (s0.val < 0xC2 ∨ 0xF4 < s0.val) := by omega
  have a3 : s0.val < 0xE0 := by omega
  have a4 : ¬ s0.val = 0xE0 := by omega
  have a5 : ¬ s0.val = 0xF0 := by omega
  have a6 : ¬ s0.val = 0xED := by omega
  have a7 : ¬ s0.val = 0xF4 := by omega
  have a8 : ¬ (s1.val < 0x80 ∨ 0xBF < s1.val) := by omega
  simp [decodeRune, a1, a2, a3, a4, a5, a6, a7, a8]

theorem decodeRune_three (s0 s1 s2 : Byte) (rest : GoString) (h0 : 0xE0 ≤ s0.val)
    (h1 : s0.val ≤ 0xEF) (h2 : 0x80 ≤ s1.val) (h3 : s1.val ≤ 0xBF)
    (h4 : s0.val = 0xE0 → 0xA0 ≤ s1.val) (h5 : s0.val = 0xED → s1.val ≤ 0x9F)
    (h6 : 0x80 ≤ s2.val) (h7 : s2.val ≤ 0xBF) :
    decodeRune (s0 :: s1 :: s2 :: rest)
      = (s0.val % 16 * 4096 + s1.val % 64 * 64 + s2.val % 64, 3) := by
  have a1 : ¬ s0.val < 0x80 := by omega
  have a2 : ¬ (s0.val < 0xC2 ∨ 0xF4 < s0.val) := by omega
  have a3 : ¬ s0.val < 0xE0 := by omega
  have a4 : s0.val < 0xF0 := by omega
  have a5 : ¬ s0.val = 0xF0 := by omega
  have a7 : ¬ s0.val = 0xF4 := by omega
  have a8 : ¬ (s1.val < (if s0.val = 0xE0 then 0xA0 else 0x80)
      ∨ (if s0.val = 0xED then 0x9F else 0xBF) < s1.val) := by
    split_ifs <;> omega
  have a9 : ¬ (s2.val < 0x80 ∨ 0xBF < s2.val) := by omega
  simp [decodeRune, a1, a2, a3, a4, a5, a7, a8, a9]

theorem decodeRune_four (s0 s1 s2 s3 : Byte) (rest : GoString) (h0 : 0xF0 ≤ s0.val)
    (h1 : s0.val ≤ 0xF4) (h2 : 0x80 ≤ s1.val) (h3 : s1.val ≤ 0xBF)
    (h4 : s0.val = 0xF0 → 0x90 ≤ s1.val) (h5 : s0.val = 0xF4 → s1.val ≤ 0x8F)
    (h6 : 0x80 ≤ s2.val) (h7 : s2.val ≤ 0xBF) (h8 : 0x80 ≤ s3.val) (h9 : s3.val ≤ 0xBF) :
    decodeRune (s0 :: s1 :: s2 :: s3 :: rest)
      = (s0.val % 8 * 262144 + s1.val % 64 * 4096 + s2.val % 64 * 64 + s3.val % 64, 4) := by
  have a1 : ¬ s0.val < 0x80 := by omega
  have a2 : ¬ (s0.val < 0xC2 ∨ 0xF4 < s0.val) := by omega
  have a3 : ¬ s0.val < 0xE0 := by omega
  have a4 : ¬ s0.val < 0xF0 := by omega
  have a5 : ¬ s0.val = 0xE0 := by omega
  have a6 : ¬ s0.val = 0xED := by omega
  have a8 : ¬ (s1.val < (if s0.val = 0xF0 then 0x90 else 0x80)
      ∨ (if s0.val = 0xF4 then 0x8F else 0xBF) < s1.val) := by
    split_ifs <;> omega
  have a9 : ¬ (s2.val < 0x80 ∨ 0xBF < s2.val) := by omega
  have a10 : ¬ (s3.val < 0x80 ∨ 0xBF < s3.val) := by omega
  simp [decodeRune, a1, a2, a3, a4, a5, a6, a8, a9, a10]

theorem byteOfNat_val (b : Byte) (n : Nat) (h : n = b.val) : byteOfNat n = b := by
  apply Fin.ext
  simp only [byteOfNat, h]
  exact Nat.mod_eq_of_lt b.isLt

/-- A well-formed sequence of two to four bytes lies within the text, is
written back by `encodeRune` from its rune, is read the same whatever follows
it, and its rune is no surrogate. -/
theorem decodeRune_wide (s : GoString) (h : 2 ≤ (decodeRune s).2) :
    (decodeRune s).2 ≤ s.length
      ∧ encodeRune (decodeRune s).1 = s.take (decodeRune s).2
      ∧ (∀ t, decodeRune (s.take (decodeRune s).2 ++ t) = decodeRune s)
      ∧ ¬ (0xD800 ≤ (decodeRune s).1 ∧ (decodeRune s).1 < 0xE000)
      ∧ (∃ b rest, s = b :: rest ∧ 0x80 ≤ b.val) := by
  rcases decodeRune_cases s with ⟨h1, -⟩ | ⟨s0, s1, rest, rfl, h0, h1, h2, h3, hd⟩
      | ⟨s0, s1, s2, rest, rfl, h0, h1, h2, h3, h4, h5, h6, h7, hd⟩
      | ⟨s0, s1, s2, s3, rest, rfl, h0, h1, h2, h3, h4, h5, h6, h7, h8, h9, hd⟩
  · omega
  · rw [hd]
    refine ⟨by simp, ?_, fun t => ?_, by simp only; omega, ⟨s0, _, rfl, by omega⟩⟩
    · have e1 : ¬ (s0.val % 32 * 64 + s1.val % 64 ≤ 0x7F) := by omega
      have e2 : s0.val % 32 * 64 + s1.val % 64 ≤ 0x7FF := by omega
      simp only [encodeRune, e1, e2, if_true, if_false, List.take_succ_cons, List.take_zero]
      rw [byteOfNat_val s0 _ (by omega), byteOfNat_val s1 _ (by omega)]
    · simp only [List.take_succ_cons, List.take_zero, List.cons_append, List.nil_append]
      exact decodeRune_two s0 s1 t h0 h1 h2 h3
  · rw [hd]
    refine ⟨by simp, ?_, fun t => ?_, by simp only; omega, ⟨s0, _, rfl, by omega⟩⟩
    · have e1 : ¬ (s0.val % 16 * 4096 + s1.val % 64 * 64 + s2.val % 64 ≤ 0x7F) := by omega
      have e2 : ¬ (s0.val % 16 * 4096 + s1.val % 64 * 64 + s2.val % 64 ≤ 0x7FF) := by omega
      have e3 : ¬ (0x10FFFF < s0.val % 16 * 4096 + s1.val % 64 * 64 + s2.val % 64
          ∨ (0xD800 ≤ s0.val % 16 * 4096 + s1.val % 64 * 64 + s2.val % 64
            ∧ s0.val % 16 * 4096 + s1.val % 64 * 64 + s2.val % 64 ≤ 0xDFFF)) := by omega
      have e4 : s0.val % 16 * 4096 + s1.val % 64 * 64 + s2.val % 64 ≤ 0xFFFF := by omega
      simp only [encodeRune, e1, e2, e3, e4, if_true, if_false, List.take_succ_cons,
        List.take_zero]
      rw [byteOfNat_val s0 _ (by omega), byteOfNat_val s1 _ (by omega),
        byteOfNat_val s2 _ (by omega)]
    · simp only [List.take_succ_cons, List.take_zero, List.cons_append, List.nil_append]
      exact decodeRune_three s0 s1 s2 t h0 h1 h2 h3 h4 h5 h6 h7
  · rw [hd]
    refine ⟨by simp, ?_, fun t => ?_, by simp only; omega, ⟨s0, _, rfl, by omega⟩⟩
    · have e1 : ¬ (s0.val % 8 * 262144 + s1.val % 64 * 4096 + s2.val % 64 * 64
          + s3.val % 64 ≤ 0x7F) := by omega
      have e2 : ¬ (s0.val % 8 * 262144 + s1.val % 64 * 4096 + s2.val % 64 * 64
          + s3.val % 64 ≤ 0x7FF) := by omega
      have e3 : ¬ (0x10FFFF < s0.val % 8 * 262144 + s1.val % 64 * 4096 + s2.val % 64 * 64
            + s3.val % 64
          ∨ (0xD800 ≤ s0.val % 8 * 262144 + s1.val % 64 * 4096 + s2.val % 64 * 64
              + s3.val % 64
            ∧ s0.val % 8 * 262144 + s1.val % 64 * 4096 + s2.val % 64 * 64
              + s3.val % 64 ≤ 0xDFFF)) := by omega
      have e4 : ¬ (s0.val % 8 * 262144 + s1.val % 64 * 4096 + s2.val % 64 * 64
          + s3.val % 64 ≤ 0xFFFF) := by omega
      simp only [encodeRune, e1, e2, e3, e4, if_true, if_false, List.take_succ_cons,
        List.take_zero]
      rw [byteOfNat_val s0 _ (by omega), byteOfNat_val s1 _ (by omega),
        byteOfNat_val s2 _ (by omega), byteOfNat_val s3 _ (by omega)]
    · simp only [List.take_succ_cons, List.take_zero, List.cons_append, List.nil_append]
      exact decodeRune_four s0 s1 s2 s3 t h0 h1 h2 h3 h4 h5 h6 h7 h8 h9

/-! ## JSON strings: reading back what was written -/

theorem hexValue_lowerhex (n : Nat) (h : n < 16) : hexValue (lowerhex n) = some n := by
  interval_cases n <;> decide

theorem unquoteLoop_quote (m : Nat) (rest : GoString) :
    unquoteLoop (m + 1) (byteOf '"' :: rest) = some ([], rest) := by
  simp [unquoteLoop]

theorem unquoteLoop_plain (m : Nat) (b : Byte) (tail : GoString) (h1 : b ≠ byteOf '"')
    (h2 : b ≠ byteOf '\\') (h3 : ¬ b.val < 0x20) (h4 : b.val < 0x80) :
    unquoteLoop (m + 1) (b :: tail) = (unquoteLoop m tail).map (fun p => (b :: p.1, p.2)) := by
  simp [unquoteLoop, h1, h2, h3, h4]

theorem unquoteLoop_simple (m : Nat) (e b : Byte) (tail : GoString) (h1 : e ≠ byteOf 'u')
    (h2 : simpleEscape e = some b) :
    unquoteLoop (m + 1) (byteOf '\\' :: e :: tail)
      = (unquoteLoop m tail).map (fun p => (b :: p.1, p.2)) := by
  have hq : byteOf '\\' ≠ byteOf '"' := by decide
  simp [unquoteLoop, hq, h1, h2]

theorem unquoteLoop_u4 (m : Nat) (h1 h2 h3 h4 : Byte) (v1 v2 v3 v4 : Nat) (tail : GoString)
    (e1 : hexValue h1 = some v1) (e2 : hexValue h2 = some v2) (e3 : hexValue h3 = some v3)
    (e4 : hexValue h4 = some v4)
    (hs : ¬ (0xD800 ≤ ((v1 * 16 + v2) * 16 + v3) * 16 + v4
      ∧ ((v1 * 16 + v2) * 16 + v3) * 16 + v4 < 0xE000)) :
    unquoteLoop (m + 1) (byteOf '\\' :: byteOf 'u' :: h1 :: h2 :: h3 :: h4 :: tail)
      = (unquoteLoop m tail).map
          (fun p => (encodeRune (((v1 * 16 + v2) * 16 + v3) * 16 + v4) ++ p.1, p.2)) := by
  have hq : byteOf '\\' ≠ byteOf '"' := by decide
  simp [unquoteLoop, hq, getu4, e1, e2, e3, e4, utf16Rune, hs]

/-- An ASCII byte, as `appendString` writes it, is read back as itself. -/
theorem unquoteLoop_ascii (m : Nat) (b : Byte) (tail : GoString) (hb : b.val < 0x80) :
    unquoteLoop (m + 1) ((if htmlSafe b = true then [b] else escapeJSONByte b) ++ tail)
      = (unquoteLoop m tail).map (fun p => (b :: p.1, p.2)) := by
  by_cases hsafe : htmlSafe b = true
  · simp only [hsafe, if_true, List.singleton_append]
    simp only [htmlSafe, Bool.and_eq_true, decide_eq_true_eq, Bool.not_eq_true',
      decide_eq_false_iff_not] at hsafe
    exact unquoteLoop_plain m b tail hsafe.1.1.1.1.2 hsafe.1.1.1.2 (by omega) hb
  · rw [if_neg hsafe]
    by_cases hq : b = byteOf '\\' ∨ b = byteOf '"'
    · simp only [escapeJSONByte, hq, if_true, List.cons_append, List.nil_append]
      apply unquoteLoop_simple
      · rcases hq with rfl | rfl <;> decide
      · rcases hq with rfl | rfl <;> decide
    by_cases h8 : b.val = 8
    · have : b = byteOfNat 8 := (byteOfNat_val b 8 h8.symm).symm
      subst this
      exact unquoteLoop_simple m (byteOf 'b') _ tail (by decide) (by decide)
    by_cases h12 : b.val = 12
    · have : b = byteOfNat 12 := (byteOfNat_val b 12 h12.symm).symm
      subst this
      exact unquoteLoop_simple m (byteOf 'f') _ tail (by decide) (by decide)
    by_cases h10 : b.val = 10
    · have : b = byteOfNat 10 := (byteOfNat_val b 10 h10.symm).symm
      subst this
      exact unquoteLoop_simple m (byteOf 'n') _ tail (by decide) (by decide)
    by_cases h13 : b.val = 13
    · have : b = byteOfNat 13 := (byteOfNat_val b 13 h13.symm).symm
      subst this
      exact unquoteLoop_simple m (byteOf 'r') _ tail (by decide) (by decide)
    by_cases h9 : b.val = 9
    · have : b = byteOfNat 9 := (byteOfNat_val b 9 h9.symm).symm
      subst this
      exact unquoteLoop_simple m (byteOf 't') _ tail (by decide) (by decide)
    · have hesc : escapeJSONByte b ++ tail
          = byteOf '\\' :: byteOf 'u' :: byteOf '0' :: byteOf '0' :: lowerhex (b.val / 16)
              :: lowerhex (b.val % 16) :: tail := by
        simp only [escapeJSONByte, hq, h8, h12, h10, h13, h9, if_false]
        rfl
      rw [hesc, unquoteLoop_u4 m _ _ _ _ 0 0 (b.val / 16) (b.val % 16) tail (by decide)
        (by decide) (hexValue_lowerhex _ (by omega)) (hexValue_lowerhex _ (by omega))
        (by omega)]
      have hv : ((0 * 16 + 0) * 16 + b.val / 16) * 16 + b.val % 16 = b.val := by omega
      have he : encodeRune b.val = [b] := by
        have : b.val ≤ 0x7F := by omega
        simp only [encodeRune, this, if_true]
        rw [byteOfNat_val b _ rfl]
      rw [hv, he]
      rfl

/-- A well-formed multi-byte sequence, copied by `appendString`, is read back
as itself. -/
theorem unquoteLoop_wide (m : Nat) (s tail : GoString) (h : 2 ≤ (decodeRune s).2) :
    unquoteLoop (m + 1) (s.take (decodeRune s).2 ++ tail)
      = (unquoteLoop m tail).map (fun p => (s.take (decodeRune s).2 ++ p.1, p.2)) := by
  obtain ⟨hlen, henc, hloc, -, b, rest, rfl, hb⟩ := decodeRune_wide s h
  have hk : (decodeRune (b :: rest)).2 = ((decodeRune (b :: rest)).2 - 1) + 1 := by omega
  have htake : (b :: rest).take (decodeRune (b :: rest)).2
      = b :: rest.take ((decodeRune (b :: rest)).2 - 1) := by
    rw [hk]; simp
  have h1 : b ≠ byteOf '"' := by
    intro e; rw [e] at hb; revert hb; decide
  have h2 : b ≠ byteOf '\\' := by
    intro e; rw [e] at hb; revert hb; decide
  have h3 : ¬ b.val < 0x20 := by omega
  have h4 : ¬ b.val < 0x80 := by omega
  have hd := hloc tail
  rw [htake] at hd henc
  rw [htake]
  have hlen2 : (rest.take ((decodeRune (b :: rest)).2 - 1)).length
      = (decodeRune (b :: rest)).2 - 1 := by
    simp only [List.length_take, List.length_cons] at hlen ⊢
    omega
  have hdrop : (rest.take ((decodeRune (b :: rest)).2 - 1) ++ tail).drop
      ((decodeRune (b :: rest)).2 - 1) = tail := by
    rw [List.drop_append_eq_append_drop, hlen2]
    simp [List.drop_eq_nil_of_le (le_of_eq hlen2)]
  simp only [List.cons_append] at hd ⊢
  simp only [unquoteLoop, h1, h2, h3, h4, if_false, hd, hdrop, henc]
  rfl

theorem decodeRune_size_pos (b : Byte) (t : GoString) : 1 ≤ (decodeRune (b :: t)).2 := by
  rcases decodeRune_cases (b :: t) with ⟨-, h⟩ | ⟨_, _, _, _, _, _, _, _, hd⟩
      | ⟨_, _, _, _, _, _, _, _, _, _, _, _, _, hd⟩
      | ⟨_, _, _, _, _, _, _, _, _, _, _, _, _, _, _, _, hd⟩
  · rw [h (by simp)]
  · rw [hd]; simp
  · rw [hd]; simp
  · rw [hd]; simp

theorem escapeJSONByte_length (b : Byte) : 1 ≤ (escapeJSONByte b).length := by
  revert b; decide!

theorem validUTF8_of_ascii (s : GoString) (h : ∀ b ∈ s, b.val < 0x80) (n : Nat)
    (hn : s.length ≤ n) : validUTF8 n s = true := by
  induction s generalizing n with
  | nil => cases n <;> simp [validUTF8]
  | cons b t ih =>
    cases n with
    | zero => simp at hn
    | succ n =>
      simp only [validUTF8, h b (List.mem_cons_self _ _), if_true]
      exact ih (fun x hx => h x (List.mem_cons_of_mem _ hx)) n (by simpa using hn)

/-- Reading back a string that `appendString` wrote gives the string, when it
is valid UTF-8. -/
theorem unquoteLoop_appendString (n : Nat) : ∀ (s rest : GoString) (m : Nat), s.length ≤ n →
    validUTF8 n s = true → (appendString n s).length + 1 ≤ m →
    unquoteLoop m (appendString n s ++ byteOf '"' :: rest) = some (s, rest) := by
  induction n with
  | zero =>
    intro s rest m hs _ hm
    have : s = [] := List.length_eq_zero.mp (Nat.le_zero.mp hs)
    subst this
    obtain ⟨m', rfl⟩ : ∃ m', m = m' + 1 := ⟨m - 1, by omega⟩
    simp [appendString, unquoteLoop_quote]
  | succ n ih =>
    intro s rest m hs hv hm
    obtain ⟨m', rfl⟩ : ∃ m', m = m' + 1 := ⟨m - 1, by omega⟩
    cases s with
    | nil => simp [appendString, unquoteLoop_quote]
    | cons b t =>
      have hlen : t.length ≤ n := by simpa using hs
      by_cases hb : b.val < 0x80
      · have hv' : validUTF8 n t = true := by simpa [validUTF8, hb] using hv
        have happ : appendString (n + 1) (b :: t)
            = (if htmlSafe b = true then [b] else escapeJSONByte b) ++ appendString n t := by
          simp [appendString, hb]
        have hpl : 1 ≤ (if htmlSafe b = true then [b] else escapeJSONByte b).length := by
          split
          · simp
          · exact escapeJSONByte_length b
        rw [happ, List.length_append] at hm
        rw [happ, List.append_assoc, unquoteLoop_ascii m' b _ hb,
          ih t rest m' hlen hv' (by omega)]
        rfl
      · have hk1 : (decodeRune (b :: t)).2 ≠ 1 := by
          intro e
          simp [validUTF8, hb, e] at hv
        have hk : 2 ≤ (decodeRune (b :: t)).2 := by
          have := decodeRune_size_pos b t
          omega
        have hv' : validUTF8 n (t.drop ((decodeRune (b :: t)).2 - 1)) = true := by
          simpa [validUTF8, hb, hk1] using hv
        obtain ⟨hle, henc, -, -, -⟩ := decodeRune_wide (b :: t) hk
        have hlen' : (t.drop ((decodeRune (b :: t)).2 - 1)).length ≤ n := by
          simp only [List.length_drop]; omega
        have hsplit : (b :: t).take (decodeRune (b :: t)).2
            ++ t.drop ((decodeRune (b :: t)).2 - 1) = b :: t := by
          have hk' : (decodeRune (b :: t)).2 = ((decodeRune (b :: t)).2 - 1) + 1 := by omega
          rw [hk']
          simp [List.take_append_drop]
        have hc1 : ¬ ((decodeRune (b :: t)).1 = RuneError ∧ (decodeRune (b :: t)).2 = 1) :=
          fun h => hk1 h.2
        by_cases hls : (decodeRune (b :: t)).1 = 0x2028 ∨ (decodeRune (b :: t)).1 = 0x2029
        · have happ : appendString (n + 1) (b :: t)
              = byteOf '\\' :: byteOf 'u' :: byteOf '2' :: byteOf '0' :: byteOf '2'
                  :: lowerhex ((decodeRune (b :: t)).1 % 16)
                  :: appendString n (t.drop ((decodeRune (b :: t)).2 - 1)) := by
            simp only [appendString, hb, if_false, hc1, hls, if_true]
            rfl
          rw [happ] at hm
          simp only [List.length_cons] at hm
          rw [happ]
          simp only [List.cons_append]
          rw [unquoteLoop_u4 m' _ _ _ _ 2 0 2 ((decodeRune (b :: t)).1 % 16) _ (by decide)
            (by decide) (by decide) (hexValue_lowerhex _ (by omega)) (by omega),
            ih _ rest m' hlen' hv' (by omega)]
          have hval : ((2 * 16 + 0) * 16 + 2) * 16 + (decodeRune (b :: t)).1 % 16
              = (decodeRune (b :: t)).1 := by
            rcases hls with e | e <;> rw [e]
          rw [hval, henc]
          simp only [Option.map_some']
          rw [hsplit]
        · have happ : appendString (n + 1) (b :: t)
              = (b :: t).take (decodeRune (b :: t)).2
                  ++ appendString n (t.drop ((decodeRune (b :: t)).2 - 1)) := by
            simp only [appendString, hb, if_false, hc1, hls]
          have htl : 1 ≤ ((b :: t).take (decodeRune (b :: t)).2).length := by
            simp only [List.length_take, List.length_cons]
            omega
          rw [happ, List.length_append] at hm
          rw [happ, List.append_assoc, unquoteLoop_wide m' (b :: t) _ hk,
            ih _ rest m' hlen' hv' (by omega)]
          simp only [Option.map_some']
          rw [hsplit]

/-- A string literal written by `json.Marshal` for a valid UTF-8 string is
read back as that string. -/
theorem parseValue_jsonString (s rest : GoString) (hv : ValidString s = true) :
    parseValue (jsonString s ++ rest) = some (JSONToken.string s, rest) := by
  have := unquoteLoop_appendString s.length s rest
    (appendString s.length s ++ byteOf '"' :: rest).length (le_refl _) hv
    (by simp only [List.length_append, List.length_cons]; omega)
  simp only [jsonString, List.cons_append, List.append_assoc, List.singleton_append, parseValue,
    if_true, List.nil_append]
  rw [this]
  rfl

/-- A key of safe ASCII bytes between quotes is read back as that key. -/
theorem unquoteLoop_key (key rest : GoString) (h : ∀ b ∈ key, htmlSafe b = true) :
    unquoteLoop (key ++ byteOf '"' :: rest).length (key ++ byteOf '"' :: rest)
      = some (key, rest) := by
  have hascii : ∀ b ∈ key, b.val < 0x80 := by
    intro b hb
    have := h b hb
    simp only [htmlSafe, Bool.and_eq_true, decide_eq_true_eq] at this
    exact this.1.1.1.1.1.2
  have := unquoteLoop_appendString key.length key rest (key ++ byteOf '"' :: rest).length
    (le_refl _) (validUTF8_of_ascii key hascii _ (le_refl _))
    (by
      rw [appendString_of_safe key h _ (le_refl _)]
      simp only [List.length_append, List.length_cons]; omega)
  rwa [appendString_of_safe key h _ (le_refl _)] at this

/-! ## JSON numbers: reading back what was written -/

theorem formatBits_acc (fuel : Nat) : ∀ (u : Nat) (acc : GoString),
    formatBits fuel u acc = formatBits fuel u [] ++ acc := by
  induction fuel with
  | zero => intro u acc; simp [formatBits]
  | succ f ih =>
    intro u acc
    by_cases hu : u < 10
    · simp [formatBits, hu]
    · simp only [formatBits, hu, if_false]
      rw [ih (u / 10) (digitByte (u % 10) :: acc), ih (u / 10) [digitByte (u % 10)]]
      simp

theorem formatBits_fuel (f : Nat) : ∀ (u : Nat) (acc : GoString), u < f →
    formatBits f u acc = formatBits (u + 1) u acc := by
  induction f using Nat.strong_induction_on with
  | _ f ih =>
    intro u acc hu
    cases f with
    | zero => omega
    | succ f =>
      by_cases h10 : u < 10
      · simp [formatBits, h10]
      · simp only [formatBits, h10, if_false]
        have hd : u / 10 < u := by omega
        rw [ih f (by omega) (u / 10) _ (by omega), ih u (by omega) (u / 10) _ hd]

theorem FormatUint_small (u : Nat) (h : u < 10) : FormatUint u = [digitByte u] := by
  simp [FormatUint, formatBits, h]

theorem FormatUint_step (u : Nat) (h : ¬ u < 10) :
    FormatUint u = FormatUint (u / 10) ++ [digitByte (u % 10)] := by
  have hd : u / 10 < u := by omega
  have h1 : FormatUint u = formatBits u (u / 10) [digitByte (u % 10)] := by
    unfold FormatUint
    rw [formatBits]
    simp [h]
  rw [h1, formatBits_acc, formatBits_fuel u (u / 10) [] hd]
  rfl

theorem digitByte_props (d : Nat) (h : d < 10) :
    isDigit (digitByte d) = true ∧ (digitByte d).val - 48 = d
      ∧ (1 ≤ d → digitByte d ≠ byteOf '0') := by
  interval_cases d <;> decide

theorem digitsValue_append (x : GoString) (d : Byte) :
    digitsValue (x ++ [d]) = digitsValue x * 10 + (d.val - 48) := by
  simp [digitsValue, List.foldl_append]

/-- The decimal text of a number is made of digits, does not start with `0`
unless the number is zero, and writes the number. -/
theorem FormatUint_props (u : Nat) :
    (FormatUint u).all isDigit = true ∧ digitsValue (FormatUint u) = u
      ∧ (∃ d ds, FormatUint u = d :: ds ∧ (1 ≤ u → d ≠ byteOf '0')) := by
  induction u using Nat.strong_induction_on with
  | _ u ih =>
    by_cases h : u < 10
    · obtain ⟨h1, h2, h3⟩ := digitByte_props u h
      rw [FormatUint_small u h]
      refine ⟨by simp [h1], by simp [digitsValue, h2], digitByte u, [], rfl, h3⟩
    · obtain ⟨i1, i2, d, ds, i3, i4⟩ := ih (u / 10) (by omega)
      obtain ⟨h1, h2, -⟩ := digitByte_props (u % 10) (Nat.mod_lt _ (by decide))
      rw [FormatUint_step u h]
      refine ⟨?_, ?_, d, ds ++ [digitByte (u % 10)], ?_, fun _ => i4 (by omega)⟩
      · simp [List.all_append, i1, h1]
      · rw [digitsValue_append, i2, h2]; omega
      · rw [i3]; rfl

theorem parseUint_FormatUint (u : Nat) (h : u < 2 ^ 64) : parseUint (FormatUint u) = some u := by
  obtain ⟨h1, h2, d, ds, h3, -⟩ := FormatUint_props u
  have hne : FormatUint u ≠ [] := by rw [h3]; simp
  have h' : digitsValue (FormatUint u) < 2 ^ 64 := by rw [h2]; exact h
  unfold parseUint
  rw [if_pos ⟨hne, h1, h'⟩, h2]

theorem takeWhile_digits (ds rest : GoString) (c : Byte) (h : ds.all isDigit = true)
    (hc : isDigit c = false) :
    (ds ++ c :: rest).takeWhile isDigit = ds ∧ (ds ++ c :: rest).dropWhile isDigit = c :: rest := by
  induction ds with
  | nil => simp [List.takeWhile, List.dropWhile, hc]
  | cons a t ih =>
    simp only [List.all_cons, Bool.and_eq_true] at h
    obtain ⟨i1, i2⟩ := ih h.2
    simp [List.takeWhile, List.dropWhile, h.1, i1, i2]

/-- A number written by `json.Marshal` and followed by a comma or a line feed
is scanned as a whole. -/
theorem parseValue_FormatUint (u : Nat) (c : Byte) (rest : GoString)
    (hc : c = byteOf ',' ∨ c = byteOf '\n') :
    parseValue (FormatUint u ++ c :: rest)
      = some (JSONToken.number (FormatUint u), c :: rest) := by
  obtain ⟨h1, -, d, ds, h3, h4⟩ := FormatUint_props u
  have hcd : isDigit c = false := by rcases hc with rfl | rfl <;> decide
  have hcp : c ≠ byteOf '.' := by rcases hc with rfl | rfl <;> decide
  have hce : ¬ (c = byteOf 'e' ∨ c = byteOf 'E') := by rcases hc with rfl | rfl <;> decide
  rw [h3] at h1 ⊢
  simp only [List.all_cons, Bool.and_eq_true] at h1
  have hdq : d ≠ byteOf '"' := by
    intro e; rw [e] at h1; exact absurd h1.1 (by decide)
  have hdm : d ≠ byteOf '-' := by
    intro e; rw [e] at h1; exact absurd h1.1 (by decide)
  obtain ⟨t1, t2⟩ := takeWhile_digits ds rest c h1.2 hcd
  by_cases hz : d = byteOf '0'
  · have hu : u = 0 := by
      by_contra hne
      exact h4 (by omega) hz
    subst hu
    have hds : ds = [] := by
      have : FormatUint 0 = [byteOf '0'] := by decide
      rw [this] at h3
      exact (List.cons.inj h3).2.symm
    subst hds
    subst hz
    have z1 : byteOf '0' ≠ byteOf '"' := by decide
    have z2 : byteOf '0' ≠ byteOf '-' := by decide
    have z3 : isDigit (byteOf '0') = true := by decide
    simp [parseValue, scanNumber, scanInt, scanFrac, scanExp, hcp, hce, z1, z2, z3]
  · simp [parseValue, hdq, hdm, h1.1, scanNumber, scanInt, hz, t1, t2, scanFrac, scanExp, hcp,
      hce]

/-! ## The config file: reading back what was written -/

theorem skipSpace_cons (x : Byte) (t : GoString) (h : isJSONSpace x = false) :
    skipSpace (x :: t) = x :: t := by
  simp [skipSpace, List.dropWhile, h]

theorem marshalIndent_Config (cfg : Config) :
    marshalIndentStruct cfg.fields = .ok (configText cfg) := by
  simp only [marshalIndentStruct, writtenFields, Config.fields, List.filter, Bool.false_and,
    Bool.not_false, encodeMembersIndent, JSONValue.encode, joinWith]
  simp only [configText, memberText, nextLine, lit, List.cons_append, List.append_assoc,
    List.nil_append, String.toList, List.map]

/-- One member that is followed by another: its key and value are read and
the members behind it follow. -/
theorem parseMembers_next (f : Nat) (key vtext r : GoString) (v : JSONToken)
    (hkey : ∀ b ∈ key, htmlSafe b = true)
    (hhead : ∃ x t, vtext = x :: t ∧ isJSONSpace x = false)
    (hval : ∀ tail, parseValue (vtext ++ byteOf ',' :: tail) = some (v, byteOf ',' :: tail)) :
    parseMembers (f + 1) (memberText key vtext (nextLine (byteOf '"' :: r)))
      = (parseMembers f (byteOf '"' :: r)).map (fun p => ((key, v) :: p.1, p.2)) := by
  obtain ⟨x, t, rfl, hx⟩ := hhead
  have hk := unquoteLoop_key key
    (byteOf ':' :: byteOf ' ' :: (x :: t) ++ nextLine (byteOf '"' :: r)) hkey
  have hv := hval (byteOf '\n' :: byteOf ' ' :: byteOf ' ' :: byteOf '"' :: r)
  have c1 : isJSONSpace (byteOf ':') = false := by decide
  have c2 : isJSONSpace (byteOf ',') = false := by decide
  have c3 : isJSONSpace (byteOf '"') = false := by decide
  have c4 : isJSONSpace (byteOf ' ') = true := by decide
  have c5 : isJSONSpace (byteOf '\n') = true := by decide
  have c6 : byteOf ',' ≠ byteOf '\x7d' := by decide
  simp only [memberText, nextLine, List.cons_append, List.append_assoc] at hk hv ⊢
  simp only [parseMembers, ne_eq, not_true_eq_false, if_false, hk, skipSpace, List.dropWhile,
    c1, c2, c3, c4, c5, hx, hv, if_true]

/-- A member followed by further members whose reading is known. -/
theorem parseMembers_cons (f : Nat) (key vtext tail rest : GoString) (v : JSONToken)
    (ms : List (GoString × JSONToken))
    (hkey : ∀ b ∈ key, htmlSafe b = true)
    (hhead : ∃ x t, vtext = x :: t ∧ isJSONSpace x = false)
    (hval : ∀ tl, parseValue (vtext ++ byteOf ',' :: tl) = some (v, byteOf ',' :: tl))
    (htail : ∃ r, tail = byteOf '"' :: r)
    (hrest : parseMembers f tail = some (ms, rest)) :
    parseMembers (f + 1) (memberText key vtext (nextLine tail))
      = some ((key, v) :: ms, rest) := by
  obtain ⟨r, rfl⟩ := htail
  rw [parseMembers_next f key vtext r v hkey hhead hval, hrest]
  rfl

/-- The last member, followed by the line feed and the closing brace. -/
theorem parseMembers_last (f : Nat) (key vtext : GoString) (v : JSONToken)
    (hkey : ∀ b ∈ key, htmlSafe b = true)
    (hhead : ∃ x t, vtext = x :: t ∧ isJSONSpace x = false)
    (hval : ∀ tail, parseValue (vtext ++ byteOf '\n' :: tail) = some (v, byteOf '\n' :: tail)) :
    parseMembers (f + 1) (memberText key vtext [byteOf '\n', byteOf '\x7d'])
      = some ([(key, v)], []) := by
  obtain ⟨x, t, rfl, hx⟩ := hhead
  have hk := unquoteLoop_key key
    (byteOf ':' :: byteOf ' ' :: (x :: t) ++ [byteOf '\n', byteOf '\x7d']) hkey
  have hv := hval [byteOf '\x7d']
  have c1 : isJSONSpace (byteOf ':') = false := by decide
  have c2 : isJSONSpace (byteOf '\x7d') = false := by decide
  have c4 : isJSONSpace (byteOf ' ') = true := by decide
  have c5 : isJSONSpace (byteOf '\n') = true := by decide
  have c6 : byteOf '\x7d' ≠ byteOf ',' := by decide
  simp only [memberText, List.cons_append, List.append_assoc] at hk hv ⊢
  simp only [parseMembers, ne_eq, not_true_eq_false, if_false, hk, skipSpace, List.dropWhile,
    c1, c2, c4, c5, c6, hx, hv, if_true]

/-- An object whose members start on the line after the opening brace. -/
theorem parseObject_of_members (tail : GoString) (ms : List (GoString × JSONToken))
    (htail : ∃ r, tail = byteOf '"' :: r)
    (hms : ∀ f, parseMembers (f + 5) tail = some (ms, [])) :
    parseObject (byteOf '\x7b' :: byteOf '\n' :: byteOf ' ' :: byteOf ' ' :: tail) = some ms := by
  obtain ⟨r, rfl⟩ := htail
  have c1 : isJSONSpace (byteOf '\x7b') = false := by decide
  have c3 : isJSONSpace (byteOf '"') = false := by decide
  have c4 : isJSONSpace (byteOf ' ') = true := by decide
  have c5 : isJSONSpace (byteOf '\n') = true := by decide
  have c6 : byteOf '"' ≠ byteOf '\x7d' := by decide
  have hlen5 : (byteOf '\x7b' :: byteOf '\n' :: byteOf ' ' :: byteOf ' ' :: byteOf '"' :: r).length
      = r.length + 5 := by simp
  have hm := hms r.length
  unfold parseObject
  rw [hlen5]
  simp only [skipSpace, List.dropWhile, c1, c3, c4, c5, if_true, c6, if_false, hm]

theorem jsonString_head (s : GoString) :
    ∃ x t, jsonString s = x :: t ∧ isJSONSpace x = false :=
  ⟨byteOf '"', _, rfl, by decide⟩

theorem FormatUint_head (u : Nat) : ∃ x t, FormatUint u = x :: t ∧ isJSONSpace x = false := by
  obtain ⟨h1, -, d, ds, h3, -⟩ := FormatUint_props u
  refine ⟨d, ds, h3, ?_⟩
  rw [h3] at h1
  simp only [List.all_cons, Bool.and_eq_true] at h1
  have : ∀ b : Byte, isDigit b = true → isJSONSpace b = false := by decide!
  exact this d h1.1

theorem safe_of_all (key : GoString) (h : key.all htmlSafe = true) :
    ∀ b ∈ key, htmlSafe b = true := by
  intro b hb
  exact List.all_eq_true.mp h b hb

/-- The members of the text `SaveToPath` writes are the five fields of the
record, when its strings are valid UTF-8. -/
theorem parseObject_configText (cfg : Config) (h1 : ValidString cfg.AccessToken = true)
    (h2 : ValidString cfg.ApiURL = true) (h3 : ValidString cfg.ClientID = true) :
    parseObject (configText cfg)
      = some [(lit "access_token", JSONToken.string cfg.AccessToken),
              (lit "user_id", JSONToken.number (FormatUint cfg.UserID)),
              (lit "default_account_id", JSONToken.number (FormatUint cfg.DefaultAccountID)),
              (lit "api_url", JSONToken.string cfg.ApiURL),
              (lit "client_id", JSONToken.string cfg.ClientID)] := by
  have k1 : ∀ b ∈ lit "access_token", htmlSafe b = true := safe_of_all _ (by decide)
  have k2 : ∀ b ∈ lit "user_id", htmlSafe b = true := safe_of_all _ (by decide)
  have k3 : ∀ b ∈ lit "default_account_id", htmlSafe b = true := safe_of_all _ (by decide)
  have k4 : ∀ b ∈ lit "api_url", htmlSafe b = true := safe_of_all _ (by decide)
  have k5 : ∀ b ∈ lit "client_id", htmlSafe b = true := safe_of_all _ (by decide)
  have key : ∀ f : Nat, parseMembers (f + 5)
      (memberText (lit "access_token") (jsonString cfg.AccessToken) (nextLine
      (memberText (lit "user_id") (FormatUint cfg.UserID) (nextLine
      (memberText (lit "default_account_id") (FormatUint cfg.DefaultAccountID) (nextLine
      (memberText (lit "api_url") (jsonString cfg.ApiURL) (nextLine
      (memberText (lit "client_id") (jsonString cfg.ClientID)
        [byteOf '\n', byteOf '\x7d'])))))))))
      = some ([(lit "access_token", JSONToken.string cfg.AccessToken),
              (lit "user_id", JSONToken.number (FormatUint cfg.UserID)),
              (lit "default_account_id", JSONToken.number (FormatUint cfg.DefaultAccountID)),
              (lit "api_url", JSONToken.string cfg.ApiURL),
              (lit "client_id", JSONToken.string cfg.ClientID)], []) := by
    intro f
    have s5 := parseMembers_last f (lit "client_id") (jsonString cfg.ClientID)
      (JSONToken.string cfg.ClientID) k5 (jsonString_head _)
      (fun tail => parseValue_jsonString _ _ h3)
    have s4 := parseMembers_cons (f + 1) (lit "api_url") (jsonString cfg.ApiURL) _ _
      (JSONToken.string cfg.ApiURL) _ k4 (jsonString_head _)
      (fun tail => parseValue_jsonString _ _ h2) ⟨_, rfl⟩ s5
    have s3 := parseMembers_cons (f + 2) (lit "default_account_id")
      (FormatUint cfg.DefaultAccountID) _ _
      (JSONToken.number (FormatUint cfg.DefaultAccountID)) _ k3 (FormatUint_head _)
      (fun tail => parseValue_FormatUint _ _ _ (Or.inl rfl)) ⟨_, rfl⟩ s4
    have s2 := parseMembers_cons (f + 3) (lit "user_id") (FormatUint cfg.UserID) _ _
      (JSONToken.number (FormatUint cfg.UserID)) _ k2 (FormatUint_head _)
      (fun tail => parseValue_FormatUint _ _ _ (Or.inl rfl)) ⟨_, rfl⟩ s3
    exact parseMembers_cons (f + 4) (lit "access_token") (jsonString cfg.AccessToken) _ _
      (JSONToken.string cfg.AccessToken) _ k1 (jsonString_head _)
      (fun tail => parseValue_jsonString _ _ h1) ⟨_, rfl⟩ s2
  unfold configText
  exact parseObject_of_members _ _ ⟨_, rfl⟩ key

/-- Reading the text written for a record gives the record back, when its
strings are valid UTF-8 and its numbers fit a `uint`. -/
theorem unmarshalConfig_configText (cfg : Config) (h1 : ValidString cfg.AccessToken = true)
    (h2 : ValidString cfg.ApiURL = true) (h3 : ValidString cfg.ClientID = true)
    (h4 : cfg.UserID < 2 ^ 64) (h5 : cfg.DefaultAccountID < 2 ^ 64) :
    unmarshalConfig (configText cfg) = some cfg := by
  have e1 : (lit "access_token").map asciiLower = lit "access_token" := by decide
  have e2 : (lit "user_id").map asciiLower = lit "user_id" := by decide
  have e3 : (lit "default_account_id").map asciiLower = lit "default_account_id" := by decide
  have e4 : (lit "api_url").map asciiLower = lit "api_url" := by decide
  have e5 : (lit "client_id").map asciiLower = lit "client_id" := by decide
  have n21 : lit "user_id" ≠ lit "access_token" := by decide
  have n31 : lit "default_account_id" ≠ lit "access_token" := by decide
  have n32 : lit "default_account_id" ≠ lit "user_id" := by decide
  have n41 : lit "api_url" ≠ lit "access_token" := by decide
  have n42 : lit "api_url" ≠ lit "user_id" := by decide
  have n43 : lit "api_url" ≠ lit "default_account_id" := by decide
  have n51 : lit "client_id" ≠ lit "access_token" := by decide
  have n52 : lit "client_id" ≠ lit "user_id" := by decide
  have n53 : lit "client_id" ≠ lit "default_account_id" := by decide
  have n54 : lit "client_id" ≠ lit "api_url" := by decide
  have s1 : ∀ (c : Config) s, storeConfigField c (lit "access_token") (JSONToken.string s)
      = some { c with AccessToken := s } := by
    intro c s
    unfold storeConfigField
    rw [if_pos e1]
  have s2 : ∀ (c : Config) l, storeConfigField c (lit "user_id") (JSONToken.number l)
      = (parseUint l).map (fun n => { c with UserID := n }) := by
    intro c l
    unfold storeConfigField
    rw [e2, if_neg n21, if_pos rfl]
  have s3 : ∀ (c : Config) l, storeConfigField c (lit "default_account_id") (JSONToken.number l)
      = (parseUint l).map (fun n => { c with DefaultAccountID := n }) := by
    intro c l
    unfold storeConfigField
    rw [e3, if_neg n31, if_neg n32, if_pos rfl]
  have s4 : ∀ (c : Config) s, storeConfigField c (lit "api_url") (JSONToken.string s)
      = some { c with ApiURL := s } := by
    intro c s
    unfold storeConfigField
    rw [e4, if_neg n41, if_neg n42, if_neg n43, if_pos rfl]
  have s5 : ∀ (c : Config) s, storeConfigField c (lit "client_id") (JSONToken.string s)
      = some { c with ClientID := s } := by
    intro c s
    unfold storeConfigField
    rw [e5, if_neg n51, if_neg n52, if_neg n53, if_neg n54, if_pos rfl]
  unfold unmarshalConfig
  rw [parseObject_configText cfg h1 h2 h3]
  simp only [storeConfigFields, s1, s2, s3, s4, s5, parseUint_FormatUint _ h4,
    parseUint_FormatUint _ h5, Option.map]

set_option maxRecDepth 100000 in
/-- Claim C20, as stated, fails: a record whose access token is the byte `0xff`
is saved without error, and loading the same path succeeds with a record whose
access token is the three bytes of U+FFFD, not the saved one. -/
theorem SaveToPath_LoadFromPath_invalid_token :
    (SaveToPath emptyDisk invalidTokenConfig (lit "/tmp/skyclerk/config.json")).1 = none ∧
      LoadFromPath (SaveToPath emptyDisk invalidTokenConfig (lit "/tmp/skyclerk/config.json")).2
        (lit "/tmp/skyclerk/config.json")
        = .ok { invalidTokenConfig with
                AccessToken := [byteOfNat 0xEF, byteOfNat 0xBF, byteOfNat 0xBD] } ∧
      ({ invalidTokenConfig with
          AccessToken := [byteOfNat 0xEF, byteOfNat 0xBF, byteOfNat 0xBD] } : Config)
        ≠ invalidTokenConfig :=
  ⟨rfl, rfl, by decide⟩

/-! ## Masking -/

theorem sliceString_first (s : GoString) (h : 4 ≤ s.length) :
    sliceString s 0 4 = some (s.take 4) := by
  have h' : (4 : Int) ≤ (s.length : Int) := by exact_mod_cast h
  simp [sliceString, h']

theorem sliceString_last (s : GoString) (h : 4 ≤ s.length) :
    sliceString s ((s.length : Int) - 4) (s.length : Int) = some (s.drop (s.length - 4)) := by
  have h1 : (0 : Int) ≤ (s.length : Int) - 4 := by omega
  have h2 : ((s.length : Int) - 4).toNat = s.length - 4 := by omega
  have h3 : (s.length : Int) - 4 ≤ (s.length : Int) := by omega
  unfold sliceString
  rw [if_pos ⟨h1, h3, le_refl _⟩, h2]
  simp

theorem MaskString_long (s : GoString) (h : 9 ≤ s.length) :
    MaskString s = some (s.take 4 ++ lit "****" ++ s.drop (s.length - 4)) := by
  have h8 : ¬ (s.length : Int) ≤ 8 := by omega
  unfold MaskString
  rw [if_neg h8, sliceString_first s (by omega), sliceString_last s (by omega)]

/-- Claim C21: for every string of at most 8 bytes, the empty string included,
`MaskString` returns the fixed placeholder `****`, whatever the string is. -/
theorem MaskString_short (s : GoString) (h : s.length ≤ 8) :
    MaskString s = some (lit "****") := by
  have h8 : (s.length : Int) ≤ 8 := by exact_mod_cast h
  unfold MaskString
  rw [if_pos h8]

/-- The strings of the repository's test that are masked whole. -/
theorem MaskString_short_witness :
    MaskString (lit "12345678") = some (lit "****") ∧ MaskString (lit "short") = some (lit "****")
      ∧ MaskString [] = some (lit "****") :=
  ⟨MaskString_short (lit "12345678") (by decide), MaskString_short (lit "short") (by decide),
    MaskString_short [] (by decide)⟩

/-- Claim C22: for every string of 9 bytes or more, `MaskString` returns the
first 4 bytes of the string, then `****`, then its last 4 bytes. -/
theorem MaskString_first_last (s : GoString) (h : 9 ≤ s.length) :
    MaskString s = some (s.take 4 ++ lit "****" ++ s.drop (s.length - 4))
      ∧ (s.take 4).length = 4 ∧ (s.drop (s.length - 4)).length = 4 := by
  refine ⟨MaskString_long s h, ?_, ?_⟩
  · simp; omega
  · simp; omega

/-- The two examples of the claim. -/
theorem MaskString_first_last_witness :
    MaskString (lit "123456789") = some (lit "1234****6789")
      ∧ MaskString (lit "abcdefghijklmnop") = some (lit "abcd****mnop") :=
  ⟨(MaskString_first_last (lit "123456789") (by decide)).1.trans (by decide),
    (MaskString_first_last (lit "abcdefghijklmnop") (by decide)).1.trans (by decide)⟩

/-- Claim C30: for every string `MaskString` returns a result (neither of its
slices is out of range), and the result is 4 bytes long when the string has at
most 8 bytes and 12 bytes long otherwise. -/
theorem MaskString_total (s : GoString) :
    ∃ out, MaskString s = some out ∧ out.length = if s.length ≤ 8 then 4 else 12 := by
  by_cases h : s.length ≤ 8
  · refine ⟨lit "****", ?_, ?_⟩
    · have h8 : (s.length : Int) ≤ 8 := by exact_mod_cast h
      unfold MaskString
      rw [if_pos h8]
    · rw [if_pos h]; rfl
  · refine ⟨_, MaskString_long s (by omega), ?_⟩
    rw [if_neg h]
    have h4 : (lit "****").length = 4 := rfl
    simp only [List.length_append, List.length_take, List.length_drop, h4]
    omega

/-- Claim C26 at a string of five two-byte characters (five times U+00E9): it
has 5 characters and 10 bytes, and `MaskString` returns its first two
characters, `****` and its last two characters instead of the placeholder
alone. For four such characters followed by `a` (5 characters, 9 bytes) the
last four bytes returned start in the middle of a character. -/
theorem MaskString_multibyte :
    RuneCountInString ([0xC3, 0xA9, 0xC3, 0xA9, 0xC3, 0xA9, 0xC3, 0xA9, 0xC3, 0xA9].map byteOfNat)
        = 5
      ∧ MaskString ([0xC3, 0xA9, 0xC3, 0xA9, 0xC3, 0xA9, 0xC3, 0xA9, 0xC3, 0xA9].map byteOfNat)
        = some ([0xC3, 0xA9, 0xC3, 0xA9].map byteOfNat ++ lit "****"
            ++ [0xC3, 0xA9, 0xC3, 0xA9].map byteOfNat)
      ∧ RuneCountInString ([0xC3, 0xA9, 0xC3, 0xA9, 0xC3, 0xA9, 0xC3, 0xA9, 0x61].map byteOfNat)
        = 5
      ∧ MaskString ([0xC3, 0xA9, 0xC3, 0xA9, 0xC3, 0xA9, 0xC3, 0xA9, 0x61].map byteOfNat)
        = some ([0xC3, 0xA9, 0xC3, 0xA9].map byteOfNat ++ lit "****"
            ++ [0xA9, 0xC3, 0xA9, 0x61].map byteOfNat) := by
  refine ⟨by decide, by decide, by decide, by decide⟩

/-! ## The helpers of the commands -/

/-- Claim C25 at the type codes of the repository: `capitalizeType` turns `1`
into the control character U+0011 and `2` into U+0012, and a capitalized word
loses its first letter (`Income` becomes `)ncome`); only a first byte that is
a lower-case letter is capitalized. -/
theorem capitalizeType_type_codes :
    capitalizeType (lit "1") = [byteOfNat 0x11]
      ∧ capitalizeType (lit "2") = [byteOfNat 0x12]
      ∧ capitalizeType (lit "Income") = lit ")ncome"
      ∧ capitalizeType (lit "income") = lit "Income" := by
  refine ⟨by decide, by decide, by decide, by decide⟩

/-- Claim C24: for every loaded configuration and every value of the
`--account` override, with the account id being the override when it is
greater than 0 and the default account id of the configuration otherwise,
`newClient` fails with `no account selected` exactly when that id is 0, and
otherwise returns a client with that account id. -/
theorem newClient_account (cfg : Config) (accountOverride : Nat) :
    (newClient (.ok cfg) accountOverride = .error ClientExit.noAccountSelected
        ↔ (if accountOverride > 0 then accountOverride else cfg.DefaultAccountID) = 0)
      ∧ ((if accountOverride > 0 then accountOverride else cfg.DefaultAccountID) = 0
          ∨ ∃ c, newClient (.ok cfg) accountOverride = .ok c
              ∧ c.accountID = (if accountOverride > 0 then accountOverride
                  else cfg.DefaultAccountID)
              ∧ c.accessToken = cfg.AccessToken) := by
  by_cases h : (if accountOverride > 0 then accountOverride else cfg.DefaultAccountID) = 0
  · refine ⟨⟨fun _ => h, fun _ => ?_⟩, Or.inl h⟩
    simp only [newClient]
    rw [if_pos h]
  · refine ⟨⟨fun hc => ?_, fun h0 => absurd h0 h⟩,
      Or.inr ⟨NewClient (if cfg.ApiURL = [] then DefaultApiURL else cfg.ApiURL) cfg.AccessToken
        (if accountOverride > 0 then accountOverride else cfg.DefaultAccountID), ?_, rfl, rfl⟩⟩
    · simp only [newClient] at hc
      rw [if_neg h] at hc
      cases hc
    · simp only [newClient]
      rw [if_neg h]

/-! ## Deleting the config file -/

/-- Claim C23: for every path, `DeleteAtPath` on a file that does not exist
returns no error and leaves the disk as it is; and after a `DeleteAtPath` that
returned no error the file is absent, so that a second `DeleteAtPath` on the
same path returns no error either and leaves the disk unchanged. -/
theorem DeleteAtPath_idempotent (disk : Disk) (path : GoString) :
    (disk.read path = ReadResult.notExist → DeleteAtPath disk path = (none, disk))
      ∧ ((DeleteAtPath disk path).1 = none →
          (DeleteAtPath disk path).2.read path = ReadResult.notExist
            ∧ DeleteAtPath (DeleteAtPath disk path).2 path
                = (none, (DeleteAtPath disk path).2)) := by
  have absent : ∀ d : Disk, d.read path = ReadResult.notExist →
      DeleteAtPath d path = (none, d) := by
    intro d hd
    unfold DeleteAtPath
    rw [hd]
  refine ⟨absent disk, fun hok => ?_⟩
  have hgone : (DeleteAtPath disk path).2.read path = ReadResult.notExist := by
    unfold DeleteAtPath at hok ⊢
    cases hr : disk.read path with
    | notExist => simp only [hr]
    | failed err =>
      rw [hr] at hok
      cases hrm : disk.remove path with
      | some e => rw [hrm] at hok; cases hok
      | none => simp
    | content data =>
      rw [hr] at hok
      cases hrm : disk.remove path with
      | some e => rw [hrm] at hok; cases hok
      | none => simp
  exact ⟨hgone, absent _ hgone⟩

/-- The sequence of the repository's test: the file is saved, deleted, and
deleted again; and a file that never existed is deleted. -/
theorem DeleteAtPath_idempotent_witness :
    DeleteAtPath emptyDisk (lit "/tmp/config.json") = (none, emptyDisk)
      ∧ (DeleteAtPath (SaveToPath emptyDisk testConfig (lit "/tmp/config.json")).2
            (lit "/tmp/config.json")).2.read (lit "/tmp/config.json") = ReadResult.notExist
      ∧ DeleteAtPath (DeleteAtPath (SaveToPath emptyDisk testConfig (lit "/tmp/config.json")).2
            (lit "/tmp/config.json")).2 (lit "/tmp/config.json")
          = (none, (DeleteAtPath (SaveToPath emptyDisk testConfig (lit "/tmp/config.json")).2
              (lit "/tmp/config.json")).2) :=
  ⟨(DeleteAtPath_idempotent emptyDisk (lit "/tmp/config.json")).1 rfl,
    (DeleteAtPath_idempotent (SaveToPath emptyDisk testConfig (lit "/tmp/config.json")).2
      (lit "/tmp/config.json")).2 rfl⟩

/-! ## Ledger updates from the command line -/

theorem ledgerUpdateRequest_note (flags : LedgerUpdateFlags) :
    ledgerUpdateRequest { flags with note := some [] }
      = ledgerUpdateRequest { flags with note := none } := by
  obtain ⟨a, d, ci, ca, n⟩ := flags
  cases a <;> cases d <;> cases ci <;> cases ca <;> rfl

theorem ledgerUpdateRequest_date (flags : LedgerUpdateFlags) :
    ledgerUpdateRequest { flags with date := some [] }
      = ledgerUpdateRequest { flags with date := none } := by
  obtain ⟨a, d, ci, ca, n⟩ := flags
  cases a <;> cases ci <;> cases ca <;> cases n <;> rfl

theorem ledgerUpdateRequest_amount (flags : LedgerUpdateFlags) :
    ledgerUpdateRequest { flags with amount := some Float64.zero }
      = ledgerUpdateRequest { flags with amount := none } := by
  obtain ⟨a, d, ci, ca, n⟩ := flags
  cases d <;> cases ci <;> cases ca <;> cases n <;> rfl

theorem ledgerUpdateRequest_contactID (flags : LedgerUpdateFlags) :
    ledgerUpdateRequest { flags with contactID := some 0 }
      = ledgerUpdateRequest { flags with contactID := none } := by
  obtain ⟨a, d, ci, ca, n⟩ := flags
  cases a <;> cases d <;> cases ca <;> cases n <;> rfl

theorem ledgerUpdateRequest_categoryID (flags : LedgerUpdateFlags) :
    ledgerUpdateRequest { flags with categoryID := some 0 }
      = ledgerUpdateRequest { flags with categoryID := none } := by
  obtain ⟨a, d, ci, ca, n⟩ := flags
  cases a <;> cases d <;> cases ci <;> cases n <;> rfl

/-- Claim C27: for every ledger update (client, ledger id and flags), the PUT
request built when the note is given as the empty string is the request built
when the note is not given at all, and so are their bodies; the same holds for
the date given as the empty string and for the amount, the contact id and the
category id given as zero. -/
theorem ledger_update_cleared_is_unset (c : Client) (env : Env) (id : Nat)
    (flags : LedgerUpdateFlags) :
    Op.request c env (.account (runLedgerUpdate id { flags with note := some [] }))
        = Op.request c env (.account (runLedgerUpdate id { flags with note := none }))
      ∧ marshalStruct (ledgerUpdateRequest { flags with note := some [] }).fields
        = marshalStruct (ledgerUpdateRequest { flags with note := none }).fields
      ∧ Op.request c env (.account (runLedgerUpdate id { flags with date := some [] }))
        = Op.request c env (.account (runLedgerUpdate id { flags with date := none }))
      ∧ Op.request c env
          (.account (runLedgerUpdate id { flags with amount := some Float64.zero }))
        = Op.request c env (.account (runLedgerUpdate id { flags with amount := none }))
      ∧ Op.request c env (.account (runLedgerUpdate id { flags with contactID := some 0 }))
        = Op.request c env (.account (runLedgerUpdate id { flags with contactID := none }))
      ∧ Op.request c env (.account (runLedgerUpdate id { flags with categoryID := some 0 }))
        = Op.request c env (.account (runLedgerUpdate id { flags with categoryID := none })) := by
  unfold runLedgerUpdate
  rw [ledgerUpdateRequest_note, ledgerUpdateRequest_date, ledgerUpdateRequest_amount,
    ledgerUpdateRequest_contactID, ledgerUpdateRequest_categoryID]
  exact ⟨rfl, rfl, rfl, rfl, rfl, rfl⟩

/-! ## The account path tells accounts apart -/

theorem slash_not_mem_FormatUint (u : Nat) : byteOf '/' ∉ FormatUint u := by
  intro h
  have hall := (FormatUint_props u).1
  have := List.all_eq_true.mp hall _ h
  revert this
  decide

theorem FormatUint_injective (u v : Nat) (h : FormatUint u = FormatUint v) : u = v := by
  have hu := (FormatUint_props u).2.1
  have hv := (FormatUint_props v).2.1
  rw [← hu, ← hv, h]

/-- Claim C29: for suffixes that start with `/`, two clients build the same
account path only when their account ids are equal and the suffixes are equal;
without the leading `/` this fails, as account 1 with the suffix `2/x` and
account 12 with the suffix `/x` build the same path. -/
theorem accountPath_injective (c1 c2 : Client) (r1 r2 : GoString) :
    (c1.accountPath (byteOf '/' :: r1) = c2.accountPath (byteOf '/' :: r2)
        ↔ c1.accountID = c2.accountID ∧ r1 = r2)
      ∧ (testClient.SetAccountID 1).accountPath (lit "2/x")
          = (testClient.SetAccountID 12).accountPath (lit "/x") := by
  refine ⟨⟨fun h => ?_, fun h => ?_⟩, by decide⟩
  · unfold Client.accountPath at h
    rw [List.append_assoc, List.append_assoc] at h
    have h2 := List.append_cancel_left h
    have e1 := cut_append (byteOf '/') (FormatUint c1.accountID) r1
      (slash_not_mem_FormatUint _)
    have e2 := cut_append (byteOf '/') (FormatUint c2.accountID) r2
      (slash_not_mem_FormatUint _)
    rw [h2, e2] at e1
    injection e1 with ha hb
    exact ⟨(FormatUint_injective _ _ ha).symm, hb.symm⟩
  · unfold Client.accountPath
    rw [h.1, h.2]

/-! ## The order of strings and sorted keys -/

theorem strLE_refl (a : GoString) : strLE a a = true := by
  induction a with
  | nil => rfl
  | cons x xs ih => simp [strLE, ih]

theorem strLE_total (a b : GoString) : strLE a b = true ∨ strLE b a = true := by
  induction a generalizing b with
  | nil => exact Or.inl (by cases b <;> rfl)
  | cons x xs ih =>
    cases b with
    | nil => exact Or.inr rfl
    | cons y ys =>
      by_cases h1 : x < y
      · exact Or.inl (by simp [strLE, h1])
      · by_cases h2 : y < x
        · exact Or.inr (by simp [strLE, h2])
        · rcases ih ys with h | h
          · exact Or.inl (by simp [strLE, h1, h2, h])
          · exact Or.inr (by simp [strLE, h1, h2, h])

theorem strLE_antisymm (a b : GoString) (h1 : strLE a b = true) (h2 : strLE b a = true) :
    a = b := by
  induction a generalizing b with
  | nil =>
    cases b with
    | nil => rfl
    | cons y ys => simp [strLE] at h2
  | cons x xs ih =>
    cases b with
    | nil => simp [strLE] at h1
    | cons y ys =>
      by_cases hxy : x < y
      · have hyx : ¬ y < x := fun h => absurd (lt_trans hxy h) (lt_irrefl _)
        simp [strLE, hxy, hyx] at h2
      · by_cases hyx : y < x
        · simp [strLE, hxy, hyx] at h1
        · simp only [strLE, hxy, hyx, if_false] at h1 h2
          have hx : x = y := le_antisymm (not_lt.mp hyx) (not_lt.mp hxy)
          rw [hx, ih ys h1 h2]

theorem strLE_trans (a b c : GoString) (h1 : strLE a b = true) (h2 : strLE b c = true) :
    strLE a c = true := by
  induction a generalizing b c with
  | nil => cases c <;> rfl
  | cons x xs ih =>
    cases b with
    | nil => simp [strLE] at h1
    | cons y ys =>
      cases c with
      | nil => simp [strLE] at h2
      | cons z zs =>
        by_cases hxy : x < y
        · by_cases hyz : y < z
          · simp [strLE, lt_trans hxy hyz]
          · by_cases hzy : z < y
            · simp [strLE, hyz, hzy] at h2
            · have : y = z := le_antisymm (not_lt.mp hzy) (not_lt.mp hyz)
              subst this
              simp [strLE, hxy]
        · by_cases hyx : y < x
          · simp [strLE, hxy, hyx] at h1
          · have e : x = y := le_antisymm (not_lt.mp hyx) (not_lt.mp hxy)
            subst e
            simp only [strLE, hxy, if_false] at h1
            by_cases hxz : x < z
            · simp [strLE, hxz]
            · by_cases hzx : z < x
              · simp [strLE, hxz, hzx] at h2
              · simp only [strLE, hxz, hzx, if_false] at h2 ⊢
                exact ih ys zs h1 h2

theorem sortStrings_sorted (l : List GoString) :
    (sortStrings l).Sorted (fun a b => strLE a b = true) := by
  haveI : IsTotal GoString (fun a b => strLE a b = true) := ⟨strLE_total⟩
  haveI : IsTrans GoString (fun a b => strLE a b = true) := ⟨strLE_trans⟩
  exact List.sorted_insertionSort _ l

/-- Two lists with the same strings, each once, are sorted to the same list. -/
theorem sortStrings_eq_of_mem (l1 l2 : List GoString) (h1 : l1.Nodup) (h2 : l2.Nodup)
    (h : ∀ k, k ∈ l1 ↔ k ∈ l2) : sortStrings l1 = sortStrings l2 := by
  haveI : IsAntisymm GoString (fun a b => strLE a b = true) := ⟨strLE_antisymm⟩
  have hp : (sortStrings l1).Perm (sortStrings l2) :=
    ((sortStrings_perm l1).trans ((List.perm_ext_iff_of_nodup h1 h2).mpr h)).trans
      (sortStrings_perm l2).symm
  exact List.eq_of_perm_of_sorted hp (sortStrings_sorted l1) (sortStrings_sorted l2)

/-- The keys of the pairs `Encode` writes are in ascending order. -/
theorem encodePairs_sorted (q : Values) :
    ((encodePairs q).map Prod.fst).Sorted (fun a b => strLE a b = true) := by
  unfold encodePairs
  have hs := sortStrings_sorted (q.map Prod.fst)
  generalize sortStrings (q.map Prod.fst) = ks at hs
  induction ks with
  | nil => simp
  | cons a rest ih =>
    have hs' := List.pairwise_cons.mp hs
    simp only [List.flatMap_cons, List.map_append, List.map_map]
    refine List.pairwise_append.mpr ⟨?_, ih hs'.2, ?_⟩
    · refine List.pairwise_iff_forall_sublist.mpr ?_
      intro x y hxy
      have hx : x = a := by
        have := hxy.subset (List.mem_cons_self _ _)
        simp only [List.mem_map, Function.comp_apply] at this
        obtain ⟨_, _, e⟩ := this
        exact e.symm
      have hy : y = a := by
        have := hxy.subset (List.mem_cons_of_mem _ (List.mem_cons_self _ _))
        simp only [List.mem_map, Function.comp_apply] at this
        obtain ⟨_, _, e⟩ := this
        exact e.symm
      rw [hx, hy]
      exact strLE_refl a
    · intro x hx y hy
      simp only [List.mem_map, Function.comp_apply] at hx
      obtain ⟨_, _, e⟩ := hx
      subst e
      simp only [List.mem_map, List.mem_flatMap] at hy
      obtain ⟨p, ⟨k, hk, hp⟩, e⟩ := hy
      obtain ⟨_, _, e2⟩ := hp
      subst e2
      subst e
      exact hs'.1 k hk

/-! ## The query of `get` does not depend on the order of the map -/

theorem Set_mem_keys (m : Values) (k v k' : GoString) :
    k' ∈ (m.Set k v).map Prod.fst ↔ k' = k ∨ k' ∈ m.map Prod.fst := by
  induction m with
  | nil => simp [Values.Set]
  | cons e rest ih =>
    obtain ⟨k2, vs⟩ := e
    by_cases h : k2 = k
    · subst h
      simp [Values.Set]
    · simp only [Values.Set, h, if_false, List.map_cons, List.mem_cons, ih]
      tauto

theorem setParams_mem_keys (params : Params) (q : Values) (k : GoString) :
    k ∈ (setParams q params).map Prod.fst
      ↔ k ∈ q.map Prod.fst ∨ ∃ v, v ≠ [] ∧ (k, v) ∈ params := by
  unfold setParams
  induction params generalizing q with
  | nil => simp
  | cons p rest ih =>
    obtain ⟨k', v'⟩ := p
    simp only [List.foldl_cons]
    rw [ih]
    by_cases hv : v' = []
    · subst hv
      simp only [ne_eq, not_true_eq_false, if_false, List.mem_cons, Prod.mk.injEq]
      constructor
      · rintro (h | ⟨v, hv, hm⟩)
        · exact Or.inl h
        · exact Or.inr ⟨v, hv, Or.inr hm⟩
      · rintro (h | ⟨v, hv, hm | hm⟩)
        · exact Or.inl h
        · exact absurd hm.2 hv
        · exact Or.inr ⟨v, hv, hm⟩
    · simp only [ne_eq, hv, not_false_eq_true, if_true, Set_mem_keys, List.mem_cons,
        Prod.mk.injEq]
      constructor
      · rintro ((h | h) | ⟨v, hv2, hm⟩)
        · exact Or.inr ⟨v', hv, Or.inl ⟨h, rfl⟩⟩
        · exact Or.inl h
        · exact Or.inr ⟨v, hv2, Or.inr hm⟩
      · rintro (h | ⟨v, hv2, hm | hm⟩)
        · exact Or.inl (Or.inr h)
        · exact Or.inl (Or.inl hm.1)
        · exact Or.inr ⟨v, hv2, hm⟩

/-- The encoded query depends only on the entries with a non-empty value. -/
theorem setParams_Encode_congr (q : Values) (hq : (q.map Prod.fst).Nodup) (p1 p2 : Params)
    (h1 : (p1.map Prod.fst).Nodup) (h2 : (p2.map Prod.fst).Nodup)
    (h : ∀ k v, v ≠ [] → ((k, v) ∈ p1 ↔ (k, v) ∈ p2)) :
    (setParams q p1).Encode = (setParams q p2).Encode := by
  have hkeys : sortStrings ((setParams q p1).map Prod.fst)
      = sortStrings ((setParams q p2).map Prod.fst) := by
    apply sortStrings_eq_of_mem _ _ (setParams_keys p1 q hq) (setParams_keys p2 q hq)
    intro k
    rw [setParams_mem_keys, setParams_mem_keys]
    constructor
    · rintro (hk | ⟨v, hv, hm⟩)
      · exact Or.inl hk
      · exact Or.inr ⟨v, hv, (h k v hv).mp hm⟩
    · rintro (hk | ⟨v, hv, hm⟩)
      · exact Or.inl hk
      · exact Or.inr ⟨v, hv, (h k v hv).mpr hm⟩
  have hlook : ∀ k, (setParams q p1).Lookup k = (setParams q p2).Lookup k := by
    intro k
    by_cases hex : ∃ v, v ≠ [] ∧ (k, v) ∈ p1
    · obtain ⟨v, hv, hm⟩ := hex
      rw [setParams_Lookup_of_mem p1 q k v h1 hm hv,
        setParams_Lookup_of_mem p2 q k v h2 ((h k v hv).mp hm) hv]
    · have e1 : ∀ v, (k, v) ∈ p1 → v = [] := by
        intro v hm
        by_contra hv
        exact hex ⟨v, hv, hm⟩
      have e2 : ∀ v, (k, v) ∈ p2 → v = [] := by
        intro v hm
        by_contra hv
        exact hex ⟨v, hv, (h k v hv).mpr hm⟩
      rw [setParams_Lookup_of_empty p1 q k e1, setParams_Lookup_of_empty p2 q k e2]
  unfold Values.Encode
  rw [hkeys]
  simp only [hlook]

/-- Claim C28: for every client and path and any two parameter maps with the
same entries of non-empty value (the maps are given in any iteration order and
may differ in keys mapped to the empty string; the nil map is the empty one),
`get` builds the same request, hence the same URL; and the query of the
request it builds is the `&`-joined list of escaped pairs whose keys are in
ascending order. -/
theorem get_url_deterministic (c : Client) (path : GoString) (p1 p2 : Params)
    (h1 : (p1.map Prod.fst).Nodup) (h2 : (p2.map Prod.fst).Nodup)
    (h : ∀ k v, v ≠ [] → ((k, v) ∈ p1 ↔ (k, v) ∈ p2)) :
    c.getRequest path p1 = c.getRequest path p2
      ∧ ∀ req, c.getRequest path p1 = .ok req →
          ∃ pairs : List (GoString × GoString),
            req.URL.RawQuery = joinBy (byteOf '&') (pairs.map encodePair)
              ∧ (pairs.map Prod.fst).Sorted (fun a b => strLE a b = true) := by
  refine ⟨?_, fun req hreq => ?_⟩
  · cases hp : Parse (c.baseURL ++ path) with
    | error e => simp only [Client.getRequest, hp]
    | ok u =>
      have hq : (u.Query.map Prod.fst).Nodup := ParseQuery_keys_nodup _
      simp only [Client.getRequest, hp, setParams_Encode_congr u.Query hq p1 p2 h1 h2 h]
  · obtain ⟨u, -, hr⟩ := getRequest_inv c path p1 req hreq
    exact ⟨encodePairs (setParams u.Query p1), by rw [hr, Encode_eq], encodePairs_sorted _⟩

/-- The map `b=2, a=1, z=` in this order and the map `a=1, b=2` give the same
request. -/
theorem get_url_deterministic_witness :
    testClient.getRequest (lit "/ledger") [(lit "b", lit "2"), (lit "a", lit "1"), (lit "z", [])]
      = testClient.getRequest (lit "/ledger") [(lit "a", lit "1"), (lit "b", lit "2")] :=
  (get_url_deterministic testClient (lit "/ledger")
    [(lit "b", lit "2"), (lit "a", lit "1"), (lit "z", [])]
    [(lit "a", lit "1"), (lit "b", lit "2")] (by decide) (by decide)
    (by
      intro k v hv
      simp only [List.mem_cons, Prod.mk.injEq, List.mem_singleton, List.mem_nil_iff, or_false]
      constructor
      · rintro (⟨rfl, rfl⟩ | ⟨rfl, rfl⟩ | ⟨rfl, rfl⟩)
        · exact Or.inr ⟨rfl, rfl⟩
        · exact Or.inl ⟨rfl, rfl⟩
        · exact absurd rfl hv
      · rintro (⟨rfl, rfl⟩ | ⟨rfl, rfl⟩)
        · exact Or.inr (Or.inl ⟨rfl, rfl⟩)
        · exact Or.inl ⟨rfl, rfl⟩)).1

/-! ## JSON strings of any bytes -/

/-- A byte of 0x80 or more that `decodeRune` gives the width 1 is decoded as
`RuneError`. -/
theorem decodeRune_invalid (s0 : Byte) (r : GoString) (h0 : ¬ s0.val < 0x80)
    (h : (decodeRune (s0 :: r)).2 = 1) : (decodeRune (s0 :: r)).1 = RuneError := by
  by_cases h1 : s0.val < 0xC2 ∨ 0xF4 < s0.val
  · simp [decodeRune, h0, h1]
  cases r with
  | nil => simp [decodeRune, h0, h1]
  | cons s1 r1 =>
    by_cases h2 : s1.val < (if s0.val = 0xE0 then 0xA0 else if s0.val = 0xF0 then 0x90 else 0x80)
        ∨ (if s0.val = 0xED then 0x9F else if s0.val = 0xF4 then 0x8F else 0xBF) < s1.val
    · simp [decodeRune, h0, h1, h2]
    by_cases h3 : s0.val < 0xE0
    · simp [decodeRune, h0, h1, h2, h3] at h
    have hsz2 : ¬ ((if s0.val < 0xF0 then 3 else 4) ≤ 2) := by split_ifs <;> omega
    have hsz3 : ((if s0.val < 0xF0 then 3 else 4) ≤ 3) ↔ s0.val < 0xF0 := by
      split_ifs <;> omega
    cases r1 with
    | nil => simp [decodeRune, h0, h1, h2, h3, hsz2]
    | cons s2 r2 =>
      by_cases h4 : s2.val < 0x80 ∨ 0xBF < s2.val
      · simp [decodeRune, h0, h1, h2, h3, h4, hsz2]
      by_cases h5 : s0.val < 0xF0
      · simp [decodeRune, h0, h1, h2, h3, h4, h5, hsz2, hsz3] at h
      cases r2 with
      | nil => simp [decodeRune, h0, h1, h2, h3, h4, h5, hsz2, hsz3]
      | cons s3 r3 =>
        by_cases h6 : s3.val < 0x80 ∨ 0xBF < s3.val
        · simp [decodeRune, h0, h1, h2, h3, h4, h5, h6, hsz2, hsz3]
        simp [decodeRune, h0, h1, h2, h3, h4, h5, h6, hsz2, hsz3] at h

theorem replaceInvalid_of_valid (n : Nat) : ∀ (s : GoString), s.length ≤ n →
    validUTF8 n s = true → replaceInvalid n s = s := by
  induction n with
  | zero =>
    intro s hs _
    have : s = [] := List.length_eq_zero.mp (Nat.le_zero.mp hs)
    subst this
    rfl
  | succ n ih =>
    intro s hs hv
    cases s with
    | nil => rfl
    | cons b t =>
      have hlen : t.length ≤ n := by simpa using hs
      by_cases hb : b.val < 0x80
      · have hv' : validUTF8 n t = true := by simpa [validUTF8, hb] using hv
        simp only [replaceInvalid, hb, if_true, ih t hlen hv']
      · have hk1 : (decodeRune (b :: t)).2 ≠ 1 := by
          intro e
          simp [validUTF8, hb, e] at hv
        have hk : 2 ≤ (decodeRune (b :: t)).2 := by
          have := decodeRune_size_pos b t
          omega
        have hv' : validUTF8 n (t.drop ((decodeRune (b :: t)).2 - 1)) = true := by
          simpa [validUTF8, hb, hk1] using hv
        have hlen' : (t.drop ((decodeRune (b :: t)).2 - 1)).length ≤ n := by
          simp only [List.length_drop]; omega
        have hsplit : (b :: t).take (decodeRune (b :: t)).2
            ++ t.drop ((decodeRune (b :: t)).2 - 1) = b :: t := by
          have hk' : (decodeRune (b :: t)).2 = ((decodeRune (b :: t)).2 - 1) + 1 := by omega
          rw [hk']
          simp [List.take_append_drop]
        simp only [replaceInvalid, hb, if_false, hk1, ih _ hlen' hv']
        exact hsplit

/-- A string that is valid UTF-8 arrives unchanged. -/
theorem ToValidUTF8_of_valid (s : GoString) (h : ValidString s = true) : ToValidUTF8 s = s :=
  replaceInvalid_of_valid s.length s (le_refl _) h

/-- Reading back a string that `appendString` wrote gives the string with its
invalid bytes replaced, whatever bytes it holds. -/
theorem unquoteLoop_appendString_any (n : Nat) : ∀ (s rest : GoString) (m : Nat), s.length ≤ n →
    (appendString n s).length + 1 ≤ m →
    unquoteLoop m (appendString n s ++ byteOf '"' :: rest) = some (replaceInvalid n s, rest) := by
  induction n with
  | zero =>
    intro s rest m hs hm
    have : s = [] := List.length_eq_zero.mp (Nat.le_zero.mp hs)
    subst this
    obtain ⟨m', rfl⟩ : ∃ m', m = m' + 1 := ⟨m - 1, by omega⟩
    simp [appendString, unquoteLoop_quote, replaceInvalid]
  | succ n ih =>
    intro s rest m hs hm
    obtain ⟨m', rfl⟩ : ∃ m', m = m' + 1 := ⟨m - 1, by omega⟩
    cases s with
    | nil => simp [appendString, unquoteLoop_quote, replaceInvalid]
    | cons b t =>
      have hlen : t.length ≤ n := by simpa using hs
      by_cases hb : b.val < 0x80
      · have happ : appendString (n + 1) (b :: t)
            = (if htmlSafe b = true then [b] else escapeJSONByte b) ++ appendString n t := by
          simp [appendString, hb]
        have hpl : 1 ≤ (if htmlSafe b = true then [b] else escapeJSONByte b).length := by
          split
          · simp
          · exact escapeJSONByte_length b
        rw [happ, List.length_append] at hm
        rw [happ, List.append_assoc, unquoteLoop_ascii m' b _ hb, ih t rest m' hlen (by omega)]
        simp only [replaceInvalid, hb, if_true]
        rfl
      · by_cases hk1 : (decodeRune (b :: t)).2 = 1
        · have hre := decodeRune_invalid b t hb hk1
          have happ : appendString (n + 1) (b :: t)
              = [byteOfNat 0xEF, byteOfNat 0xBF, byteOfNat 0xBD] ++ appendString n t := by
            simp only [appendString, hb, if_false, hre, hk1, and_self, if_true]
            rfl
          have hd : decodeRune [byteOfNat 0xEF, byteOfNat 0xBF, byteOfNat 0xBD] = (0xFFFD, 3) := by
            decide
          have hw := unquoteLoop_wide m' [byteOfNat 0xEF, byteOfNat 0xBF, byteOfNat 0xBD]
            (appendString n t ++ byteOf '"' :: rest) (by rw [hd]; decide)
          rw [hd] at hw
          simp only [List.take_succ_cons, List.take_zero] at hw
          rw [happ, List.length_append] at hm
          simp only [List.length_cons, List.length_nil] at hm
          rw [happ, List.append_assoc, hw, ih t rest m' hlen (by omega)]
          simp only [replaceInvalid, hb, if_false, hk1, if_true]
          rfl
        · have hk : 2 ≤ (decodeRune (b :: t)).2 := by
            have := decodeRune_size_pos b t
            omega
          obtain ⟨hle, henc, -, -, -⟩ := decodeRune_wide (b :: t) hk
          have hlen' : (t.drop ((decodeRune (b :: t)).2 - 1)).length ≤ n := by
            simp only [List.length_drop]; omega
          have hc1 : ¬ ((decodeRune (b :: t)).1 = RuneError ∧ (decodeRune (b :: t)).2 = 1) :=
            fun h => hk1 h.2
          by_cases hls : (decodeRune (b :: t)).1 = 0x2028 ∨ (decodeRune (b :: t)).1 = 0x2029
          · have happ : appendString (n + 1) (b :: t)
                = byteOf '\\' :: byteOf 'u' :: byteOf '2' :: byteOf '0' :: byteOf '2'
                    :: lowerhex ((decodeRune (b :: t)).1 % 16)
                    :: appendString n (t.drop ((decodeRune (b :: t)).2 - 1)) := by
              simp only [appendString, hb, if_false, hc1, hls, if_true]
              rfl
            rw [happ] at hm
            simp only [List.length_cons] at hm
            rw [happ]
            simp only [List.cons_append]
            rw [unquoteLoop_u4 m' _ _ _ _ 2 0 2 ((decodeRune (b :: t)).1 % 16) _ (by decide)
              (by decide) (by decide) (hexValue_lowerhex _ (by omega)) (by omega),
              ih _ rest m' hlen' (by omega)]
            have hval : ((2 * 16 + 0) * 16 + 2) * 16 + (decodeRune (b :: t)).1 % 16
                = (decodeRune (b :: t)).1 := by
              rcases hls with e | e <;> rw [e]
            rw [hval, henc]
            simp only [Option.map_some', replaceInvalid, hb, if_false, hk1]
          · have happ : appendString (n + 1) (b :: t)
                = (b :: t).take (decodeRune (b :: t)).2
                    ++ appendString n (t.drop ((decodeRune (b :: t)).2 - 1)) := by
              simp only [appendString, hb, if_false, hc1, hls]
            have htl : 1 ≤ ((b :: t).take (decodeRune (b :: t)).2).length := by
              simp only [List.length_take, List.length_cons]
              omega
            rw [happ, List.length_append] at hm
            rw [happ, List.append_assoc, unquoteLoop_wide m' (b :: t) _ hk,
              ih _ rest m' hlen' (by omega)]
            simp only [Option.map_some', replaceInvalid, hb, if_false, hk1]

/-- A string literal written by `json.Marshal` is read back as the string with
its invalid bytes replaced. -/
theorem parseValue_jsonString_any (s rest : GoString) :
    parseValue (jsonString s ++ rest) = some (JSONToken.string (ToValidUTF8 s), rest) := by
  have := unquoteLoop_appendString_any s.length s rest
    (appendString s.length s ++ byteOf '"' :: rest).length (le_refl _)
    (by simp only [List.length_append, List.length_cons]; omega)
  simp only [jsonString, List.cons_append, List.append_assoc, List.singleton_append, parseValue,
    if_true, List.nil_append]
  rw [this]
  rfl

/-! ## The config file with strings of any bytes -/

/-- The members of the text `SaveToPath` writes are the five fields of the
record, each string with its invalid bytes replaced. -/
theorem parseObject_configText_any (cfg : Config) :
    parseObject (configText cfg)
      = some [(lit "access_token", JSONToken.string (ToValidUTF8 cfg.AccessToken)),
              (lit "user_id", JSONToken.number (FormatUint cfg.UserID)),
              (lit "default_account_id", JSONToken.number (FormatUint cfg.DefaultAccountID)),
              (lit "api_url", JSONToken.string (ToValidUTF8 cfg.ApiURL)),
              (lit "client_id", JSONToken.string (ToValidUTF8 cfg.ClientID))] := by
  have k1 : ∀ b ∈ lit "access_token", htmlSafe b = true := safe_of_all _ (by decide)
  have k2 : ∀ b ∈ lit "user_id", htmlSafe b = true := safe_of_all _ (by decide)
  have k3 : ∀ b ∈ lit "default_account_id", htmlSafe b = true := safe_of_all _ (by decide)
  have k4 : ∀ b ∈ lit "api_url", htmlSafe b = true := safe_of_all _ (by decide)
  have k5 : ∀ b ∈ lit "client_id", htmlSafe b = true := safe_of_all _ (by decide)
  have key : ∀ f : Nat, parseMembers (f + 5)
      (memberText (lit "access_token") (jsonString cfg.AccessToken) (nextLine
      (memberText (lit "user_id") (FormatUint cfg.UserID) (nextLine
      (memberText (lit "default_account_id") (FormatUint cfg.DefaultAccountID) (nextLine
      (memberText (lit "api_url") (jsonString cfg.ApiURL) (nextLine
      (memberText (lit "client_id") (jsonString cfg.ClientID)
        [byteOf '\n', byteOf '\x7d'])))))))))
      = some ([(lit "access_token", JSONToken.string (ToValidUTF8 cfg.AccessToken)),
              (lit "user_id", JSONToken.number (FormatUint cfg.UserID)),
              (lit "default_account_id", JSONToken.number (FormatUint cfg.DefaultAccountID)),
              (lit "api_url", JSONToken.string (ToValidUTF8 cfg.ApiURL)),
              (lit "client_id", JSONToken.string (ToValidUTF8 cfg.ClientID))], []) := by
    intro f
    have s5 := parseMembers_last f (lit "client_id") (jsonString cfg.ClientID)
      (JSONToken.string (ToValidUTF8 cfg.ClientID)) k5 (jsonString_head _)
      (fun tail => parseValue_jsonString_any _ _)
    have s4 := parseMembers_cons (f + 1) (lit "api_url") (jsonString cfg.ApiURL) _ _
      (JSONToken.string (ToValidUTF8 cfg.ApiURL)) _ k4 (jsonString_head _)
      (fun tail => parseValue_jsonString_any _ _) ⟨_, rfl⟩ s5
    have s3 := parseMembers_cons (f + 2) (lit "default_account_id")
      (FormatUint cfg.DefaultAccountID) _ _
      (JSONToken.number (FormatUint cfg.DefaultAccountID)) _ k3 (FormatUint_head _)
      (fun tail => parseValue_FormatUint _ _ _ (Or.inl rfl)) ⟨_, rfl⟩ s4
    have s2 := parseMembers_cons (f + 3) (lit "user_id") (FormatUint cfg.UserID) _ _
      (JSONToken.number (FormatUint cfg.UserID)) _ k2 (FormatUint_head _)
      (fun tail => parseValue_FormatUint _ _ _ (Or.inl rfl)) ⟨_, rfl⟩ s3
    exact parseMembers_cons (f + 4) (lit "access_token") (jsonString cfg.AccessToken) _ _
      (JSONToken.string (ToValidUTF8 cfg.AccessToken)) _ k1 (jsonString_head _)
      (fun tail => parseValue_jsonString_any _ _) ⟨_, rfl⟩ s2
  unfold configText
  exact parseObject_of_members _ _ ⟨_, rfl⟩ key

/-- Reading the text written for a record gives the record back with the
invalid bytes of its strings replaced, when its numbers fit a `uint`. -/
theorem unmarshalConfig_configText_any (cfg : Config)
    (h4 : cfg.UserID < 2 ^ 64) (h5 : cfg.DefaultAccountID < 2 ^ 64) :
    unmarshalConfig (configText cfg)
      = some { AccessToken := ToValidUTF8 cfg.AccessToken, UserID := cfg.UserID,
               DefaultAccountID := cfg.DefaultAccountID, ApiURL := ToValidUTF8 cfg.ApiURL,
               ClientID := ToValidUTF8 cfg.ClientID } := by
  have e1 : (lit "access_token").map asciiLower = lit "access_token" := by decide
  have e2 : (lit "user_id").map asciiLower = lit "user_id" := by decide
  have e3 : (lit "default_account_id").map asciiLower = lit "default_account_id" := by decide
  have e4 : (lit "api_url").map asciiLower = lit "api_url" := by decide
  have e5 : (lit "client_id").map asciiLower = lit "client_id" := by decide
  have n21 : lit "user_id" ≠ lit "access_token" := by decide
  have n31 : lit "default_account_id" ≠ lit "access_token" := by decide
  have n32 : lit "default_account_id" ≠ lit "user_id" := by decide
  have n41 : lit "api_url" ≠ lit "access_token" := by decide
  have n42 : lit "api_url" ≠ lit "user_id" := by decide
  have n43 : lit "api_url" ≠ lit "default_account_id" := by decide
  have n51 : lit "client_id" ≠ lit "access_token" := by decide
  have n52 : lit "client_id" ≠ lit "user_id" := by decide
  have n53 : lit "client_id" ≠ lit "default_account_id" := by decide
  have n54 : lit "client_id" ≠ lit "api_url" := by decide
  have s1 : ∀ (c : Config) s, storeConfigField c (lit "access_token") (JSONToken.string s)
      = some { c with AccessToken := s } := by
    intro c s
    unfold storeConfigField
    rw [if_pos e1]
  have s2 : ∀ (c : Config) l, storeConfigField c (lit "user_id") (JSONToken.number l)
      = (parseUint l).map (fun n => { c with UserID := n }) := by
    intro c l
    unfold storeConfigField
    rw [e2, if_neg n21, if_pos rfl]
  have s3 : ∀ (c : Config) l, storeConfigField c (lit "default_account_id") (JSONToken.number l)
      = (parseUint l).map (fun n => { c with DefaultAccountID := n }) := by
    intro c l
    unfold storeConfigField
    rw [e3, if_neg n31, if_neg n32, if_pos rfl]
  have s4 : ∀ (c : Config) s, storeConfigField c (lit "api_url") (JSONToken.string s)
      = some { c with ApiURL := s } := by
    intro c s
    unfold storeConfigField
    rw [e4, if_neg n41, if_neg n42, if_neg n43, if_pos rfl]
  have s5 : ∀ (c : Config) s, storeConfigField c (lit "client_id") (JSONToken.string s)
      = some { c with ClientID := s } := by
    intro c s
    unfold storeConfigField
    rw [e5, if_neg n51, if_neg n52, if_neg n53, if_neg n54, if_pos rfl]
  unfold unmarshalConfig
  rw [parseObject_configText_any cfg]
  simp only [storeConfigFields, s1, s2, s3, s4, s5, parseUint_FormatUint _ h4,
    parseUint_FormatUint _ h5, Option.map]

/-- Claim C20, as amended: on a disk where creating the directory and writing
the file succeed, saving a configuration record (its ids within Go's 64-bit
`uint`) with `SaveToPath` returns no error, and `LoadFromPath` on the same
path then succeeds with the same user id and default account id, and with each
string as `ToValidUTF8` gives it: the access token itself when it is valid
UTF-8 and the API URL itself when it is valid UTF-8, and otherwise the string
with every byte that starts no valid encoding replaced by U+FFFD. -/
theorem SaveToPath_LoadFromPath (disk : Disk) (cfg : Config) (path : GoString)
    (hm : disk.mkdirAll path = none) (hw : disk.write path = none)
    (h4 : cfg.UserID < 2 ^ 64) (h5 : cfg.DefaultAccountID < 2 ^ 64) :
    (SaveToPath disk cfg path).1 = none
      ∧ LoadFromPath (SaveToPath disk cfg path).2 path
          = .ok { AccessToken := ToValidUTF8 cfg.AccessToken, UserID := cfg.UserID,
                  DefaultAccountID := cfg.DefaultAccountID,
                  ApiURL := ToValidUTF8 cfg.ApiURL, ClientID := ToValidUTF8 cfg.ClientID }
      ∧ (ValidString cfg.AccessToken = true → ToValidUTF8 cfg.AccessToken = cfg.AccessToken)
      ∧ (ValidString cfg.ApiURL = true → ToValidUTF8 cfg.ApiURL = cfg.ApiURL)
      ∧ (ValidString cfg.AccessToken = true → ValidString cfg.ApiURL = true →
          ∃ loaded, LoadFromPath (SaveToPath disk cfg path).2 path = .ok loaded
            ∧ loaded.AccessToken = cfg.AccessToken ∧ loaded.UserID = cfg.UserID
            ∧ loaded.DefaultAccountID = cfg.DefaultAccountID
            ∧ loaded.ApiURL = cfg.ApiURL) := by
  have hs : SaveToPath disk cfg path
      = (none, { disk with read := fun p =>
          if p = path then ReadResult.content (configText cfg) else disk.read p }) := by
    simp only [SaveToPath, hm, hw, marshalIndent_Config]
  have hl : LoadFromPath (SaveToPath disk cfg path).2 path
      = .ok { AccessToken := ToValidUTF8 cfg.AccessToken, UserID := cfg.UserID,
              DefaultAccountID := cfg.DefaultAccountID,
              ApiURL := ToValidUTF8 cfg.ApiURL, ClientID := ToValidUTF8 cfg.ClientID } := by
    rw [hs]
    simp only [LoadFromPath, if_true, unmarshalConfig_configText_any cfg h4 h5]
  refine ⟨by rw [hs], hl, ToValidUTF8_of_valid _, ToValidUTF8_of_valid _, fun h1 h2 => ?_⟩
  refine ⟨_, hl, ToValidUTF8_of_valid _ h1, rfl, rfl, ToValidUTF8_of_valid _ h2⟩

set_option maxRecDepth 100000 in
/-- The record of the repository's test is saved and loaded back unchanged;
a record that differs from it only in a client id that is not valid UTF-8 is
loaded back with the same four other fields. -/
theorem SaveToPath_LoadFromPath_witness :
    (SaveToPath emptyDisk testConfig (lit "/tmp/skyclerk/config.json")).1 = none
      ∧ LoadFromPath (SaveToPath emptyDisk testConfig (lit "/tmp/skyclerk/config.json")).2
          (lit "/tmp/skyclerk/config.json") = .ok testConfig
      ∧ LoadFromPath
          (SaveToPath emptyDisk { testConfig with ClientID := [byteOfNat 0xff] }
            (lit "/tmp/skyclerk/config.json")).2 (lit "/tmp/skyclerk/config.json")
          = .ok { testConfig with ClientID := [byteOfNat 0xEF, byteOfNat 0xBF, byteOfNat 0xBD] } :=
  ⟨(SaveToPath_LoadFromPath emptyDisk testConfig (lit "/tmp/skyclerk/config.json") rfl rfl
      (by decide) (by decide)).1,
    (SaveToPath_LoadFromPath emptyDisk testConfig (lit "/tmp/skyclerk/config.json") rfl rfl
      (by decide) (by decide)).2.1.trans rfl,
    (SaveToPath_LoadFromPath emptyDisk { testConfig with ClientID := [byteOfNat 0xff] }
      (lit "/tmp/skyclerk/config.json") rfl rfl (by decide) (by decide)).2.1.trans rfl⟩

/-! ## The body of `Login`, read as the server reads it -/

theorem marshal_LoginRequest (email password clientID : GoString) :
    marshalStruct (LoginRequest.fields
      { Username := email, Password := password, GrantType := lit "password",
        ClientID := clientID }) = .ok (loginText email password clientID) := by
  simp only [marshalStruct, writtenFields, LoginRequest.fields, List.filter, Bool.false_and,
    Bool.not_false, encodeMembers, JSONValue.encode, joinBy]
  simp only [loginText, memberCompact, List.cons_append, List.append_assoc, List.nil_append]

/-- One member of a compact object that is followed by another. -/
theorem parseMembers_compact_cons (f : Nat) (key vtext tail rest : GoString) (v : JSONToken)
    (ms : List (GoString × JSONToken))
    (hkey : ∀ b ∈ key, htmlSafe b = true)
    (hhead : ∃ x t, vtext = x :: t ∧ isJSONSpace x = false)
    (hval : ∀ tl, parseValue (vtext ++ byteOf ',' :: tl) = some (v, byteOf ',' :: tl))
    (htail : ∃ r, tail = byteOf '"' :: r)
    (hrest : parseMembers f tail = some (ms, rest)) :
    parseMembers (f + 1) (memberCompact key vtext (byteOf ',' :: tail))
      = some ((key, v) :: ms, rest) := by
  obtain ⟨x, t, rfl, hx⟩ := hhead
  obtain ⟨r, rfl⟩ := htail
  have hk := unquoteLoop_key key
    (byteOf ':' :: (x :: t) ++ byteOf ',' :: byteOf '"' :: r) hkey
  have hv := hval (byteOf '"' :: r)
  have c1 : isJSONSpace (byteOf ':') = false := by decide
  have c2 : isJSONSpace (byteOf ',') = false := by decide
  have c3 : isJSONSpace (byteOf '"') = false := by decide
  simp only [memberCompact, List.cons_append, List.append_assoc] at hk hv ⊢
  simp only [parseMembers, ne_eq, not_true_eq_false, if_false, hk, skipSpace, List.dropWhile,
    c1, c2, c3, hx, hv, if_true, hrest, Option.map_some']

/-- The last member of a compact object, followed by the closing brace. -/
theorem parseMembers_compact_last (f : Nat) (key vtext : GoString) (v : JSONToken)
    (hkey : ∀ b ∈ key, htmlSafe b = true)
    (hhead : ∃ x t, vtext = x :: t ∧ isJSONSpace x = false)
    (hval : ∀ tl, parseValue (vtext ++ byteOf '\x7d' :: tl) = some (v, byteOf '\x7d' :: tl)) :
    parseMembers (f + 1) (memberCompact key vtext [byteOf '\x7d'])
      = some ([(key, v)], []) := by
  obtain ⟨x, t, rfl, hx⟩ := hhead
  have hk := unquoteLoop_key key (byteOf ':' :: (x :: t) ++ [byteOf '\x7d']) hkey
  have hv := hval []
  have c1 : isJSONSpace (byteOf ':') = false := by decide
  have c2 : isJSONSpace (byteOf '\x7d') = false := by decide
  have c6 : byteOf '\x7d' ≠ byteOf ',' := by decide
  simp only [memberCompact, List.cons_append, List.append_assoc] at hk hv ⊢
  simp only [parseMembers, ne_eq, not_true_eq_false, if_false, hk, skipSpace, List.dropWhile,
    c1, c2, c6, hx, hv, if_true]

/-- A compact object whose members follow the opening brace directly. -/
theorem parseObject_compact (tail : GoString) (ms : List (GoString × JSONToken))
    (htail : ∃ r, tail = byteOf '"' :: r) (hlen : 3 ≤ tail.length)
    (hms : ∀ f, parseMembers (f + 4) tail = some (ms, [])) :
    parseObject (byteOf '\x7b' :: tail) = some ms := by
  obtain ⟨r, rfl⟩ := htail
  have c1 : isJSONSpace (byteOf '\x7b') = false := by decide
  have c3 : isJSONSpace (byteOf '"') = false := by decide
  have c6 : byteOf '"' ≠ byteOf '\x7d' := by decide
  obtain ⟨f, hf⟩ : ∃ f, (byteOf '\x7b' :: byteOf '"' :: r).length = f + 4 :=
    ⟨r.length - 2, by simp only [List.length_cons] at hlen ⊢; omega⟩
  have hm := hms f
  unfold parseObject
  rw [hf]
  simp only [skipSpace, List.dropWhile, c1, c3, if_true, c6, if_false, hm]

/-- The body of `Login` is read as its four members, the strings with their
invalid bytes replaced. -/
theorem parseObject_loginText (email password clientID : GoString) :
    parseObject (loginText email password clientID)
      = some [(lit "username", JSONToken.string (ToValidUTF8 email)),
              (lit "password", JSONToken.string (ToValidUTF8 password)),
              (lit "grant_type", JSONToken.string (lit "password")),
              (lit "client_id", JSONToken.string (ToValidUTF8 clientID))] := by
  have k1 : ∀ b ∈ lit "username", htmlSafe b = true := safe_of_all _ (by decide)
  have k2 : ∀ b ∈ lit "password", htmlSafe b = true := safe_of_all _ (by decide)
  have k3 : ∀ b ∈ lit "grant_type", htmlSafe b = true := safe_of_all _ (by decide)
  have k4 : ∀ b ∈ lit "client_id", htmlSafe b = true := safe_of_all _ (by decide)
  have hgt : ToValidUTF8 (lit "password") = lit "password" := by decide
  have key : ∀ f : Nat, parseMembers (f + 4)
      (memberCompact (lit "username") (jsonString email) (byteOf ',' ::
      memberCompact (lit "password") (jsonString password) (byteOf ',' ::
      memberCompact (lit "grant_type") (jsonString (lit "password")) (byteOf ',' ::
      memberCompact (lit "client_id") (jsonString clientID) [byteOf '\x7d']))))
      = some ([(lit "username", JSONToken.string (ToValidUTF8 email)),
              (lit "password", JSONToken.string (ToValidUTF8 password)),
              (lit "grant_type", JSONToken.string (lit "password")),
              (lit "client_id", JSONToken.string (ToValidUTF8 clientID))], []) := by
    intro f
    have s4 := parseMembers_compact_last f (lit "client_id") (jsonString clientID)
      (JSONToken.string (ToValidUTF8 clientID)) k4 (jsonString_head _)
      (fun tl => parseValue_jsonString_any _ _)
    have s3 := parseMembers_compact_cons (f + 1) (lit "grant_type")
      (jsonString (lit "password")) _ _ (JSONToken.string (lit "password")) _ k3
      (jsonString_head _) (fun tl => by rw [parseValue_jsonString_any, hgt]) ⟨_, rfl⟩ s4
    have s2 := parseMembers_compact_cons (f + 2) (lit "password") (jsonString password) _ _
      (JSONToken.string (ToValidUTF8 password)) _ k2 (jsonString_head _)
      (fun tl => parseValue_jsonString_any _ _) ⟨_, rfl⟩ s3
    exact parseMembers_compact_cons (f + 3) (lit "username") (jsonString email) _ _
      (JSONToken.string (ToValidUTF8 email)) _ k1 (jsonString_head _)
      (fun tl => parseValue_jsonString_any _ _) ⟨_, rfl⟩ s2
  unfold loginText
  refine parseObject_compact _ _ ⟨_, rfl⟩ ?_ key
  simp only [memberCompact, List.length_cons, List.length_append]
  omega

/-! ## `Login` -/

set_option maxRecDepth 100000 in
/-- C13 as stated fails: the passwords `0xff` and `0xe9` (single bytes that are
not valid UTF-8, which a terminal can deliver) give the same request, whose
body has `password` equal to U+FFFD and not to either password. -/
theorem Login_password_replaced :
    (AuthOp.Login (lit "user@example.com") [byteOfNat 0xff] (lit "test-client-id")).request
        testClient
      = (AuthOp.Login (lit "user@example.com") [byteOfNat 0xe9] (lit "test-client-id")).request
        testClient
      ∧ (AuthOp.Login (lit "user@example.com") [byteOfNat 0xff] (lit "test-client-id")).request
        testClient
      = .ok { Method := lit "POST",
              URL := { Base := lit "http://127.0.0.1:8080/oauth/token", RawQuery := [],
                       ForceQuery := false, Fragment := [] },
              Header := [(lit "Content-Type", [lit "application/json"]),
                         (lit "Accept", [lit "application/json"])],
              Body := Body.bytes
                (loginText (lit "user@example.com") [byteOfNat 0xff] (lit "test-client-id")) }
      ∧ parseObject (loginText (lit "user@example.com") [byteOfNat 0xff] (lit "test-client-id"))
      = some [(lit "username", JSONToken.string (lit "user@example.com")),
              (lit "password",
                JSONToken.string [byteOfNat 0xEF, byteOfNat 0xBF, byteOfNat 0xBD]),
              (lit "grant_type", JSONToken.string (lit "password")),
              (lit "client_id", JSONToken.string (lit "test-client-id"))]
      ∧ ([byteOfNat 0xEF, byteOfNat 0xBF, byteOfNat 0xBD] : GoString) ≠ [byteOfNat 0xff] :=
  ⟨rfl, rfl, rfl, by decide⟩

/-- C13, amended: for every email, password and client id, the request `Login`
builds is a POST whose URL is the base URL followed by the bare path
`/oauth/token`, without an `Authorization` header, whose body is the JSON
object `json.Marshal` writes for the record and which the server reads as
`username`, `password`, `grant_type` and `client_id`, with `grant_type` the
text `password` and each of the three others as `ToValidUTF8` gives it: the
email, the password and the client id themselves when they are valid UTF-8
(ordinary text stands verbatim between quotes); and among all operations of the
client, the requests without an `Authorization` header are exactly those of
`Login`. -/
theorem Login_request (c : Client) (email password clientID : GoString) (req : Request)
    (h : (AuthOp.Login email password clientID).request c = .ok req) :
    req.Method = lit "POST"
      ∧ Parse (c.baseURL ++ lit "/oauth/token") = .ok req.URL
      ∧ req.Header.Has (lit "Authorization") = false
      ∧ req.Body = Body.bytes (lit "\x7b\"username\":" ++ jsonString email
          ++ lit ",\"password\":" ++ jsonString password
          ++ lit ",\"grant_type\":\"password\",\"client_id\":" ++ jsonString clientID
          ++ lit "\x7d")
      ∧ (∃ body, req.Body = Body.bytes body
          ∧ parseObject body
            = some [(lit "username", JSONToken.string (ToValidUTF8 email)),
                    (lit "password", JSONToken.string (ToValidUTF8 password)),
                    (lit "grant_type", JSONToken.string (lit "password")),
                    (lit "client_id", JSONToken.string (ToValidUTF8 clientID))])
      ∧ (ValidString email = true → ToValidUTF8 email = email)
      ∧ (ValidString password = true → ToValidUTF8 password = password)
      ∧ (ValidString clientID = true → ToValidUTF8 clientID = clientID)
      ∧ ((∀ b ∈ email, htmlSafe b = true) →
          jsonString email = byteOf '"' :: email ++ [byteOf '"'])
      ∧ (∀ (env : Env) (op : Op) (req2 : Request), op.request c env = .ok req2 →
          (req2.Header.Has (lit "Authorization") = false ↔
            ∃ e p i, op = Op.auth (AuthOp.Login e p i))) := by
  have h' : c.postNoAuthRequest (lit "/oauth/token")
      (marshalStruct (LoginRequest.fields
        { Username := email, Password := password, GrantType := lit "password",
          ClientID := clientID })) = .ok req := h
  obtain ⟨jsonBody, u, hb, hp, rfl⟩ := postNoAuthRequest_inv c _ _ req h'
  have hgt : jsonString (lit "password") = lit "\"password\"" := by decide
  have hca : lit "Content-Type" ≠ lit "Authorization" := by decide
  have haa : lit "Accept" ≠ lit "Authorization" := by decide
  have hbody : jsonBody = loginText email password clientID := by
    rw [marshal_LoginRequest] at hb
    injection hb with hb
    exact hb.symm
  refine ⟨rfl, hp, by simp [Values.Has, hca, haa], ?_, ⟨jsonBody, rfl, ?_⟩,
    ToValidUTF8_of_valid _, ToValidUTF8_of_valid _, ToValidUTF8_of_valid _, ?_, ?_⟩
  · simp only [marshalStruct, writtenFields, LoginRequest.fields, List.filter, Bool.false_and,
      Bool.not_false, encodeMembers, JSONValue.encode, hgt] at hb
    injection hb with hb
    rw [← hb]
    simp [joinBy, lit, List.append_assoc]
  · rw [hbody]
    exact parseObject_loginText email password clientID
  · intro hs
    simp [jsonString, appendString_of_safe email hs email.length (le_refl _)]
  · intro env op req2 h2
    cases op with
    | account op =>
      have := request_Authorization c env (op.call c) req2 h2
      have hh := Has_of_Lookup_ne_nil req2.Header (lit "Authorization") (by simp [this])
      simp [hh]
    | auth op =>
      cases op with
      | Login e p i =>
        have h2' : c.postNoAuthRequest (lit "/oauth/token")
            (marshalStruct (LoginRequest.fields
              { Username := e, Password := p, GrantType := lit "password",
                ClientID := i })) = .ok req2 := h2
        obtain ⟨j2, u2, -, -, rfl⟩ := postNoAuthRequest_inv c _ _ req2 h2'
        simp [Values.Has, hca, haa]
      | Logout =>
        have := request_Authorization c env (Call.get _ _) req2 h2
        have hh := Has_of_Lookup_ne_nil req2.Header (lit "Authorization") (by simp [this])
        simp [hh]
      | GetAuthUser =>
        have := request_Authorization c env (Call.get _ _) req2 h2
        have hh := Has_of_Lookup_ne_nil req2.Header (lit "Authorization") (by simp [this])
        simp [hh]

set_option maxRecDepth 100000 in
/-- The login of the repository's test: the request is built, and its body is
read as the four members with the email, the password and the client id. -/
theorem Login_request_witness :
    (AuthOp.Login (lit "user@example.com") (lit "password123") (lit "test-client-id")).request
        testClient
      = .ok { Method := lit "POST",
              URL := { Base := lit "http://127.0.0.1:8080/oauth/token", RawQuery := [],
                       ForceQuery := false, Fragment := [] },
              Header := [(lit "Content-Type", [lit "application/json"]),
                         (lit "Accept", [lit "application/json"])],
              Body := Body.bytes (lit ("\x7b\"username\":\"user@example.com\","
                ++ "\"password\":\"password123\",\"grant_type\":\"password\","
                ++ "\"client_id\":\"test-client-id\"\x7d")) }
      ∧ parseObject (lit ("\x7b\"username\":\"user@example.com\","
                ++ "\"password\":\"password123\",\"grant_type\":\"password\","
                ++ "\"client_id\":\"test-client-id\"\x7d"))
          = some [(lit "username", JSONToken.string (lit "user@example.com")),
                  (lit "password", JSONToken.string (lit "password123")),
                  (lit "grant_type", JSONToken.string (lit "password")),
                  (lit "client_id", JSONToken.string (lit "test-client-id"))]
      ∧ Values.Has [(lit "Content-Type", [lit "application/json"]),
          (lit "Accept", [lit "application/json"])] (lit "Authorization") = false :=
  ⟨rfl, rfl, (Login_request testClient (lit "user@example.com") (lit "password123")
    (lit "test-client-id") _ rfl).2.2.1⟩

/-! ## The verb helpers build their requests -/

/-- When the body was marshalled, the file can be read and the URL parses,
the verb helper builds a request. -/
theorem request_built (c : Client) (env : Env) (call : Call)
    (hb : call.marshalFailed = false) (hf : call.fileFailed env = false) (u : URL)
    (hp : Parse (c.baseURL ++ call.path) = .ok u) :
    ∃ req, c.request env call = .ok req := by
  cases call with
  | get path params =>
    obtain ⟨req, h, -⟩ := getRequest_of_Parse c path params u hp
    exact ⟨req, h⟩
  | post path body =>
    cases body with
    | error e => simp [Call.marshalFailed] at hb
    | ok jsonBody =>
      simp only [Call.path] at hp
      simp only [Client.request, Client.postRequest, NewRequest, hp]
      exact ⟨_, rfl⟩
  | put path body =>
    cases body with
    | error e => simp [Call.marshalFailed] at hb
    | ok jsonBody =>
      simp only [Call.path] at hp
      simp only [Client.request, Client.putRequest, NewRequest, hp]
      exact ⟨_, rfl⟩
  | delete path =>
    simp only [Call.path] at hp
    simp only [Client.request, Client.deleteRequest, NewRequest, hp]
    exact ⟨_, rfl⟩
  | uploadFile path filePath fields =>
    simp only [Call.path] at hp
    cases hr : env.readFile filePath with
    | openError e => simp [Call.fileFailed, hr] at hf
    | readError e => simp [Call.fileFailed, hr] at hf
    | content data =>
      simp only [Client.request, Client.uploadFileRequest, hr, NewRequest, hp]
      exact ⟨_, rfl⟩

/-- C4: whatever the token (the empty one included), the path, the parameters,
the body or the file, every request built by `get`, `post`, `put`, `delete` or
`uploadFile` carries the header `Authorization` with the value `Bearer `
followed by the token, and nothing else under that key; and each of the five
does build such a request whenever the body was marshalled, the file can be
read and the URL parses (otherwise it returns its error before any request
exists). -/
theorem request_carries_bearer (c : Client) (env : Env) (call : Call) :
    (∀ req, c.request env call = .ok req →
        req.Header.Lookup (lit "Authorization") = [lit "Bearer " ++ c.accessToken])
      ∧ (call.marshalFailed = false → call.fileFailed env = false →
          (∃ u, Parse (c.baseURL ++ call.path) = .ok u) →
          ∃ req, c.request env call = .ok req
            ∧ req.Header.Lookup (lit "Authorization") = [lit "Bearer " ++ c.accessToken]) := by
  refine ⟨fun req h => request_Authorization c env call req h, fun hb hf hu => ?_⟩
  obtain ⟨u, hp⟩ := hu
  obtain ⟨req, h⟩ := request_built c env call hb hf u hp
  exact ⟨req, h, request_Authorization c env call req h⟩

set_option maxRecDepth 100000 in
/-- Each of the five verb helpers builds a request with the header for the
client of the repository's tests. -/
theorem request_carries_bearer_witness :
    (∃ req, testClient.request testEnv (Call.get (lit "/test") []) = .ok req
        ∧ req.Header.Lookup (lit "Authorization") = [lit "Bearer test-token"])
      ∧ (∃ req, testClient.request testEnv (Call.post (lit "/test") (.ok (lit "\x7b\x7d")))
          = .ok req
        ∧ req.Header.Lookup (lit "Authorization") = [lit "Bearer test-token"])
      ∧ (∃ req, testClient.request testEnv (Call.put (lit "/test") (.ok (lit "\x7b\x7d")))
          = .ok req
        ∧ req.Header.Lookup (lit "Authorization") = [lit "Bearer test-token"])
      ∧ (∃ req, testClient.request testEnv (Call.delete (lit "/test")) = .ok req
        ∧ req.Header.Lookup (lit "Authorization") = [lit "Bearer test-token"])
      ∧ (∃ req, testClient.request testEnv
            (Call.uploadFile (lit "/api/v3/1/files") (lit "/tmp/receipt.jpg") []) = .ok req
        ∧ req.Header.Lookup (lit "Authorization") = [lit "Bearer test-token"]) :=
  ⟨(request_carries_bearer testClient testEnv (Call.get (lit "/test") [])).2 rfl rfl ⟨_, rfl⟩,
    (request_carries_bearer testClient testEnv
      (Call.post (lit "/test") (.ok (lit "\x7b\x7d")))).2 rfl rfl ⟨_, rfl⟩,
    (request_carries_bearer testClient testEnv
      (Call.put (lit "/test") (.ok (lit "\x7b\x7d")))).2 rfl rfl ⟨_, rfl⟩,
    (request_carries_bearer testClient testEnv (Call.delete (lit "/test"))).2 rfl rfl ⟨_, rfl⟩,
    (request_carries_bearer testClient testEnv
      (Call.uploadFile (lit "/api/v3/1/files") (lit "/tmp/receipt.jpg") [])).2 rfl rfl
      ⟨_, rfl⟩⟩

/-! ## A query that is already in the path -/

set_option maxRecDepth 100000 in
/-- C8 as stated fails: for the path `/test?y=1` and the map with the single
entry `a=1`, the query of the URL `get` builds is `a=1&y=1`; decoding it gives
the key `y`, which is no key of the map. -/
theorem get_query_keeps_path_query :
    testClient.getRequest (lit "/test?y=1") [(lit "a", lit "1")]
        = .ok (testGet (lit "/test") (lit "a=1&y=1"))
      ∧ (ParseQuery (testGet (lit "/test") (lit "a=1&y=1")).URL.RawQuery).Has (lit "y") = true
      ∧ (ParseQuery (testGet (lit "/test") (lit "a=1&y=1")).URL.RawQuery).Lookup (lit "y")
          = [lit "1"]
      ∧ lit "y" ∉ ([(lit "a", lit "1")] : Params).map Prod.fst := by
  refine ⟨rfl, by decide, by decide, by decide⟩

/-! ## `DeleteCategory` -/

/-- C15: for every account id `n` and category id `k`, `DeleteCategory(k)` hands
the path `/api/v3/n/categories/k` to `delete`, which (the URL parsing) builds a
DELETE request without a body for the base URL followed by that path; that
request is sent, and `DeleteCategory` returns success, without decoding
anything, for every response to it with a status in [200,300), whatever its
body (an empty one, as with 204, included), and for no other outcome. -/
theorem DeleteCategory_ok (c : Client) (env : Env) (unmarshal : Unmarshal) (k : Nat) (u : URL)
    (hurl : Parse (c.baseURL ++ (lit "/api/v3/" ++ lit (Nat.repr c.accountID)
      ++ lit "/categories/" ++ lit (Nat.repr k))) = .ok u) :
    (AccountOp.DeleteCategory k).call c
        = Call.delete (lit "/api/v3/" ++ lit (Nat.repr c.accountID) ++ lit "/categories/"
            ++ lit (Nat.repr k))
      ∧ ∃ req, (Op.account (AccountOp.DeleteCategory k)).request c env = .ok req
          ∧ req.Method = lit "DELETE"
          ∧ req.URL = u
          ∧ req.Body = Body.none
          ∧ (∀ status body, env.send req = .response status (.ok body) →
              200 ≤ status → status < 300 →
              (Op.account (AccountOp.DeleteCategory k)).run c env unmarshal = .ok none)
          ∧ ((Op.account (AccountOp.DeleteCategory k)).run c env unmarshal = .ok none →
              ∃ status body, env.send req = .response status (.ok body)
                ∧ 200 ≤ status ∧ status < 300) := by
  have hcall : (AccountOp.DeleteCategory k).call c
      = Call.delete (lit "/api/v3/" ++ lit (Nat.repr c.accountID) ++ lit "/categories/"
          ++ lit (Nat.repr k)) := by
    simp [AccountOp.call, Client.accountPath, FormatUint_eq_repr, List.append_assoc]
  have hreq : (Op.account (AccountOp.DeleteCategory k)).request c env
      = .ok ((({ Method := lit "DELETE", URL := u, Header := [], Body := Body.none } :
          Request).SetHeader (lit "Authorization") (lit "Bearer " ++ c.accessToken)).SetHeader
          (lit "Accept") (lit "application/json")) := by
    simp only [Op.request]
    rw [hcall]
    simp only [Client.request, Client.deleteRequest, NewRequest, hurl]
  refine ⟨hcall, _, hreq, rfl, rfl, rfl, ?_, ?_⟩
  · intro status body hs h1 h2
    have hns : ¬ (status < 200 ∨ status ≥ 300) := by omega
    simp [Op.run, hreq, Client.finish, Client.doRequest, hs, hns, Op.parseContext,
      AccountOp.parseContext]
  · intro hrun
    simp only [Op.run, hreq, Client.finish, Client.doRequest] at hrun
    split at hrun
    · rename_i err he
      split at he
      · cases hrun
      · cases hrun
      · cases hrun
    · rename_i data he
      split at he
      · cases he
      · cases he
      · rename_i status body hsend
        split at he
        · cases he
        · rename_i hst
          exact ⟨status, body, hsend, by omega, by omega⟩

set_option maxRecDepth 100000 in
/-- The scenario of the repository's test: the DELETE for category 5 of
account 1 is built, and a 204 with an empty body is success although nothing
could be decoded from it. -/
theorem DeleteCategory_ok_witness :
    (Op.account (AccountOp.DeleteCategory 5)).request testClient (answering 204 [])
        = .ok { Method := lit "DELETE",
                URL := { Base := lit "http://127.0.0.1:8080/api/v3/1/categories/5",
                         RawQuery := [], ForceQuery := false, Fragment := [] },
                Header := [(lit "Authorization", [lit "Bearer test-token"]),
                           (lit "Accept", [lit "application/json"])],
                Body := Body.none }
      ∧ (Op.account (AccountOp.DeleteCategory 5)).run testClient (answering 204 [])
          (fun _ => some (lit "unexpected end of JSON input")) = .ok none
      ∧ (Op.account (AccountOp.DeleteCategory 5)).run testClient (answering 500 (lit "boom"))
          (fun _ => none)
        = .error (lit "unable to delete category: API error (status 500): boom") :=
  ⟨rfl,
    Exists.elim (DeleteCategory_ok testClient (answering 204 [])
      (fun _ => some (lit "unexpected end of JSON input")) 5 _ rfl).2
      (fun _ h => h.2.2.2.2.1 204 [] rfl (by decide) (by decide)),
    rfl⟩

/-! ## The paths of the ledger summaries -/

set_option maxRecDepth 100000 in
/-- C18 as stated fails: on account 1 `GetLedgerSummary` sends its GET to
`/api/v3/1/ledger-summary`, not to `/api/v3/1/ledger/summary`. -/
theorem GetLedgerSummary_not_ledger_summary :
    (Op.account (AccountOp.GetLedgerSummary [])).request testClient testEnv
        = .ok (testGet (lit "/api/v3/1/ledger-summary") [])
      ∧ (testGet (lit "/api/v3/1/ledger-summary") []).URL.Base
          ≠ lit "http://127.0.0.1:8080" ++ lit "/api/v3/1/ledger/summary"
      ∧ ((AccountOp.GetLedgerSummary []).call testClient).path
          ≠ lit "/api/v3/1/ledger/summary" := by
  refine ⟨rfl, by decide, by decide⟩

/-- C18, amended: for every account id `n`, `GetLedgerSummary` hands the path
`/api/v3/n/ledger-summary` and its parameters to `get`, which (the URL parsing)
builds a GET request for the base URL followed by that path. -/
theorem GetLedgerSummary_path (c : Client) (env : Env) (params : Params) (u : URL)
    (hp : Parse (c.baseURL ++ (lit "/api/v3/" ++ lit (Nat.repr c.accountID)
      ++ lit "/ledger-summary")) = .ok u) :
    (AccountOp.GetLedgerSummary params).call c
        = Call.get (lit "/api/v3/" ++ lit (Nat.repr c.accountID) ++ lit "/ledger-summary") params
      ∧ ∃ req, (Op.account (AccountOp.GetLedgerSummary params)).request c env = .ok req
          ∧ req.Method = lit "GET"
          ∧ req.URL.Base = u.Base := by
  have hcall : (AccountOp.GetLedgerSummary params).call c
      = Call.get (lit "/api/v3/" ++ lit (Nat.repr c.accountID) ++ lit "/ledger-summary")
          params := by
    simp [AccountOp.call, Client.accountPath, FormatUint_eq_repr]
  obtain ⟨req, h, -, hbase, hm⟩ := getRequest_Base c _ params u hp
  refine ⟨hcall, req, ?_, hm, hbase⟩
  simp only [Op.request]
  rw [hcall]
  exact h

set_option maxRecDepth 100000 in
/-- The call of the repository's test, on account 1. -/
theorem GetLedgerSummary_path_witness :
    ∃ req, (Op.account (AccountOp.GetLedgerSummary [])).request testClient testEnv = .ok req
      ∧ req.Method = lit "GET"
      ∧ req.URL.Base = lit "http://127.0.0.1:8080/api/v3/1/ledger-summary" :=
  (GetLedgerSummary_path testClient testEnv []
    { Base := lit "http://127.0.0.1:8080/api/v3/1/ledger-summary", RawQuery := [],
      ForceQuery := false, Fragment := [] } rfl).2

set_option maxRecDepth 100000 in
/-- C19 as stated fails: on account 1 `GetLedgerPL` sends its GET to
`/api/v3/1/ledger-pl-summary`, not to `/api/v3/1/ledger/pl`. -/
theorem GetLedgerPL_not_ledger_pl :
    (Op.account (AccountOp.GetLedgerPL [])).request testClient testEnv
        = .ok (testGet (lit "/api/v3/1/ledger-pl-summary") [])
      ∧ (testGet (lit "/api/v3/1/ledger-pl-summary") []).URL.Base
          ≠ lit "http://127.0.0.1:8080" ++ lit "/api/v3/1/ledger/pl"
      ∧ ((AccountOp.GetLedgerPL []).call testClient).path ≠ lit "/api/v3/1/ledger/pl" := by
  refine ⟨rfl, by decide, by decide⟩

/-- C19, amended: for every account id `n`, `GetLedgerPL` hands the path
`/api/v3/n/ledger-pl-summary` and its parameters to `get`, which (the URL
parsing) builds a GET request for the base URL followed by that path. -/
theorem GetLedgerPL_path (c : Client) (env : Env) (params : Params) (u : URL)
    (hp : Parse (c.baseURL ++ (lit "/api/v3/" ++ lit (Nat.repr c.accountID)
      ++ lit "/ledger-pl-summary")) = .ok u) :
    (AccountOp.GetLedgerPL params).call c
        = Call.get (lit "/api/v3/" ++ lit (Nat.repr c.accountID) ++ lit "/ledger-pl-summary")
            params
      ∧ ∃ req, (Op.account (AccountOp.GetLedgerPL params)).request c env = .ok req
          ∧ req.Method = lit "GET"
          ∧ req.URL.Base = u.Base := by
  have hcall : (AccountOp.GetLedgerPL params).call c
      = Call.get (lit "/api/v3/" ++ lit (Nat.repr c.accountID) ++ lit "/ledger-pl-summary")
          params := by
    simp [AccountOp.call, Client.accountPath, FormatUint_eq_repr]
  obtain ⟨req, h, -, hbase, hm⟩ := getRequest_Base c _ params u hp
  refine ⟨hcall, req, ?_, hm, hbase⟩
  simp only [Op.request]
  rw [hcall]
  exact h

set_option maxRecDepth 100000 in
/-- The call of the repository's test, on account 1. -/
theorem GetLedgerPL_path_witness :
    ∃ req, (Op.account (AccountOp.GetLedgerPL [])).request testClient testEnv = .ok req
      ∧ req.Method = lit "GET"
      ∧ req.URL.Base = lit "http://127.0.0.1:8080/api/v3/1/ledger-pl-summary" :=
  (GetLedgerPL_path testClient testEnv []
    { Base := lit "http://127.0.0.1:8080/api/v3/1/ledger-pl-summary", RawQuery := [],
      ForceQuery := false, Fragment := [] } rfl).2

end Skyclerk
